import Mathlib

/-!
# GQCP: configuration-space addressing, product-space dimensions and tensors

A shallow embedding of `src/FockSpace/ProductFockSpace.cpp`, of
`include/math/Tensor.hpp`, of the array configuration in
`src/LibcintCommunicator.cpp` and of the addressing contract of the
single-type, product and selected configuration spaces, together with the
properties proved about them.

Conventions.
* `size_t` is a natural number below `2 ^ 64`.
* The only `double` values that occur in `ProductFockSpace::calculateDimension`
  are non-negative integers (a `size_t` converted to `double`, and the product
  of two such values).  Such a `double` is represented by the natural number it
  denotes; conversion and multiplication round to the nearest representable
  value, ties to even, as IEEE-754 binary64 prescribes (`roundToDouble`).
* The doubles that `Tensor::isApprox` subtracts and compares are values of
  `Double`: NaN, the infinities and the finite binary64 numbers, with the
  rounded subtraction and the comparisons of IEEE 754.
* A C++ function that may throw returns `Except Error _`.
* A `for` loop is the fold of its body over the values of its counter
  (`forLoop`); a tensor is its dimensions together with its coefficients as a
  function of the index list.
* A C array is a function of its index; `static_cast<int>` wraps modulo
  `2 ^ 32`.
-/

namespace GQCP

/-! ## Exceptions -/

/-- The standard exceptions thrown by the library. -/
inductive Error where
  | overflow_error
  | domain_error
  | invalid_argument
  | runtime_error
  deriving DecidableEq, Repr

/-- The two range failures of `boost::numeric::converter` (both derive from
`boost::numeric::bad_numeric_cast`). -/
inductive bad_numeric_cast where
  | negative_overflow
  | positive_overflow
  deriving DecidableEq, Repr

deriving instance DecidableEq for Except

/-! ## Machine numbers -/

/-- The largest value of `size_t` (64 bits). -/
def size_t_max : Nat := 2 ^ 64 - 1

/-- Number of binary digits of `n`, computed with `fuel` halvings. -/
def bitLengthAux : Nat → Nat → Nat
  | 0, _ => 0
  | fuel + 1, n => if n = 0 then 0 else bitLengthAux fuel (n / 2) + 1

/-- Number of binary digits of `n` (`0` for `n = 0`). -/
def bitLength (n : Nat) : Nat := bitLengthAux n n

/-- The binary64 value nearest to the natural number `n`, ties to even.
A binary64 significand has 53 bits: below `2 ^ 53` every natural number is
representable; above, the lowest `e = bitLength n - 53` bits are rounded away.
(Valid below the binary64 overflow threshold; every number rounded in this
development is below `2 ^ 128`.) -/
def roundToDouble (n : Nat) : Nat :=
  if n < 2 ^ 53 then n
  else
    let e := bitLength n - 53
    let q := n / 2 ^ e
    let r := n % 2 ^ e
    let half := 2 ^ (e - 1)
    if r < half ∨ (r = half ∧ q % 2 = 0) then q * 2 ^ e else (q + 1) * 2 ^ e

/-- The product of two binary64 values: the exact product, rounded. -/
def doubleMul (x y : Nat) : Nat := roundToDouble (x * y)

/-- `boost::numeric::converter<size_t, double>::convert` on a non-negative
integral `double`.  With the default policies the range check is
`s >= static_cast<double>(highest) + 1.0` (positive overflow), and the
in-range value is truncated towards zero, which leaves an integral value
unchanged. -/
def converter_convert (s : Nat) : Except bad_numeric_cast Nat :=
  if roundToDouble (roundToDouble size_t_max + 1) ≤ s then
    .error .positive_overflow
  else
    .ok s

/-! ## Single-type space -/

/-- Modelled from the spec: `FockSpace::calculateDimension` is not part of the
available sources.  Section 4.2: `dimension()` is `C(K, N)` and fails with an
overflow error if the exact value cannot be represented in the target address
width. -/
def FockSpace.calculateDimension (K N : Nat) : Except Error Nat :=
  if Nat.choose K N ≤ size_t_max then .ok (Nat.choose K N) else .error .overflow_error

/-- Modelled from the spec: the single-type configuration space is defined by
`(K, N)` and has a dimension. -/
structure FockSpace where
  K : Nat
  N : Nat
  dim : Nat
  deriving DecidableEq, Repr

/-- Modelled from the spec: the constructor `FockSpace(K, N)`; it computes
the dimension first and fails if that fails. -/
def FockSpace.new (K N : Nat) : Except Error FockSpace :=
  match FockSpace.calculateDimension K N with
  | .ok dim => .ok { K := K, N := N, dim := dim }
  | .error e => .error e

/-! ## Product space (`src/FockSpace/ProductFockSpace.cpp`) -/

/-- `ProductFockSpace::calculateDimension(K, N_alpha, N_beta)`: both
single-type dimensions are converted to `double`, multiplied as `double`s and
converted back to `size_t`; a `bad_numeric_cast` is rethrown as
`std::overflow_error`. -/
def ProductFockSpace.calculateDimension (K N_alpha N_beta : Nat) : Except Error Nat :=
  match FockSpace.calculateDimension K N_alpha with
  | .error e => .error e
  | .ok a =>
    match FockSpace.calculateDimension K N_beta with
    | .error e => .error e
    | .ok b =>
      let alpha_dim := roundToDouble a
      let beta_dim := roundToDouble b
      match converter_convert (doubleMul alpha_dim beta_dim) with
      | .ok dim => .ok dim
      | .error _ => .error .overflow_error

/-- The product space: the `BaseFockSpace` part `(K, dim)` and the two
single-type sub-spaces. -/
structure ProductFockSpace where
  K : Nat
  dim : Nat
  fock_space_alpha : FockSpace
  fock_space_beta : FockSpace
  deriving DecidableEq, Repr

/-- The constructor `ProductFockSpace(K, N_alpha, N_beta)`: the base-class
initialiser evaluates `calculateDimension` first, then the two members are
built in declaration order. -/
def ProductFockSpace.new (K N_alpha N_beta : Nat) : Except Error ProductFockSpace :=
  match ProductFockSpace.calculateDimension K N_alpha N_beta with
  | .error e => .error e
  | .ok dim =>
    match FockSpace.new K N_alpha with
    | .error e => .error e
    | .ok fa =>
      match FockSpace.new K N_beta with
      | .error e => .error e
      | .ok fb => .ok { K := K, dim := dim, fock_space_alpha := fa, fock_space_beta := fb }


/-! ## Product-space addressing -/

/-- Modelled from the spec: `compose` is not part of the available sources.
Section 4.3: `compose(alpha_address, beta_address)` is
`alpha_address × dim_beta + beta_address`. -/
def ProductFockSpace.compose (P : ProductFockSpace) (alpha_address beta_address : Nat) : Nat :=
  alpha_address * P.fock_space_beta.dim + beta_address

/-- Modelled from the spec: `decompose` is not part of the available sources.
Section 4.3: `decompose(address)` is the pair `alpha = address / dim_beta`,
`beta = address % dim_beta`. -/
def ProductFockSpace.decompose (P : ProductFockSpace) (address : Nat) : Nat × Nat :=
  (address / P.fock_space_beta.dim, address % P.fock_space_beta.dim)

/-! ## Occupation number vectors and the combinatorial address table -/

/-- Modelled from the spec: an occupation number vector is a bitstring of
length `K`; entry `p` tells whether orbital `p` is occupied. -/
abbrev ONV := List Bool

/-- Whether orbital `p` is occupied. -/
def ONV.isOccupied (onv : ONV) (p : Nat) : Bool := onv.getD p false

/-- The number of set bits. -/
def ONV.popcount (onv : ONV) : Nat := onv.count true

/-- Modelled from the spec: ranking in the combinatorial number system.  The
bits are scanned from orbital `p` upwards with `m` electrons counted so far;
the `(m+1)`-th electron, found in orbital `p`, contributes the table entry
`C(p, m+1)`. -/
def rankBits : List Bool → Nat → Nat → Nat
  | [], _, _ => 0
  | true :: rest, p, m => Nat.choose p (m + 1) + rankBits rest (p + 1) (m + 1)
  | false :: rest, p, m => rankBits rest (p + 1) m

/-- Modelled from the spec: unranking in `O(K)` table look-ups.  Orbitals are
visited from the highest (`p`) down; with `m` electrons left to place, orbital
`p` is occupied exactly when the table entry `C(p, m)` does not exceed the
remaining address.  The result lists the orbitals from the highest down. -/
def unrankBits : Nat → Nat → Nat → List Bool
  | 0, _, _ => []
  | p + 1, m, address =>
    if 0 < m ∧ Nat.choose p m ≤ address then
      true :: unrankBits p (m - 1) (address - Nat.choose p m)
    else
      false :: unrankBits p m address

/-- Modelled from the spec: `rank(onv)` for a space with `N` particles fails
with a domain error if the population count of the ONV is not `N`
(section 4.1). -/
def FockSpace.rank (N : Nat) (onv : ONV) : Except Error Nat :=
  if onv.popcount = N then .ok (rankBits onv 0 0) else .error .domain_error

/-- Modelled from the spec: `unrank(address, K, N)` fails with a domain error
if `address ≥ C(K, N)` (section 4.1). -/
def FockSpace.unrank (address K N : Nat) : Except Error ONV :=
  if Nat.choose K N ≤ address then .error .domain_error
  else .ok (unrankBits K N address).reverse

/-- Ranking of a bitstring listed from the highest orbital down: the electron
in the head position sits in orbital `rest.length` and is the
`(rest.count true + 1)`-th electron. -/
def rankDesc : List Bool → Nat
  | [] => 0
  | true :: rest => Nat.choose rest.length (rest.count true + 1) + rankDesc rest
  | false :: rest => rankDesc rest

/-! ## Single excitations -/

/-- An element of the sequence produced by `generateSingleExcitations`:
(target address, sign, annihilated orbital, created orbital). -/
structure SingleExcitation where
  address : Nat
  sign : Int
  p : Nat
  q : Nat
  deriving DecidableEq, Repr

/-- The occupied orbitals of an ONV, in increasing order. -/
def ONV.occupiedOrbitals (onv : ONV) : List Nat :=
  (List.range onv.length).filter fun p => onv.isOccupied p

/-- The unoccupied orbitals of an ONV, in increasing order. -/
def ONV.unoccupiedOrbitals (onv : ONV) : List Nat :=
  (List.range onv.length).filter fun q => !onv.isOccupied q

/-- The ONV with bit `p` cleared and bit `q` set. -/
def ONV.excite (onv : ONV) (p q : Nat) : ONV := (onv.set p false).set q true

/-- The number of occupied orbitals strictly between `p` and `q`. -/
def ONV.countBetween (onv : ONV) (p q : Nat) : Nat :=
  ((List.range onv.length).filter fun r =>
    decide (min p q < r) && decide (r < max p q) && onv.isOccupied r).length

/-- Modelled from the spec: `generateSingleExcitations` is not part of the
available sources.  Section 4.2: for every occupied orbital `p` and every
unoccupied orbital `q`, the tuple of the address of the ONV with `p` cleared
and `q` set, the sign `(-1) ^ (number of occupied orbitals strictly between p
and q)`, and the two orbitals. -/
def FockSpace.generateSingleExcitations (onv : ONV) : List SingleExcitation :=
  (List.product onv.occupiedOrbitals onv.unoccupiedOrbitals).map fun pq =>
    { address := rankBits (onv.excite pq.1 pq.2) 0 0
      sign := (-1) ^ onv.countBetween pq.1 pq.2
      p := pq.1
      q := pq.2 }

/-! ## Selected space -/

/-- A configuration: a pair (alpha ONV, beta ONV). -/
structure Configuration where
  onv_alpha : ONV
  onv_beta : ONV
  deriving DecidableEq, Repr

/-- Modelled from the spec: the selected configuration space is an ordered
list of configurations; the address of a configuration is its position. -/
structure SelectedFockSpace where
  K : Nat
  configurations : List Configuration
  deriving DecidableEq, Repr

/-- The dimension of a selected space: the number of stored configurations. -/
def SelectedFockSpace.dim (S : SelectedFockSpace) : Nat := S.configurations.length

/-- Modelled from the spec: the bulk constructor from a single-type space
appends, in address order, the configuration of every address; the ONV of the
address is used for both particle types. -/
def SelectedFockSpace.ofFockSpace (F : FockSpace) : SelectedFockSpace :=
  { K := F.K
    configurations := (List.range F.dim).map fun address =>
      let onv : ONV := (unrankBits F.K F.N address).reverse
      { onv_alpha := onv, onv_beta := onv } }

/-- Modelled from the spec: `SelectedRDMBuilder::calculateElement` is not part
of the available sources.  Sections 4.4 and 8: the general operator-string
element calculation on a selected space is unsupported and fails with the
"not implemented" runtime error. -/
def SelectedRDMBuilder.calculateElement (_space : SelectedFockSpace)
    (_bra_indices _ket_indices : List Nat) (_x : List Rat) : Except Error Rat :=
  .error .runtime_error

/-! ## Checking the overflow behaviour row by row -/

/-- The binomial coefficients `C(K, n), C(K, n+1), ...` of row `K` computed by
the multiplicative recurrence, up to the first one that does not fit `size_t`. -/
def chooseRow (K : Nat) : Nat → Nat → Nat → List Nat
  | 0, _, _ => []
  | fuel + 1, n, c =>
    if c < 2 ^ 64 then c :: chooseRow K fuel (n + 1) (c * (K - n) / (n + 1)) else []

/-- The single-type dimensions `C(K, n)`, `n ≤ K / 2`, that fit `size_t`. -/
def smallDims (K : Nat) : List Nat := chooseRow K (K / 2 + 1) 0 1

/-- For row `K`: every pair of dimensions `a > 2 ^ 53`, `b < 2 ^ 11` whose
product is at least `2 ^ 64` keeps a product of at least `2 ^ 64` when `a` is
lowered by `1024`, the largest rounding error of a `size_t` value. -/
def checkRow (K : Nat) : Bool :=
  (smallDims K).all fun a =>
    decide (a ≤ 2 ^ 53) ||
    (smallDims K).all fun b =>
      decide (2 ^ 11 ≤ b) || decide (a * b < 2 ^ 64) || decide (2 ^ 64 ≤ (a - 1024) * b)

/-- All rows below `K` pass `checkRow`. -/
def checkRowsBelow : Nat → Bool
  | 0 => true
  | K + 1 => checkRow K && checkRowsBelow K

/-! ## Loops -/

/-- The loop `for (size_t x = 0; x < n; x++) body`, as a transformer of the
state the body works on. -/
def forLoop {σ : Type} (n : Nat) (body : Nat → σ → σ) (init : σ) : σ :=
  (List.range n).foldl (fun s x => body x s) init

/-- The loop `for (size_t x = 0; x < n; x++) { if (!test x) return false; }`
followed by `return true`. -/
def allLoop (n : Nat) (test : Nat → Bool) : Bool :=
  (List.range n).all test

/-- The difference of two `size_t` values (it wraps around below zero). -/
def size_t_sub (a b : Nat) : Nat :=
  if b ≤ a then a - b else 2 ^ 64 - (b - a)

/-! ## Tensors and matrices (`include/math/Tensor.hpp`) -/

/-- The class `Tensor<Scalar, Rank>`: its dimensions and its coefficients.
`coeff [i, j, k, l]` is the element `T(i,j,k,l)`.  Element access is within the
contract of `Eigen::Tensor` only for indices below the dimensions; the
embedding gives every index list a cell of its own. -/
structure Tensor (Scalar : Type) (Rank : Nat) where
  dimension : Fin Rank → Nat
  coeff : List Nat → Scalar

/-- A dynamically sized matrix (`Matrix<Scalar>`, `MatrixX<Scalar>`): the
numbers of rows and columns and the coefficients `M(x, y)`. -/
structure MatrixX (Scalar : Type) where
  rows : Nat
  cols : Nat
  coeff : Nat → Nat → Scalar

/-- The element `T(i,j,k,l)` of a rank-4 tensor. -/
def Tensor.get {Scalar : Type} (T : Tensor Scalar 4) (i j k l : Nat) : Scalar :=
  T.coeff [i, j, k, l]

/-- The assignment `T(i,j,k,l) = v`. -/
def Tensor.set {Scalar : Type} (T : Tensor Scalar 4) (i j k l : Nat) (v : Scalar) :
    Tensor Scalar 4 :=
  { T with coeff := fun idx => if idx = [i, j, k, l] then v else T.coeff idx }

/-- The assignment `M(x, y) = v`. -/
def MatrixX.set {Scalar : Type} (M : MatrixX Scalar) (x y : Nat) (v : Scalar) : MatrixX Scalar :=
  { M with coeff := fun a b => if a = x ∧ b = y then v else M.coeff a b }

/-- The tensor of the given dimensions after `setZero()`. -/
def Tensor.zero {Scalar : Type} [Zero Scalar] (d0 d1 d2 d3 : Nat) : Tensor Scalar 4 :=
  { dimension := fun n => [d0, d1, d2, d3].getD n.val 0
    coeff := fun _ => 0 }

/-- `Tensor::FromBlock(T, i, j, k, l, desize)`: a tensor of dimensions
`T.dimension(n) - start - desize`, set to zero and then filled with
`T(i+p, j+q, k+r, l+s)`.  (The source builds a `Tensor<double, Rank>`; the
scalar type is kept here.) -/
def Tensor.FromBlock {Scalar : Type} [Zero Scalar] (T : Tensor Scalar 4)
    (i j k l : Nat) (desize : Nat) : Tensor Scalar 4 :=
  let T_result : Tensor Scalar 4 :=
    Tensor.zero (size_t_sub (size_t_sub (T.dimension 0) i) desize)
      (size_t_sub (size_t_sub (T.dimension 1) j) desize)
      (size_t_sub (size_t_sub (T.dimension 2) k) desize)
      (size_t_sub (size_t_sub (T.dimension 3) l) desize)
  forLoop (T_result.dimension 0) (fun p T_result =>
    forLoop (T_result.dimension 1) (fun q T_result =>
      forLoop (T_result.dimension 2) (fun r T_result =>
        forLoop (T_result.dimension 3) (fun s T_result =>
          T_result.set p q r s (T.get (i + p) (j + q) (k + r) (l + s)))
          T_result) T_result) T_result) T_result

/-- `Tensor::hasEqualDimensions(other)`: the loop over the `Rank` axes that
returns `false` at the first axis whose dimensions differ. -/
def Tensor.hasEqualDimensions {Scalar : Type} {Rank : Nat} (a other : Tensor Scalar Rank) : Bool :=
  (List.finRange Rank).all fun i => decide (a.dimension i = other.dimension i)

/-! ## Doubles (IEEE 754 binary64) -/

/-- A `double`: a NaN, an infinity with its sign, or the finite number
`(-1) ^ negative * mantissa * 2 ^ exponent`, a zero with its sign when the
mantissa is zero.  The binary64 numbers are the finite values with
`mantissa < 2 ^ 53`, `-1074 ≤ exponent` and `mantissa * 2 ^ exponent < 2 ^ 1024`
(`Double.isBinary64`); the operations below work on the number a value stands
for and round their result to such a value. -/
inductive Double where
  | nan
  | inf (negative : Bool)
  | finite (negative : Bool) (mantissa : Nat) (exponent : Int)
  deriving DecidableEq, Repr

/-- Whether a value is a binary64 number, an infinity or a NaN. -/
def Double.isBinary64 : Double → Bool
  | .nan => true
  | .inf _ => true
  | .finite _ mantissa exponent =>
    decide (mantissa < 2 ^ 53) && decide (-1074 ≤ exponent) &&
      decide (exponent + (bitLength mantissa : Int) ≤ 1024)

/-- The integer `mantissa`, with the sign `negative`. -/
def signedInt (negative : Bool) (mantissa : Nat) : Int :=
  if negative then -(mantissa : Int) else (mantissa : Int)

/-- The binary64 value nearest to `(-1) ^ negative * m * 2 ^ e`, ties to even
(the default rounding of IEEE 754).  The unit of the result is `2 ^ q`, with
`q` such that 53 binary digits are kept, and at least `2 ^ (-1074)`, the unit
of the subnormal numbers; a result of `2 ^ 1024` or more is an infinity. -/
def Double.round (negative : Bool) (m : Nat) (e : Int) : Double :=
  if m = 0 then .finite negative 0 (-1074)
  else
    let q : Int := max (e + (bitLength m : Int) - 53) (-1074)
    let rounded : Nat :=
      if q ≤ e then m * 2 ^ (e - q).toNat
      else
        let shift := (q - e).toNat
        let quotient := m / 2 ^ shift
        let remainder := m % 2 ^ shift
        let half := 2 ^ (shift - 1)
        if remainder < half ∨ (remainder = half ∧ quotient % 2 = 0) then quotient
        else quotient + 1
    if q + (bitLength rounded : Int) > 1024 then .inf negative
    else if rounded = 2 ^ 53 then .finite negative (2 ^ 52) (q + 1)
    else .finite negative rounded q

/-- The negation `-x`. -/
def Double.neg : Double → Double
  | .nan => .nan
  | .inf negative => .inf (!negative)
  | .finite negative mantissa exponent => .finite (!negative) mantissa exponent

/-- The sum `x + y` of two doubles: the exact sum, rounded.  Infinities of
opposite signs give a NaN; an exact zero has the sign of the operands if they
agree in sign and is `+0` otherwise. -/
def Double.add : Double → Double → Double
  | .nan, _ => .nan
  | _, .nan => .nan
  | .inf sx, .inf sy => if sx = sy then .inf sx else .nan
  | .inf sx, .finite _ _ _ => .inf sx
  | .finite _ _ _, .inf sy => .inf sy
  | .finite sx mx ex, .finite sy my ey =>
    let e := min ex ey
    let sum : Int := signedInt sx (mx * 2 ^ (ex - e).toNat) + signedInt sy (my * 2 ^ (ey - e).toNat)
    if sum = 0 then .finite (sx && sy) 0 (-1074)
    else Double.round (decide (sum < 0)) sum.natAbs e

/-- The difference `x - y` of two doubles: `x + (-y)`. -/
def Double.sub (x y : Double) : Double :=
  Double.add x (Double.neg y)

/-- The function `std::abs` on a double: the sign is cleared; a NaN stays a
NaN. -/
def Double.abs : Double → Double
  | .nan => .nan
  | .inf _ => .inf false
  | .finite _ mantissa exponent => .finite false mantissa exponent

/-- The comparison `x < y` of two doubles: false if one of them is a NaN; the
two zeros are equal. -/
def Double.lt : Double → Double → Bool
  | .nan, _ => false
  | _, .nan => false
  | .inf sx, .inf sy => sx && !sy
  | .inf sx, .finite _ _ _ => sx
  | .finite _ _ _, .inf sy => !sy
  | .finite sx mx ex, .finite sy my ey =>
    decide (signedInt sx (mx * 2 ^ (ex - min ex ey).toNat) <
      signedInt sy (my * 2 ^ (ey - min ex ey).toNat))

/-- The comparison `x > y` of two doubles. -/
def Double.gt (x y : Double) : Bool :=
  Double.lt y x

/-- The double `1.0`. -/
def Double.one : Double := .finite false (2 ^ 52) (-52)

/-- The double `+0.0`. -/
def Double.zero : Double := .finite false 0 (-1074)

/-- The operations of the scalar type of the template that `isApprox` uses:
the difference `x - y`, `std::abs(x)` and the comparison `x > tolerance` with
the `double` tolerance. -/
class ApproxScalar (Scalar : Type) where
  sub : Scalar → Scalar → Scalar
  abs : Scalar → Scalar
  gt : Scalar → Double → Bool

/-- The operations of `double`. -/
instance Double.instApproxScalar : ApproxScalar Double where
  sub := Double.sub
  abs := Double.abs
  gt := Double.gt

/-- `Tensor::isApprox(other, tolerance)` for rank 4 (the default tolerance of
the source is `1.0e-12`): it throws `std::invalid_argument` if the dimensions
differ, and otherwise returns `false` at the first pair of elements with
`std::abs(this(i,j,k,l) - other(i,j,k,l)) > tolerance`, `true` if there is
none. -/
def Tensor.isApprox {Scalar : Type} [ApproxScalar Scalar]
    (a other : Tensor Scalar 4) (tolerance : Double) : Except Error Bool :=
  if !a.hasEqualDimensions other then
    .error .invalid_argument
  else
    .ok (allLoop (a.dimension 0) fun i =>
      allLoop (a.dimension 1) fun j =>
        allLoop (a.dimension 2) fun k =>
          allLoop (a.dimension 3) fun l =>
            !(ApproxScalar.gt
              (ApproxScalar.abs (ApproxScalar.sub (a.get i j k l) (other.get i j k l)))
              tolerance))

/-- `Tensor::pairWiseReduce()`: the matrix of `dims[0]*dims[1]` rows and
`dims[2]*dims[3]` columns filled by the four loops with their two running
counters.  `storage` is the content of the matrix before the loops (the
source does not initialise it). -/
def Tensor.pairWiseReduce {Scalar : Type} (T : Tensor Scalar 4) (storage : Nat → Nat → Scalar) :
    MatrixX Scalar :=
  let M : MatrixX Scalar :=
    { rows := T.dimension 0 * T.dimension 1
      cols := T.dimension 2 * T.dimension 3
      coeff := storage }
  (forLoop (T.dimension 1) (fun j st =>
    forLoop (T.dimension 0) (fun i st =>
      let row_index := st.2
      let inner := forLoop (T.dimension 3) (fun l st2 =>
        forLoop (T.dimension 2) (fun k st2 =>
          let column_index := st2.2
          ((st2.1 : MatrixX Scalar).set row_index column_index (T.get i j k l),
            column_index + 1)) st2) (st.1, 0)
      (inner.1, row_index + 1)) st) (M, 0)).1

/-- `Tensor::addBlock(T, i, j, k, l)`: every element of `T` is added to the
element of this tensor at the shifted index. -/
def Tensor.addBlock {Scalar : Type} [Add Scalar] (A T : Tensor Scalar 4) (i j k l : Nat) :
    Tensor Scalar 4 :=
  forLoop (T.dimension 0) (fun p A =>
    forLoop (T.dimension 1) (fun q A =>
      forLoop (T.dimension 2) (fun r A =>
        forLoop (T.dimension 3) (fun s A =>
          A.set (i + p) (j + q) (k + r) (l + s)
            (A.get (i + p) (j + q) (k + r) (l + s) + T.get p q r s)) A) A) A) A

/-- The array `ia = {1,0,0,0}` of `addBlock<r,s>`. -/
def addBlock_ia : List Nat := [1, 0, 0, 0]

/-- The array `ja = {0,1,0,0}` of `addBlock<r,s>`. -/
def addBlock_ja : List Nat := [0, 1, 0, 0]

/-- The array `ka = {0,0,1,0}` of `addBlock<r,s>`. -/
def addBlock_ka : List Nat := [0, 0, 1, 0]

/-- The array `la = {0,0,0,1}` of `addBlock<r,s>`. -/
def addBlock_la : List Nat := [0, 0, 0, 1]

/-- `Tensor::addBlock<r,s>(M, i, j, k, l)`: the element `M(x, y)` is added to
the element of this tensor at the effective index computed from the four
arrays read at `r` and `s`. -/
def Tensor.addBlockMatrix {Scalar : Type} [Add Scalar] (r s : Fin 4) (A : Tensor Scalar 4)
    (M : MatrixX Scalar) (i j k l : Nat) : Tensor Scalar 4 :=
  forLoop M.rows (fun x A =>
    forLoop M.cols (fun y A =>
      let i_effective := i + x * addBlock_ia.getD r.val 0 + y * addBlock_ia.getD s.val 0
      let j_effective := j + x * addBlock_ja.getD r.val 0 + y * addBlock_ja.getD s.val 0
      let k_effective := k + x * addBlock_ka.getD r.val 0 + y * addBlock_ka.getD s.val 0
      let l_effective := l + x * addBlock_la.getD r.val 0 + y * addBlock_la.getD s.val 0
      A.set i_effective j_effective k_effective l_effective
        (A.get i_effective j_effective k_effective l_effective + M.coeff x y)) A) A

/-- A state transformer `F` that changes the cell `idx` of the state, read
with `rd`, to `val idx old` exactly when `hit idx`, and leaves every other
cell as it is. -/
def HitUpdate {σ ι α : Type} (rd : σ → ι → α) (F : σ → σ) (hit : ι → Bool)
    (val : ι → α → α) : Prop :=
  ∀ s idx, rd (F s) idx = if hit idx = true then val idx (rd s idx) else rd s idx

/-! ## RDM builders: the shared contract -/

/-- The failure of `calculate1RDMs` and `calculate2RDMs`. -/
inductive BuilderError where
  | dimension_mismatch
  deriving DecidableEq, Repr

/-- Modelled from the spec: the three space topologies a builder can be
constructed over (section 2): single-type, product and selected. -/
inductive ConfigurationSpace where
  | single (space : FockSpace)
  | product (space : ProductFockSpace)
  | selected (space : SelectedFockSpace)

/-- The dimension of the space: the number of addresses. -/
def ConfigurationSpace.dimension : ConfigurationSpace → Nat
  | .single space => space.dim
  | .product space => space.dim
  | .selected space => space.dim

/-- Modelled from the spec: an RDM builder is bound to its space at
construction (section 4.5).  The RDM builders are not part of the available
sources; their numerical accumulation is left as the two functions
`accumulate1` and `accumulate2` of the coefficient vector. -/
structure RDMBuilder (OneRDMs TwoRDMs : Type) where
  space : ConfigurationSpace
  accumulate1 : List Rat → OneRDMs
  accumulate2 : List Rat → TwoRDMs

/-- Modelled from the spec: `calculate1RDMs(coefficients)` fails with a
dimension-mismatch error if `coefficients.size() != space.dimension()`
(section 4.5) and otherwise returns the accumulated 1-RDMs. -/
def RDMBuilder.calculate1RDMs {OneRDMs TwoRDMs : Type} (builder : RDMBuilder OneRDMs TwoRDMs)
    (coefficients : List Rat) : Except BuilderError OneRDMs :=
  if coefficients.length ≠ builder.space.dimension then .error .dimension_mismatch
  else .ok (builder.accumulate1 coefficients)

/-- Modelled from the spec: `calculate2RDMs(coefficients)` fails with a
dimension-mismatch error if `coefficients.size() != space.dimension()`
(section 4.5) and otherwise returns the accumulated 2-RDMs. -/
def RDMBuilder.calculate2RDMs {OneRDMs TwoRDMs : Type} (builder : RDMBuilder OneRDMs TwoRDMs)
    (coefficients : List Rat) : Except BuilderError TwoRDMs :=
  if coefficients.length ≠ builder.space.dimension then .error .dimension_mismatch
  else .ok (builder.accumulate2 coefficients)

/-! ## Molecules -/

/-- An atom as the tests write it: `{atomic number, x, y, z}`; the coordinates,
`double`s in the source, are rational numbers here. -/
structure Atom where
  atomic_number : Nat
  x : Rat
  y : Rat
  z : Rat
  deriving DecidableEq, Repr

/-- The total nucleic charge: the sum of the atomic numbers (test
`calculateTotalNucleicCharge`: 10 for the atomic numbers 1, 2, 3, 4). -/
def calculateTotalNucleicCharge (atoms : List Atom) : Nat :=
  (atoms.map fun atom => atom.atomic_number).sum

/-- A molecule: its atoms and its number of electrons `N`. -/
structure Molecule where
  atoms : List Atom
  N : Nat
  deriving DecidableEq, Repr

/-- Modelled from the spec: the constructor `Molecule(atoms, molecular_charge)`
is not part of the available sources and the spec leaves molecules to external
collaborators, so it follows its tests in `tests/Molecule_test.cpp`: a charge
above the total nucleic charge is rejected with `std::invalid_argument`
(`constructor_atoms_charge`), a list with a duplicate atom is rejected with
`std::invalid_argument` (`duplicate_atoms_constructor`), and otherwise the
number of electrons is the total nucleic charge minus the charge
(`molecule_ion_constructor`). -/
def Molecule.new (atoms : List Atom) (molecular_charge : Int) : Except Error Molecule :=
  if (calculateTotalNucleicCharge atoms : Int) < molecular_charge then
    .error .invalid_argument
  else if ¬ atoms.Nodup then
    .error .invalid_argument
  else
    .ok { atoms := atoms, N := ((calculateTotalNucleicCharge atoms : Int) - molecular_charge).toNat }

/-- Modelled from the spec: the constructor `Molecule(atoms)` of a neutral
molecule (test `molecule_ion_constructor`: the same `N` as with charge 0). -/
def Molecule.ofAtoms (atoms : List Atom) : Except Error Molecule :=
  Molecule.new atoms 0

/-- The atoms of the tests `constructor_atoms_charge` and
`calculateTotalNucleicCharge`. -/
def testAtoms : List Atom :=
  [⟨1, 0, 3, 0⟩, ⟨2, 0, 0, 4⟩, ⟨3, 3, 0, 0⟩, ⟨4, 0, 0, 5⟩]

/-- A tensor given by its four dimensions and a formula for its elements. -/
def Tensor.ofFn {Scalar : Type} (d0 d1 d2 d3 : Nat) (f : Nat → Nat → Nat → Nat → Scalar) :
    Tensor Scalar 4 :=
  { dimension := fun n => [d0, d1, d2, d3].getD n.val 0
    coeff := fun idx => f (idx.getD 0 0) (idx.getD 1 0) (idx.getD 2 0) (idx.getD 3 0) }

/-! ## The assignments of `pairWiseReduce` -/

/-- One execution of the assignment `M(row_index,column_index) = T(i,j,k,l)` of
`pairWiseReduce`: the values of the four loop variables and of the two running
counters when it is executed. -/
structure Assignment where
  i : Nat
  j : Nat
  k : Nat
  l : Nat
  row_index : Nat
  column_index : Nat
  deriving DecidableEq, Repr

/-- `Tensor::pairWiseReduce()` with a log: the same four loops and the same
two running counters as `Tensor.pairWiseReduce`, where every execution of the
assignment `M(row_index,column_index) = T(i,j,k,l)` is also appended to a list,
in the order of execution.  The result is the matrix and the log. -/
def Tensor.pairWiseReduceLog {Scalar : Type} (T : Tensor Scalar 4)
    (storage : Nat → Nat → Scalar) : MatrixX Scalar × List Assignment :=
  let M : MatrixX Scalar :=
    { rows := T.dimension 0 * T.dimension 1
      cols := T.dimension 2 * T.dimension 3
      coeff := storage }
  (forLoop (T.dimension 1) (fun j st =>
    forLoop (T.dimension 0) (fun i st =>
      let row_index := st.2
      let inner := forLoop (T.dimension 3) (fun l st2 =>
        forLoop (T.dimension 2) (fun k st2 =>
          let column_index := st2.2
          (((st2.1.1 : MatrixX Scalar).set row_index column_index (T.get i j k l),
            st2.1.2 ++ [(⟨i, j, k, l, row_index, column_index⟩ : Assignment)]),
            column_index + 1)) st2) (st.1, 0)
      (inner.1, row_index + 1)) st) ((M, []), 0)).1

/-- The assignments of `pairWiseReduce` in the order of execution: `j` runs
outermost, then `i`, `l` and `k`, and the counters are `d0 * j + i` and
`d2 * l + k`. -/
def assignmentsInOrder (d0 d1 d2 d3 : Nat) : List Assignment :=
  (List.range d1).flatMap fun j =>
    (List.range d0).flatMap fun i =>
      (List.range d3).flatMap fun l =>
        (List.range d2).flatMap fun k =>
          [(⟨i, j, k, l, d0 * j + i, d2 * l + k⟩ : Assignment)]

/-- A tensor of dimensions `(2,3,2,2)` with pairwise different elements. -/
def exampleTensor : Tensor Int 4 :=
  Tensor.ofFn 2 3 2 2 fun i j k l => ((i + 10 * j + 100 * k + 1000 * l : Nat) : Int)

/-! ## The libcint configuration (`src/LibcintCommunicator.cpp`) -/

/-- The constants of the header `<cint.h>` of libcint that
`calculateOverlapIntegrals` uses.  The header belongs to the libcint library and is not among the sources,
so its constants are parameters. -/
structure CintHeader where
  ATM_SLOTS : Nat
  BAS_SLOTS : Nat
  PTR_ENV_START : Nat
  CHARGE_OF : Nat
  PTR_COORD : Nat
  ATOM_OF : Nat
  ANG_OF : Nat
  NPRIM_OF : Nat
  NCTR_OF : Nat
  PTR_EXP : Nat
  PTR_COEFF : Nat

/-- The constants as libcint declares them: `ATM_SLOTS = 6`, `BAS_SLOTS = 8`
and `PTR_ENV_START = 20` (the comments of the source name these three), and
the slots counted from zero. -/
def cint_h : CintHeader :=
  { ATM_SLOTS := 6, BAS_SLOTS := 8, PTR_ENV_START := 20, CHARGE_OF := 0, PTR_COORD := 1,
    ATOM_OF := 0, ANG_OF := 1, NPRIM_OF := 2, NCTR_OF := 3, PTR_EXP := 5, PTR_COEFF := 6 }

/-- The six slots of a basis record that the source writes are pairwise
different and lie inside the record of `BAS_SLOTS` entries. -/
def CintHeader.basSlotsValid (hdr : CintHeader) : Bool :=
  decide ([hdr.ATOM_OF, hdr.ANG_OF, hdr.NPRIM_OF, hdr.NCTR_OF, hdr.PTR_EXP,
    hdr.PTR_COEFF].Nodup) &&
  [hdr.ATOM_OF, hdr.ANG_OF, hdr.NPRIM_OF, hdr.NCTR_OF, hdr.PTR_EXP,
    hdr.PTR_COEFF].all fun slot => decide (slot < hdr.BAS_SLOTS)

/-- The conversion `static_cast<int>(x)` of a `size_t` value to a 32-bit
`int`: the value modulo `2 ^ 32`, read as a signed 32-bit number. -/
def static_cast_int (x : Nat) : Int :=
  if x % 2 ^ 32 < 2 ^ 31 then ((x % 2 ^ 32 : Nat) : Int)
  else ((x % 2 ^ 32 : Nat) : Int) - 2 ^ 32

/-- The conversion of an `int` to `size_t` in a comparison such as `i < natm`
with `size_t i`. -/
def int_to_size_t (z : Int) : Nat :=
  (z % 2 ^ 64).toNat

/-- The assignment `a[index] = v` to an array. -/
def assign {α : Type} (a : Nat → α) (index : Nat) (v : α) : Nat → α :=
  fun x => if x = index then v else a x

/-- The class `Contraction` as the source uses it: the angular momentum `l`,
the vector `coefficients` and the value of `length()`.  Its declaration is not
among the sources, so the value of the method is a field. -/
structure Contraction where
  l : Nat
  coefficients : List Rat
  length : Nat

/-- The class `Shell` as the source uses it: `get_atom()`, `get_exponents()`,
`get_contractions()` and the value of `numberOfContractions()`.  Its
declaration is not among the sources, so the value of the method is a
field. -/
structure Shell where
  atom : Atom
  exponents : List Rat
  contractions : List Contraction
  numberOfContractions : Nat

/-- The class `BasisSet` as the source uses it: `atoms()`, `numberOfShells()`
and the shell `basisset[n]`.  Its declaration is not among the sources, so
the values of its methods are fields. -/
structure BasisSet where
  atoms : List Atom
  numberOfShells : Nat
  shell : Nat → Shell

/-- The local variables of `calculateOverlapIntegrals` while the arrays are
filled.  The arrays `libcint_atm`, `libcint_bas` (of `natm * ATM_SLOTS` and
`nbf * BAS_SLOTS` entries, `nbf = 2`) and `libcint_env` (of 10000 entries) are
maps that give every index a cell; the source is within its arrays only below
these sizes.  `offset` is an `int` that only grows: it would overflow only
beyond `2 ^ 31 - 1`, far outside `libcint_env`, so it is a natural number.
Doubles are the rationals they stand for, as in `Atom`. -/
structure LibcintState where
  libcint_atm : Nat → Int
  libcint_bas : Nat → Int
  libcint_env : Nat → Rat
  offset : Nat
  atom_index : Int
  previous_atom : Atom

/-- The assignment `libcint_bas[index] = v`. -/
def LibcintState.assignBas (st : LibcintState) (index : Nat) (v : Int) : LibcintState :=
  { st with libcint_bas := assign st.libcint_bas index v }

/-- The loop `for (size_t i = 0; i < natm; i++)` of the ATM configuration:
the atomic number, the pointer to the coordinates and the three coordinates of
every atom. -/
def atmConfiguration (hdr : CintHeader) (atoms : List Atom) (natm : Int)
    (st : LibcintState) : LibcintState :=
  forLoop (int_to_size_t natm) (fun i st =>
    let atom := atoms.getD i ⟨0, 0, 0, 0⟩
    let libcint_atm := assign st.libcint_atm (hdr.CHARGE_OF + hdr.ATM_SLOTS * i)
      (static_cast_int atom.atomic_number)
    let libcint_atm := assign libcint_atm (hdr.PTR_COORD + hdr.ATM_SLOTS * i) (st.offset : Int)
    let libcint_env := assign st.libcint_env (st.offset + 0) atom.x
    let libcint_env := assign libcint_env (st.offset + 1) atom.y
    let libcint_env := assign libcint_env (st.offset + 2) atom.z
    { st with libcint_atm := libcint_atm, libcint_env := libcint_env,
              offset := st.offset + 3 }) st

/-- The loop `for (size_t e = 0; e < current_contraction.length(); e++, offset++)`
that copies the exponents of the shell into the environment. -/
def writeExponents (current_shell : Shell) (current_contraction : Contraction)
    (st : LibcintState) : LibcintState :=
  forLoop current_contraction.length (fun e st =>
    { st with libcint_env := assign st.libcint_env st.offset (current_shell.exponents.getD e 0),
              offset := st.offset + 1 }) st

/-- The loop `for (size_t c = 0; c < current_contraction.length(); c++, offset++)`
that writes the normalised contraction coefficients into the environment.
`CINTgto_norm` is the function of libcint, a parameter. -/
def writeCoefficients (hdr : CintHeader) (CINTgto_norm : Int → Rat → Rat) (n : Nat)
    (current_contraction : Contraction) (st : LibcintState) : LibcintState :=
  forLoop current_contraction.length (fun c st =>
    { st with
      libcint_env := assign st.libcint_env st.offset
        (current_contraction.coefficients.getD c 0 *
          CINTgto_norm (st.libcint_bas (hdr.ANG_OF + hdr.BAS_SLOTS * n))
            (st.libcint_env
              (st.libcint_bas (hdr.PTR_EXP + hdr.BAS_SLOTS * n) + (c : Int)).toNat)),
      offset := st.offset + 1 }) st

/-- The body of the loop over the contractions of shell `n`: five entries of
the basis record of `n` are assigned, and the exponents and the coefficients
are written into the environment. -/
def processContraction (hdr : CintHeader) (CINTgto_norm : Int → Rat → Rat) (n : Nat)
    (current_shell : Shell) (st : LibcintState) (current_contraction : Contraction) :
    LibcintState :=
  let st := st.assignBas (hdr.ANG_OF + hdr.BAS_SLOTS * n) (static_cast_int current_contraction.l)
  let st := st.assignBas (hdr.NPRIM_OF + hdr.BAS_SLOTS * n)
    (static_cast_int current_contraction.length)
  let st := st.assignBas (hdr.NCTR_OF + hdr.BAS_SLOTS * n)
    (static_cast_int current_shell.numberOfContractions)
  let st := st.assignBas (hdr.PTR_EXP + hdr.BAS_SLOTS * n) (st.offset : Int)
  let st := writeExponents current_shell current_contraction st
  let st := st.assignBas (hdr.PTR_COEFF + hdr.BAS_SLOTS * n) (st.offset : Int)
  writeCoefficients hdr CINTgto_norm n current_contraction st

/-- The body of the loop over the shells: the atom index is incremented at a
new atom and written to `ATOM_OF`, then the contractions
`contractions[0], contractions[1], ...` of the shell are processed in order.
Atoms are compared as in `Molecule.new`. -/
def processShell (hdr : CintHeader) (CINTgto_norm : Int → Rat → Rat) (basisset : BasisSet)
    (n : Nat) (st : LibcintState) : LibcintState :=
  let current_shell := basisset.shell n
  let contractions := current_shell.contractions
  let current_atom := current_shell.atom
  let st :=
    if current_atom ≠ st.previous_atom then
      { st with atom_index := st.atom_index + 1, previous_atom := current_atom }
    else st
  let st := st.assignBas (hdr.ATOM_OF + hdr.BAS_SLOTS * n) st.atom_index
  contractions.foldl (processContraction hdr CINTgto_norm n current_shell) st

/-- The loop `for (size_t n = 0; n < basisset.numberOfShells(); n++)` of the
BAS configuration. -/
def basConfiguration (hdr : CintHeader) (CINTgto_norm : Int → Rat → Rat) (basisset : BasisSet)
    (st : LibcintState) : LibcintState :=
  forLoop basisset.numberOfShells (fun n st => processShell hdr CINTgto_norm basisset n st) st

/-- The part of `LibcintCommunicator::calculateOverlapIntegrals` that fills
`libcint_atm`, `libcint_bas` and `libcint_env`, for a basis set in the place of
the one the source builds, from the contents `atm`, `bas`, `env` that the
arrays have when they are declared. -/
def libcintConfiguration (hdr : CintHeader) (CINTgto_norm : Int → Rat → Rat)
    (basisset : BasisSet) (atm bas : Nat → Int) (env : Nat → Rat) : LibcintState :=
  let atoms := basisset.atoms
  let natm := static_cast_int atoms.length
  let st : LibcintState :=
    { libcint_atm := atm, libcint_bas := bas, libcint_env := env,
      offset := hdr.PTR_ENV_START, atom_index := 0,
      previous_atom := (basisset.shell 0).atom }
  let st := atmConfiguration hdr atoms natm st
  let st := { st with atom_index := 0, previous_atom := (basisset.shell 0).atom }
  basConfiguration hdr CINTgto_norm basisset st

/-- The number of environment entries that the contractions take: twice
their lengths. -/
def environmentUse (contractions : List Contraction) : Nat :=
  (contractions.map fun c => 2 * c.length).sum

/-- The number of environment entries that the shells below `n` take. -/
def environmentUseBelow (basisset : BasisSet) (n : Nat) : Nat :=
  ((List.range n).map fun x => environmentUse (basisset.shell x).contractions).sum

/-- The basis set that `calculateOverlapIntegrals` builds: STO-3G on two
hydrogen atoms. -/
def sto3gBasisSet : BasisSet :=
  { atoms := [⟨1, 0, 0, 8 / 10⟩, ⟨1, 0, 0, -8 / 10⟩]
    numberOfShells := 2
    shell := fun n =>
      { atom := if n = 0 then ⟨1, 0, 0, 8 / 10⟩ else ⟨1, 0, 0, -8 / 10⟩
        exponents := [342525091 / 100000000, 62391373 / 100000000, 1688554 / 10000000]
        contractions := [⟨0, [15432897 / 100000000, 53532814 / 100000000,
          44463454 / 100000000], 3⟩]
        numberOfContractions := 1 } }

/-- The basis set of the comment at the head of the function: on each of two
hydrogen atoms an s shell of three primitives with two contractions and a p
shell of one primitive. -/
def dzBasisSet : BasisSet :=
  { atoms := [⟨1, 0, 0, 8 / 10⟩, ⟨1, 0, 0, -8 / 10⟩]
    numberOfShells := 4
    shell := fun n =>
      if n % 2 = 0 then
        { atom := if n = 0 then ⟨1, 0, 0, 8 / 10⟩ else ⟨1, 0, 0, -8 / 10⟩
          exponents := [6, 2, 8 / 10]
          contractions := [⟨0, [7 / 10, 6 / 10, 5 / 10], 3⟩, ⟨0, [4 / 10, 3 / 10, 2 / 10], 3⟩]
          numberOfContractions := 2 }
      else
        { atom := if n = 1 then ⟨1, 0, 0, 8 / 10⟩ else ⟨1, 0, 0, -8 / 10⟩
          exponents := [9 / 10]
          contractions := [⟨1, [1], 1⟩]
          numberOfContractions := 1 } }

/-! ## Rounding lemmas -/

theorem roundToDouble_of_le {n : Nat} (h : n ≤ 2 ^ 53) : roundToDouble n = n := by
  rcases Nat.lt_or_ge n (2 ^ 53) with h1 | h1
  · unfold roundToDouble
    rw [if_pos h1]
  · have : n = 2 ^ 53 := Nat.le_antisymm h h1
    subst this
    decide

theorem converter_bound : roundToDouble (roundToDouble size_t_max + 1) = 2 ^ 64 := by decide

theorem converter_convert_of_lt {s : Nat} (h : s < 2 ^ 64) : converter_convert s = .ok s := by
  unfold converter_convert
  rw [converter_bound, if_neg (Nat.not_le.mpr h)]

theorem converter_convert_of_ge {s : Nat} (h : 2 ^ 64 ≤ s) :
    converter_convert s = .error .positive_overflow := by
  unfold converter_convert
  rw [converter_bound, if_pos h]

theorem FockSpace.calculateDimension_ok {K N a : Nat}
    (h : FockSpace.calculateDimension K N = .ok a) : a = Nat.choose K N ∧ a < 2 ^ 64 := by
  unfold FockSpace.calculateDimension at h
  split at h
  · rename_i hle
    injection h with h
    subst h
    exact ⟨rfl, by unfold size_t_max at hle; omega⟩
  · cases h

/-- C3: whenever both single-type dimensions are at least 1 and their exact
product is at most `2 ^ 53`, `ProductFockSpace::calculateDimension` returns
exactly that product and does not fail; in particular `(K, N_alpha, N_beta) =
(4, 1, 1)` gives `C(4,1) * C(4,1) = 16`. -/
theorem ProductFockSpace.calculateDimension_exact_of_le_two_pow_53 :
    (∀ K N_alpha N_beta a b : Nat,
      FockSpace.calculateDimension K N_alpha = .ok a →
      FockSpace.calculateDimension K N_beta = .ok b →
      1 ≤ a → 1 ≤ b → a * b ≤ 2 ^ 53 →
      ProductFockSpace.calculateDimension K N_alpha N_beta = .ok (a * b)) ∧
    ProductFockSpace.calculateDimension 4 1 1 = .ok (Nat.choose 4 1 * Nat.choose 4 1) ∧
    Nat.choose 4 1 * Nat.choose 4 1 = 16 := by
  refine ⟨?_, by decide, by decide⟩
  intro K N_alpha N_beta a b ha hb ha1 hb1 hab
  have hale : a ≤ 2 ^ 53 := le_trans (Nat.le_mul_of_pos_right a hb1) hab
  have hble : b ≤ 2 ^ 53 := le_trans (Nat.le_mul_of_pos_left b ha1) hab
  simp only [ProductFockSpace.calculateDimension, ha, hb, doubleMul,
    roundToDouble_of_le hale, roundToDouble_of_le hble, roundToDouble_of_le hab]
  rw [converter_convert_of_lt (lt_of_le_of_lt hab (by norm_num))]



theorem ProductFockSpace.calculateDimension_exact_of_le_two_pow_53_witness :
    FockSpace.calculateDimension 6 3 = .ok 20 ∧ 1 ≤ 20 ∧ 20 * 20 ≤ 2 ^ 53 ∧
    ProductFockSpace.calculateDimension 6 3 3 = .ok (20 * 20) :=
  ⟨by decide, by decide, by decide,
    ProductFockSpace.calculateDimension_exact_of_le_two_pow_53.1 6 3 3 20 20
      (by decide) (by decide) (by decide) (by decide) (by decide)⟩

theorem bitLengthAux_spec : ∀ fuel n : Nat, n ≤ fuel →
    n < 2 ^ bitLengthAux fuel n ∧ (n ≠ 0 → 2 ^ (bitLengthAux fuel n - 1) ≤ n) := by
  intro fuel
  induction fuel with
  | zero =>
    intro n hn
    have : n = 0 := by omega
    subst this
    simp [bitLengthAux]
  | succ fuel ih =>
    intro n hn
    unfold bitLengthAux
    by_cases h0 : n = 0
    · subst h0; simp
    · rw [if_neg h0]
      have hle : n / 2 ≤ fuel := by omega
      obtain ⟨h1, h2⟩ := ih (n / 2) hle
      refine ⟨?_, fun _ => ?_⟩
      · rw [pow_succ]; omega
      · simp only [Nat.add_sub_cancel]
        by_cases hh : n / 2 = 0
        · have : bitLengthAux fuel (n / 2) = 0 := by
            rw [hh]; cases fuel <;> simp [bitLengthAux]
          rw [this]; simp; omega
        · have h3 := h2 hh
          have hpos : 0 < bitLengthAux fuel (n / 2) := by
            rcases Nat.eq_zero_or_pos (bitLengthAux fuel (n / 2)) with hz | hz
            · rw [hz] at h1; simp at h1; exact absurd h1 hh
            · exact hz
          obtain ⟨m, hm⟩ : ∃ m, bitLengthAux fuel (n / 2) = m + 1 := ⟨_, (Nat.succ_pred_eq_of_pos hpos).symm⟩
          rw [hm] at h3 ⊢
          simp only [Nat.add_sub_cancel] at h3
          rw [pow_succ]; omega

theorem lt_two_pow_bitLength (n : Nat) : n < 2 ^ bitLength n :=
  (bitLengthAux_spec n n le_rfl).1

theorem two_pow_bitLength_pred_le {n : Nat} (h : n ≠ 0) : 2 ^ (bitLength n - 1) ≤ n :=
  (bitLengthAux_spec n n le_rfl).2 h

theorem bitLength_le_of_lt {n k : Nat} (h : n < 2 ^ k) : bitLength n ≤ k := by
  by_cases h0 : n = 0
  · subst h0; simp [bitLength, bitLengthAux]
  · have h1 := two_pow_bitLength_pred_le h0
    have h2 : 2 ^ (bitLength n - 1) < 2 ^ k := lt_of_le_of_lt h1 h
    have h3 := (Nat.pow_lt_pow_iff_right (by norm_num : 1 < 2)).mp h2
    omega

theorem lt_bitLength_of_le {n k : Nat} (h : 2 ^ k ≤ n) : k < bitLength n := by
  have h2 : 2 ^ k < 2 ^ bitLength n := lt_of_le_of_lt h (lt_two_pow_bitLength n)
  exact (Nat.pow_lt_pow_iff_right (by norm_num : 1 < 2)).mp h2

theorem roundToDouble_ge_floor (n : Nat) :
    n / 2 ^ (bitLength n - 53) * 2 ^ (bitLength n - 53) ≤ roundToDouble n := by
  unfold roundToDouble
  split
  · exact Nat.div_mul_le_self n _
  · simp only
    split
    · exact le_rfl
    · exact Nat.mul_le_mul_right _ (Nat.le_succ _)

theorem two_pow_le_roundToDouble {n k : Nat} (hk : 53 ≤ k) (h : 2 ^ k ≤ n) :
    2 ^ k ≤ roundToDouble n := by
  have hL := lt_bitLength_of_le h
  have hn0 : n ≠ 0 := by
    have : 0 < 2 ^ k := Nat.two_pow_pos _
    omega
  have h1 := two_pow_bitLength_pred_le hn0
  refine le_trans ?_ (roundToDouble_ge_floor n)
  -- the quotient is at least `2 ^ 52`
  have he : bitLength n - 1 = 52 + (bitLength n - 53) := by omega
  have hq : 2 ^ 52 ≤ n / 2 ^ (bitLength n - 53) := by
    rw [Nat.le_div_iff_mul_le (Nat.two_pow_pos _)]
    rw [← pow_add, ← he]
    exact h1
  calc 2 ^ k ≤ 2 ^ (bitLength n - 1) := Nat.pow_le_pow_right (by norm_num) (by omega)
    _ = 2 ^ 52 * 2 ^ (bitLength n - 53) := by rw [← pow_add, ← he]
    _ ≤ n / 2 ^ (bitLength n - 53) * 2 ^ (bitLength n - 53) := Nat.mul_le_mul_right _ hq

theorem sub_le_roundToDouble {n : Nat} (h : n < 2 ^ 64) : n - 1024 ≤ roundToDouble n := by
  unfold roundToDouble
  split
  · omega
  · rename_i h53
    have hL := bitLength_le_of_lt h
    have hL2 := lt_bitLength_of_le (Nat.not_lt.mp h53)
    simp only
    have hdm := Nat.div_add_mod n (2 ^ (bitLength n - 53))
    have hmod : n % 2 ^ (bitLength n - 53) < 2 ^ (bitLength n - 53) :=
      Nat.mod_lt _ (Nat.two_pow_pos _)
    have hhalf : 2 ^ (bitLength n - 53 - 1) ≤ 2 ^ 10 :=
      Nat.pow_le_pow_right (by norm_num) (by omega)
    split
    · rename_i hr
      have : n % 2 ^ (bitLength n - 53) ≤ 1024 := by
        rcases hr with hr | ⟨hr, _⟩ <;> omega
      rw [Nat.mul_comm] ; omega
    · rw [Nat.add_mul, Nat.mul_comm]; omega


/-! ## Binomial rows -/

theorem choose_le_choose_of_le_half {K i j : Nat} (hij : i ≤ j) (hj : j ≤ K / 2) :
    Nat.choose K i ≤ Nat.choose K j := by
  induction j, hij using Nat.le_induction with
  | base => exact le_rfl
  | succ j hij ih =>
    exact le_trans (ih (by omega)) (Nat.choose_le_succ_of_lt_half_left (by omega))

theorem mem_chooseRow (K : Nat) : ∀ fuel n j : Nat, n ≤ j → j < n + fuel →
    (∀ i, n ≤ i → i ≤ j → Nat.choose K i < 2 ^ 64) →
    Nat.choose K j ∈ chooseRow K fuel n (Nat.choose K n) := by
  intro fuel
  induction fuel with
  | zero => intro n j h1 h2; omega
  | succ fuel ih =>
    intro n j h1 h2 hall
    unfold chooseRow
    rw [if_pos (hall n le_rfl h1)]
    rcases Nat.eq_or_lt_of_le h1 with h | h
    · subst h; exact List.mem_cons_self _ _
    · have hstep : Nat.choose K n * (K - n) / (n + 1) = Nat.choose K (n + 1) := by
        rw [← Nat.choose_succ_right_eq]
        exact Nat.mul_div_cancel _ (Nat.succ_pos n)
      rw [hstep]
      exact List.mem_cons_of_mem _
        (ih (n + 1) j h (by omega) (fun i hi hij => hall i (by omega) hij))

theorem mem_smallDims {K n : Nat} (hn : n ≤ K) (h : Nat.choose K n < 2 ^ 64) :
    Nat.choose K n ∈ smallDims K := by
  have key : ∀ m, m ≤ K / 2 → Nat.choose K m < 2 ^ 64 → Nat.choose K m ∈ smallDims K := by
    intro m hm hlt
    have := mem_chooseRow K (K / 2 + 1) 0 m (Nat.zero_le _) (by omega)
      (fun i _ him => lt_of_le_of_lt (choose_le_choose_of_le_half him hm) hlt)
    rw [Nat.choose_zero_right] at this
    exact this
  by_cases hh : n ≤ K / 2
  · exact key n hh h
  · have hs := Nat.choose_symm hn
    rw [← hs] at h ⊢
    exact key (K - n) (by omega) h

theorem le_choose_of_pos_of_lt {K n : Nat} (h1 : 1 ≤ n) (h2 : n < K) : K ≤ Nat.choose K n := by
  have key : ∀ m, 1 ≤ m → m ≤ K / 2 → K ≤ Nat.choose K m := fun m hm1 hm2 => by
    have := choose_le_choose_of_le_half (K := K) hm1 hm2
    rwa [Nat.choose_one_right] at this
  by_cases hh : n ≤ K / 2
  · exact key n h1 hh
  · rw [← Nat.choose_symm (le_of_lt h2)]
    exact key (K - n) (by omega) (by omega)

theorem checkRow_of_checkRowsBelow : ∀ N K : Nat, checkRowsBelow N = true → K < N →
    checkRow K = true := by
  intro N
  induction N with
  | zero => intro K _ h; omega
  | succ N ih =>
    intro K h hK
    simp only [checkRowsBelow, Bool.and_eq_true] at h
    rcases Nat.eq_or_lt_of_le (Nat.le_of_lt_succ hK) with h1 | h1
    · subst h1; exact h.1
    · exact ih K h.2 h1

theorem checkRowsBelow_2048 : checkRowsBelow 2048 = true := by decide!

/-! ## The `double` product of two dimensions whose exact product overflows -/

theorem doubleMul_comm (x y : Nat) : doubleMul x y = doubleMul y x := by
  unfold doubleMul; rw [Nat.mul_comm]

theorem two_pow_11_le_roundToDouble {x : Nat} (h : 2 ^ 11 ≤ x) : 2 ^ 11 ≤ roundToDouble x := by
  rcases Nat.le_total x (2 ^ 53) with h1 | h1
  · rw [roundToDouble_of_le h1]; exact h
  · exact le_trans (by norm_num) (two_pow_le_roundToDouble (le_refl 53) h1)

theorem doubleMul_ge_of_large {a b : Nat} (ha : 2 ^ 11 ≤ a) (hb : 2 ^ 11 ≤ b)
    (hab : 2 ^ 64 ≤ a * b) : 2 ^ 64 ≤ doubleMul (roundToDouble a) (roundToDouble b) := by
  unfold doubleMul
  apply two_pow_le_roundToDouble (by norm_num)
  rcases Nat.le_total a (2 ^ 53) with h1 | h1
  · rcases Nat.le_total b (2 ^ 53) with h2 | h2
    · rw [roundToDouble_of_le h1, roundToDouble_of_le h2]; exact hab
    · have hb2 := two_pow_le_roundToDouble (le_refl 53) h2
      have ha2 := two_pow_11_le_roundToDouble ha
      calc 2 ^ 64 = 2 ^ 11 * 2 ^ 53 := by norm_num
        _ ≤ roundToDouble a * roundToDouble b := Nat.mul_le_mul ha2 hb2
  · have ha2 := two_pow_le_roundToDouble (le_refl 53) h1
    have hb2 := two_pow_11_le_roundToDouble hb
    calc 2 ^ 64 = 2 ^ 53 * 2 ^ 11 := by norm_num
      _ ≤ roundToDouble a * roundToDouble b := Nat.mul_le_mul ha2 hb2

theorem doubleMul_ge_of_small_right {a b : Nat} (ha : a < 2 ^ 64) (hb : b < 2 ^ 11)
    (h : 2 ^ 64 ≤ (a - 1024) * b) : 2 ^ 64 ≤ doubleMul (roundToDouble a) (roundToDouble b) := by
  unfold doubleMul
  apply two_pow_le_roundToDouble (by norm_num)
  rw [roundToDouble_of_le (le_trans (le_of_lt hb) (by norm_num))]
  exact le_trans h (Nat.mul_le_mul_right _ (sub_le_roundToDouble ha))

theorem doubleMul_choose_ge_aux (K Na Nb : Nat) (ha : Nat.choose K Na < 2 ^ 64)
    (hb : Nat.choose K Nb < 2 ^ 11)
    (hab : 2 ^ 64 ≤ Nat.choose K Na * Nat.choose K Nb) :
    2 ^ 64 ≤ doubleMul (roundToDouble (Nat.choose K Na)) (roundToDouble (Nat.choose K Nb)) := by
  -- `b` is at least 2, hence `1 ≤ Nb < K` and `K ≤ b < 2048`
  have hb2 : 2 ≤ Nat.choose K Nb := by
    by_contra hlt
    have h1 : Nat.choose K Nb ≤ 1 := by omega
    have := Nat.mul_le_mul_left (Nat.choose K Na) h1
    omega
  have ha1 : 1 ≤ Nat.choose K Na := by
    by_contra hlt
    have h0 : Nat.choose K Na = 0 := by omega
    rw [h0] at hab; simp at hab
  have hNa : Na ≤ K := by
    by_contra hlt
    rw [Nat.choose_eq_zero_of_lt (by omega)] at ha1; omega
  have hNb : Nb ≤ K := by
    by_contra hlt
    rw [Nat.choose_eq_zero_of_lt (by omega)] at hb2; omega
  have hNb0 : 1 ≤ Nb := by
    by_contra hlt
    have : Nb = 0 := by omega
    rw [this, Nat.choose_zero_right] at hb2; omega
  have hNbK : Nb < K := by
    by_contra hlt
    have : Nb = K := by omega
    rw [this, Nat.choose_self] at hb2; omega
  have hK : K < 2048 := lt_of_le_of_lt (le_choose_of_pos_of_lt hNb0 hNbK) hb
  have ha53 : ¬ Nat.choose K Na ≤ 2 ^ 53 := by
    intro hle
    have h1 : Nat.choose K Na * Nat.choose K Nb ≤ 2 ^ 53 * (2 ^ 11 - 1) :=
      Nat.mul_le_mul hle (by omega)
    have h2 : 2 ^ 53 * (2 ^ 11 - 1) < 2 ^ 64 := by norm_num
    omega
  have hrow := checkRow_of_checkRowsBelow 2048 K checkRowsBelow_2048 hK
  unfold checkRow at hrow
  rw [List.all_eq_true] at hrow
  have h1 := hrow _ (mem_smallDims hNa ha)
  simp only [Bool.or_eq_true, decide_eq_true_eq, ha53, false_or] at h1
  rw [List.all_eq_true] at h1
  have h2 := h1 _ (mem_smallDims hNb (lt_trans hb (by norm_num)))
  simp only [Bool.or_eq_true, decide_eq_true_eq] at h2
  rcases h2 with (h2 | h2) | h2
  · omega
  · omega
  · exact doubleMul_ge_of_small_right ha hb h2

theorem doubleMul_choose_ge (K Na Nb : Nat) (ha : Nat.choose K Na < 2 ^ 64)
    (hb : Nat.choose K Nb < 2 ^ 64)
    (hab : 2 ^ 64 ≤ Nat.choose K Na * Nat.choose K Nb) :
    2 ^ 64 ≤ doubleMul (roundToDouble (Nat.choose K Na)) (roundToDouble (Nat.choose K Nb)) := by
  rcases Nat.lt_or_ge (Nat.choose K Nb) (2 ^ 11) with h1 | h1
  · exact doubleMul_choose_ge_aux K Na Nb ha h1 hab
  · rcases Nat.lt_or_ge (Nat.choose K Na) (2 ^ 11) with h2 | h2
    · rw [doubleMul_comm]
      exact doubleMul_choose_ge_aux K Nb Na hb h2 (by rw [Nat.mul_comm]; exact hab)
    · exact doubleMul_ge_of_large h2 h1 hab

/-- C2: whenever the exact product of the two single-type dimensions exceeds
the maximum of `size_t`, `ProductFockSpace::calculateDimension` throws
`std::overflow_error` (it returns no value, wrapped or truncated), and the
constructor, which evaluates it first, fails with the same error, so no
object is produced. -/
theorem ProductFockSpace.calculateDimension_overflow (K N_alpha N_beta : Nat)
    (h : size_t_max < Nat.choose K N_alpha * Nat.choose K N_beta) :
    ProductFockSpace.calculateDimension K N_alpha N_beta = .error .overflow_error ∧
    ProductFockSpace.new K N_alpha N_beta = .error .overflow_error := by
  have hcalc : ProductFockSpace.calculateDimension K N_alpha N_beta = .error .overflow_error := by
    unfold ProductFockSpace.calculateDimension FockSpace.calculateDimension
    by_cases ha : Nat.choose K N_alpha ≤ size_t_max
    · rw [if_pos ha]
      by_cases hb : Nat.choose K N_beta ≤ size_t_max
      · rw [if_pos hb]
        simp only
        unfold size_t_max at ha hb h
        rw [converter_convert_of_ge (doubleMul_choose_ge K N_alpha N_beta (by omega) (by omega)
          (by omega))]
      · rw [if_neg hb]
    · rw [if_neg ha]
  refine ⟨hcalc, ?_⟩
  unfold ProductFockSpace.new
  rw [hcalc]

theorem ProductFockSpace.calculateDimension_overflow_witness :
    size_t_max < Nat.choose 40 20 * Nat.choose 40 20 ∧
    ProductFockSpace.calculateDimension 40 20 20 = .error .overflow_error ∧
    ProductFockSpace.new 40 20 20 = .error .overflow_error :=
  ⟨by decide, ProductFockSpace.calculateDimension_overflow 40 20 20 (by decide)⟩


/-! ## The product dimension beyond `2 ^ 53` -/

/-- C1 (not met by the code): for `(K, N_alpha, N_beta) = (30, 12, 14)` the two
single-type dimensions are `86493225` and `145422675`, their exact product is
`12578076148876875`, and `ProductFockSpace::calculateDimension` returns the
rounded value `12578076148876876` instead of the product or a failure. -/
theorem ProductFockSpace.calculateDimension_returns_rounded :
    FockSpace.calculateDimension 30 12 = .ok 86493225 ∧
    FockSpace.calculateDimension 30 14 = .ok 145422675 ∧
    86493225 * 145422675 = 12578076148876875 ∧
    ProductFockSpace.calculateDimension 30 12 14 = .ok 12578076148876876 := by
  decide

/-! ## The constructor -/

theorem FockSpace.new_eq_ok_iff {K N : Nat} {F : FockSpace} :
    FockSpace.new K N = .ok F ↔
      FockSpace.calculateDimension K N = .ok F.dim ∧ F.K = K ∧ F.N = N := by
  unfold FockSpace.new
  cases h : FockSpace.calculateDimension K N with
  | error e => simp
  | ok d =>
    simp only [Except.ok.injEq]
    constructor
    · intro hF; subst hF; exact ⟨rfl, rfl, rfl⟩
    · rintro ⟨h1, h2, h3⟩
      cases F
      simp_all

theorem ProductFockSpace.calculateDimension_ok_sub {K N_alpha N_beta dim : Nat}
    (h : ProductFockSpace.calculateDimension K N_alpha N_beta = .ok dim) :
    (∃ a, FockSpace.calculateDimension K N_alpha = .ok a) ∧
    (∃ b, FockSpace.calculateDimension K N_beta = .ok b) := by
  unfold ProductFockSpace.calculateDimension at h
  cases ha : FockSpace.calculateDimension K N_alpha with
  | error e => rw [ha] at h; cases h
  | ok a =>
    cases hb : FockSpace.calculateDimension K N_beta with
    | error e => rw [ha, hb] at h; cases h
    | ok b => exact ⟨⟨a, rfl⟩, ⟨b, rfl⟩⟩

/-- C4: whenever the construction `ProductFockSpace(K, N_alpha, N_beta)`
succeeds, the object has `K` orbitals, its dimension is the value of
`calculateDimension(K, N_alpha, N_beta)`, its alpha sub-space is
`FockSpace(K, N_alpha)` and its beta sub-space is `FockSpace(K, N_beta)`, so
both sub-spaces have the same `K` as the product space; and the construction
succeeds whenever `calculateDimension` returns a value. -/
theorem ProductFockSpace.new_spec (K N_alpha N_beta : Nat) :
    (∀ P : ProductFockSpace, ProductFockSpace.new K N_alpha N_beta = .ok P →
      P.K = K ∧
      ProductFockSpace.calculateDimension K N_alpha N_beta = .ok P.dim ∧
      FockSpace.new K N_alpha = .ok P.fock_space_alpha ∧
      FockSpace.new K N_beta = .ok P.fock_space_beta ∧
      P.fock_space_alpha.K = P.K ∧ P.fock_space_beta.K = P.K) ∧
    (∀ dim : Nat, ProductFockSpace.calculateDimension K N_alpha N_beta = .ok dim →
      ∃ P : ProductFockSpace, ProductFockSpace.new K N_alpha N_beta = .ok P) := by
  constructor
  · intro P hP
    unfold ProductFockSpace.new at hP
    cases hd : ProductFockSpace.calculateDimension K N_alpha N_beta with
    | error e => rw [hd] at hP; cases hP
    | ok dim =>
      cases ha : FockSpace.new K N_alpha with
      | error e => rw [hd, ha] at hP; cases hP
      | ok fa =>
        cases hb : FockSpace.new K N_beta with
        | error e => rw [hd, ha, hb] at hP; cases hP
        | ok fb =>
          rw [hd, ha, hb] at hP
          simp only [Except.ok.injEq] at hP
          subst hP
          exact ⟨rfl, rfl, rfl, rfl, (FockSpace.new_eq_ok_iff.mp ha).2.1,
            (FockSpace.new_eq_ok_iff.mp hb).2.1⟩
  · intro dim hd
    obtain ⟨⟨a, ha⟩, ⟨b, hb⟩⟩ := ProductFockSpace.calculateDimension_ok_sub hd
    refine ⟨{ K := K, dim := dim, fock_space_alpha := ⟨K, N_alpha, a⟩,
              fock_space_beta := ⟨K, N_beta, b⟩ }, ?_⟩
    unfold ProductFockSpace.new FockSpace.new
    rw [hd, ha, hb]

theorem ProductFockSpace.new_spec_witness :
    ProductFockSpace.new 4 1 1 = .ok ⟨4, 16, ⟨4, 1, 4⟩, ⟨4, 1, 4⟩⟩ ∧
    ((⟨4, 16, ⟨4, 1, 4⟩, ⟨4, 1, 4⟩⟩ : ProductFockSpace).K = 4 ∧
      ProductFockSpace.calculateDimension 4 1 1 = .ok 16 ∧
      FockSpace.new 4 1 = .ok ⟨4, 1, 4⟩ ∧
      FockSpace.new 4 1 = .ok ⟨4, 1, 4⟩ ∧
      (4 : Nat) = 4 ∧ (4 : Nat) = 4) :=
  ⟨by decide, (ProductFockSpace.new_spec 4 1 1).1 ⟨4, 16, ⟨4, 1, 4⟩, ⟨4, 1, 4⟩⟩ (by decide)⟩

/-! ## Composition and decomposition of product addresses -/

/-- C5: for a product space whose beta sub-space has positive dimension,
`compose` and `decompose` are mutually inverse bijections between the pairs
`(a, b)` with `a < dim_alpha`, `b < dim_beta` and the addresses below
`dim_alpha * dim_beta`: `decompose (compose a b) = (a, b)`, `compose a b` is
below the product dimension, every address below the dimension is the
composition of its decomposition, which is a valid pair, and no other valid
pair composes to it. -/
theorem ProductFockSpace.compose_decompose_bijection (P : ProductFockSpace)
    (hbeta : 0 < P.fock_space_beta.dim) :
    (∀ a b : Nat, a < P.fock_space_alpha.dim → b < P.fock_space_beta.dim →
      P.decompose (P.compose a b) = (a, b) ∧
      P.compose a b < P.fock_space_alpha.dim * P.fock_space_beta.dim) ∧
    (∀ p : Nat, p < P.fock_space_alpha.dim * P.fock_space_beta.dim →
      (P.decompose p).1 < P.fock_space_alpha.dim ∧
      (P.decompose p).2 < P.fock_space_beta.dim ∧
      P.compose (P.decompose p).1 (P.decompose p).2 = p ∧
      ∀ a b : Nat, a < P.fock_space_alpha.dim → b < P.fock_space_beta.dim →
        P.compose a b = p → (a, b) = P.decompose p) := by
  have hdc : ∀ a b : Nat, b < P.fock_space_beta.dim → P.decompose (P.compose a b) = (a, b) := by
    intro a b hb
    unfold ProductFockSpace.decompose ProductFockSpace.compose
    rw [Nat.mul_comm a, Nat.mul_add_div hbeta, Nat.mul_add_mod,
      Nat.div_eq_of_lt hb, Nat.mod_eq_of_lt hb, Nat.add_zero]
  refine ⟨fun a b ha hb => ⟨hdc a b hb, ?_⟩, fun p hp => ⟨?_, ?_, ?_, ?_⟩⟩
  · unfold ProductFockSpace.compose
    calc a * P.fock_space_beta.dim + b < a * P.fock_space_beta.dim + P.fock_space_beta.dim :=
          Nat.add_lt_add_left hb _
      _ = (a + 1) * P.fock_space_beta.dim := by rw [Nat.add_mul, Nat.one_mul]
      _ ≤ P.fock_space_alpha.dim * P.fock_space_beta.dim := Nat.mul_le_mul_right _ ha
  · exact Nat.div_lt_of_lt_mul (by rw [Nat.mul_comm]; exact hp)
  · exact Nat.mod_lt _ hbeta
  · unfold ProductFockSpace.compose ProductFockSpace.decompose
    rw [Nat.mul_comm]
    exact Nat.div_add_mod p _
  · intro a b _ hb hab
    rw [← hab, hdc a b hb]

theorem ProductFockSpace.compose_decompose_bijection_witness :
    0 < (⟨4, 16, ⟨4, 1, 4⟩, ⟨4, 1, 4⟩⟩ : ProductFockSpace).fock_space_beta.dim ∧
    (⟨4, 16, ⟨4, 1, 4⟩, ⟨4, 1, 4⟩⟩ : ProductFockSpace).decompose
      ((⟨4, 16, ⟨4, 1, 4⟩, ⟨4, 1, 4⟩⟩ : ProductFockSpace).compose 2 3) = (2, 3) ∧
    (⟨4, 16, ⟨4, 1, 4⟩, ⟨4, 1, 4⟩⟩ : ProductFockSpace).compose 2 3 < 4 * 4 :=
  ⟨by decide, (ProductFockSpace.compose_decompose_bijection ⟨4, 16, ⟨4, 1, 4⟩, ⟨4, 1, 4⟩⟩
    (by decide)).1 2 3 (by decide) (by decide)⟩

/-! ## The unsupported element calculation -/

/-- C8: for every selected space, every coefficient vector and every pair of
index lists, `SelectedRDMBuilder::calculateElement` fails with the runtime
error and returns no number; in particular `calculateElement({0,0,1},
{1,0,2}, coeff)` over the five-dimensional space copied from
`FockSpace(K=5, N=4)` fails. -/
theorem SelectedRDMBuilder.calculateElement_not_implemented :
    (∀ (space : SelectedFockSpace) (bra_indices ket_indices : List Nat) (x : List Rat),
      SelectedRDMBuilder.calculateElement space bra_indices ket_indices x =
        .error .runtime_error) ∧
    (∃ F : FockSpace, FockSpace.new 5 4 = .ok F ∧ (SelectedFockSpace.ofFockSpace F).dim = 5 ∧
      SelectedRDMBuilder.calculateElement (SelectedFockSpace.ofFockSpace F) [0, 0, 1] [1, 0, 2]
        [1, 1, -2, 4, -5] = .error .runtime_error) :=
  ⟨fun _ _ _ _ => rfl, ⟨5, 4, 5⟩, by decide, by decide, rfl⟩

/-! ## Ranking and unranking -/

theorem rankBits_append (l : List Bool) (b : Bool) : ∀ p m : Nat,
    rankBits (l ++ [b]) p m =
      rankBits l p m + (if b then Nat.choose (p + l.length) (m + l.count true + 1) else 0) := by
  induction l with
  | nil =>
    intro p m
    cases b <;> simp [rankBits]
  | cons c t ih =>
    intro p m
    have h1 : p + 1 + t.length = p + (t.length + 1) := by omega
    cases c
    · have hc : List.count true (false :: t) = List.count true t := by simp
      rw [List.cons_append, rankBits, rankBits, ih, hc, List.length_cons, h1]
    · have h2 : m + 1 + List.count true t + 1 = m + (List.count true t + 1) + 1 := by omega
      rw [List.cons_append, rankBits, rankBits, ih, List.count_cons_self, List.length_cons,
        h1, h2]
      omega

theorem rankBits_reverse (l : List Bool) : rankBits l.reverse 0 0 = rankDesc l := by
  induction l with
  | nil => rfl
  | cons b t ih =>
    rw [List.reverse_cons, rankBits_append, ih]
    cases b
    · simp [rankDesc]
    · simp [rankDesc, Nat.add_comm]

theorem rankDesc_lt (l : List Bool) : rankDesc l < Nat.choose l.length (l.count true) := by
  induction l with
  | nil => simp [rankDesc]
  | cons b t ih =>
    cases b
    · simp only [rankDesc, List.length_cons]
      have hc : List.count true (false :: t) = List.count true t := by simp
      rw [hc]
      exact lt_of_lt_of_le ih (Nat.choose_le_succ _ _)
    · simp only [rankDesc, List.length_cons, List.count_cons_self]
      rw [Nat.choose_succ_succ']
      omega

theorem unrankBits_rankDesc (l : List Bool) :
    unrankBits l.length (l.count true) (rankDesc l) = l := by
  induction l with
  | nil => rfl
  | cons b t ih =>
    cases b
    · have hc : List.count true (false :: t) = List.count true t := by simp
      have hlt := rankDesc_lt t
      simp only [List.length_cons, hc, rankDesc, unrankBits]
      rw [if_neg (by omega), ih]
    · simp only [List.length_cons, List.count_cons_self, rankDesc, unrankBits]
      rw [if_pos ⟨Nat.succ_pos _, Nat.le_add_right _ _⟩]
      simp only [Nat.add_sub_cancel, Nat.add_sub_cancel_left]
      rw [ih]

theorem unrankBits_spec : ∀ K N address : Nat, address < Nat.choose K N →
    (unrankBits K N address).length = K ∧ (unrankBits K N address).count true = N ∧
    rankDesc (unrankBits K N address) = address := by
  intro K
  induction K with
  | zero =>
    intro N address h
    cases N with
    | zero => simp at h; subst h; simp [unrankBits, rankDesc]
    | succ N => simp at h
  | succ K ih =>
    intro N address h
    unfold unrankBits
    by_cases hc : 0 < N ∧ Nat.choose K N ≤ address
    · rw [if_pos hc]
      obtain ⟨hN, hle⟩ := hc
      obtain ⟨M, rfl⟩ : ∃ M, N = M + 1 := ⟨N - 1, by omega⟩
      rw [Nat.choose_succ_succ'] at h
      simp only [Nat.add_sub_cancel]
      obtain ⟨h1, h2, h3⟩ := ih M (address - Nat.choose K (M + 1)) (by omega)
      refine ⟨by simp [h1], by simp [h2], ?_⟩
      simp only [rankDesc, h1, h2, h3]
      omega
    · rw [if_neg hc]
      have hlt : address < Nat.choose K N := by
        rcases Nat.eq_zero_or_pos N with h0 | h0
        · subst h0; simpa using h
        · by_contra hge
          exact hc ⟨h0, Nat.not_lt.mp hge⟩
      obtain ⟨h1, h2, h3⟩ := ih N address hlt
      refine ⟨by simp [h1], by simp [h2], ?_⟩
      simp only [rankDesc, h3]

/-- C6: for every `K` and `N ≤ K`, a constructed single-type space has
dimension `C(K, N)` (and the construction succeeds whenever `C(K, N)` fits the
address type), ranking and unranking are inverse to each other:
`unrank (rank onv) = onv` for every bitstring of length `K` with exactly `N`
set bits, whose rank is below `C(K, N)`, and `rank (unrank a) = a` for every
address `a < C(K, N)`, whose unranking has length `K` and `N` set bits. -/
theorem FockSpace.rank_unrank_inverse (K N : Nat) (hN : N ≤ K) :
    (∀ F : FockSpace, FockSpace.new K N = .ok F → F.dim = Nat.choose K N) ∧
    (Nat.choose K N ≤ size_t_max → ∃ F : FockSpace, FockSpace.new K N = .ok F) ∧
    (∀ onv : ONV, onv.length = K → onv.popcount = N →
      ∃ a : Nat, FockSpace.rank N onv = .ok a ∧ a < Nat.choose K N ∧
        FockSpace.unrank a K N = .ok onv) ∧
    (∀ a : Nat, a < Nat.choose K N →
      ∃ onv : ONV, FockSpace.unrank a K N = .ok onv ∧ onv.length = K ∧ onv.popcount = N ∧
        FockSpace.rank N onv = .ok a) := by
  have _hpos : 0 < Nat.choose K N := Nat.choose_pos hN
  refine ⟨?_, ?_, ?_, ?_⟩
  · intro F hF
    exact ((FockSpace.calculateDimension_ok (FockSpace.new_eq_ok_iff.mp hF).1).1)
  · intro hle
    refine ⟨⟨K, N, Nat.choose K N⟩, ?_⟩
    unfold FockSpace.new FockSpace.calculateDimension
    rw [if_pos hle]
  · intro onv hlen hcount
    have hrev : rankBits onv 0 0 = rankDesc onv.reverse := by
      rw [← rankBits_reverse, List.reverse_reverse]
    have hlt := rankDesc_lt onv.reverse
    have hun := unrankBits_rankDesc onv.reverse
    unfold ONV.popcount at hcount
    rw [List.length_reverse, List.count_reverse, hlen, hcount] at hlt hun
    refine ⟨rankBits onv 0 0, ?_, by rw [hrev]; exact hlt, ?_⟩
    · unfold FockSpace.rank ONV.popcount
      rw [if_pos hcount]
    · unfold FockSpace.unrank
      rw [hrev, if_neg (Nat.not_le.mpr hlt), hun, List.reverse_reverse]
  · intro a ha
    obtain ⟨h1, h2, h3⟩ := unrankBits_spec K N a ha
    refine ⟨(unrankBits K N a).reverse, ?_, by rw [List.length_reverse, h1], ?_, ?_⟩
    · unfold FockSpace.unrank
      rw [if_neg (Nat.not_le.mpr ha)]
    · unfold ONV.popcount
      rw [List.count_reverse, h2]
    · unfold FockSpace.rank ONV.popcount
      rw [List.count_reverse, h2, if_pos rfl, rankBits_reverse, h3]

theorem FockSpace.rank_unrank_inverse_witness :
    (2 : Nat) ≤ 4 ∧
    ∃ a : Nat, FockSpace.rank 2 [true, false, false, true] = .ok a ∧ a < Nat.choose 4 2 ∧
      FockSpace.unrank a 4 2 = .ok [true, false, false, true] :=
  ⟨by decide, (FockSpace.rank_unrank_inverse 4 2 (by decide)).2.2.1 [true, false, false, true]
    rfl rfl⟩

/-! ## Single excitations -/

theorem ONV.mem_occupiedOrbitals {onv : ONV} {p : Nat} :
    p ∈ onv.occupiedOrbitals ↔ p < onv.length ∧ onv.isOccupied p = true := by
  unfold ONV.occupiedOrbitals
  rw [List.mem_filter, List.mem_range]

theorem ONV.mem_unoccupiedOrbitals {onv : ONV} {q : Nat} :
    q ∈ onv.unoccupiedOrbitals ↔ q < onv.length ∧ onv.isOccupied q = false := by
  unfold ONV.unoccupiedOrbitals
  rw [List.mem_filter, List.mem_range]
  simp

theorem ONV.isOccupied_eq_getElem {onv : ONV} {p : Nat} (h : p < onv.length) :
    onv.isOccupied p = onv[p] := by
  unfold ONV.isOccupied
  simp [List.getD_eq_getElem?_getD, List.getElem?_eq_getElem h]

theorem ONV.length_excite (onv : ONV) (p q : Nat) : (onv.excite p q).length = onv.length := by
  unfold ONV.excite
  rw [List.length_set, List.length_set]

theorem ONV.isOccupied_excite (onv : ONV) {p q : Nat} (hq : q < onv.length) (r : Nat) :
    (onv.excite p q).isOccupied r =
      if r = q then true else if r = p then false else onv.isOccupied r := by
  unfold ONV.excite ONV.isOccupied
  simp only [List.getD_eq_getElem?_getD, List.getElem?_set, List.length_set]
  by_cases h1 : q = r
  · subst h1; simp [hq]
  · have h1' : ¬ r = q := fun h => h1 h.symm
    rw [if_neg h1, if_neg h1']
    by_cases h2 : p = r
    · subst h2
      by_cases h3 : p < onv.length
      · simp [h3]
      · simp [h3, List.getElem?_eq_none (Nat.not_lt.mp h3)]
    · have h2' : ¬ r = p := fun h => h2 h.symm
      rw [if_neg h2, if_neg h2']

theorem ONV.popcount_excite {onv : ONV} {p q : Nat} (hp : p < onv.length)
    (hpo : onv.isOccupied p = true) (hq : q < onv.length) (hqo : onv.isOccupied q = false) :
    (onv.excite p q).popcount = onv.popcount := by
  have hpq : p ≠ q := by
    intro h; subst h; rw [hpo] at hqo; cases hqo
  have hp1 : onv[p] = true := by rw [← ONV.isOccupied_eq_getElem hp]; exact hpo
  have hq1 : onv[q] = false := by rw [← ONV.isOccupied_eq_getElem hq]; exact hqo
  have hq' : q < (onv.set p false).length := by rw [List.length_set]; exact hq
  have hq2 : (onv.set p false)[q] = false := by
    rw [List.getElem_set_ne hpq]; exact hq1
  have hpos : 0 < List.count true onv := by
    apply List.count_pos_iff.mpr
    rw [← hp1]; exact List.getElem_mem _
  unfold ONV.excite ONV.popcount
  rw [List.count_set _ _ _ _ hq', hq2,
    List.count_set _ _ _ _ hp, hp1]
  simp
  omega

theorem length_filter_of_nodup_map {α : Type} (f : α → Nat × Nat) (p q : Nat) :
    ∀ l : List α, (l.map f).Nodup →
      (l.filter fun t => decide ((f t).1 = p ∧ (f t).2 = q)).length =
        if (p, q) ∈ l.map f then 1 else 0 := by
  intro l
  induction l with
  | nil => intro _; simp
  | cons t rest ih =>
    intro hnd
    rw [List.map_cons, List.nodup_cons] at hnd
    obtain ⟨hnot, hrest⟩ := hnd
    have ih2 := ih hrest
    by_cases hft : (f t).1 = p ∧ (f t).2 = q
    · have hfeq : f t = (p, q) := Prod.ext hft.1 hft.2
      rw [List.filter_cons_of_pos (by simpa using hft), List.length_cons, ih2]
      rw [hfeq] at hnot
      rw [if_neg hnot, List.map_cons, hfeq, if_pos (List.mem_cons_self _ _)]
    · have hfne : ¬ (p, q) = f t := by
        intro h; apply hft; rw [← h]; exact ⟨rfl, rfl⟩
      rw [List.filter_cons_of_neg (by simpa using hft), ih2, List.map_cons]
      simp only [List.mem_cons, hfne, false_or]

/-- C10: for every ONV with `N` set bits, `generateSingleExcitations` yields
exactly one tuple for each pair of an occupied orbital `p` and an unoccupied
orbital `q` and none for any other pair; the target of each tuple is the
address of the ONV with bit `p` cleared and bit `q` set (an ONV of the same
length with `N` set bits), and its sign is `(-1)` raised to the number of
occupied orbitals strictly between `p` and `q`. -/
theorem FockSpace.generateSingleExcitations_spec (N : Nat) (onv : ONV)
    (hN : onv.popcount = N) :
    (∀ p q : Nat,
      ((FockSpace.generateSingleExcitations onv).filter fun t =>
          decide (t.p = p ∧ t.q = q)).length =
        if (p < onv.length ∧ onv.isOccupied p = true) ∧
            (q < onv.length ∧ onv.isOccupied q = false) then 1 else 0) ∧
    (∀ t ∈ FockSpace.generateSingleExcitations onv,
      FockSpace.rank N (onv.excite t.p t.q) = .ok t.address ∧
      t.sign = (-1) ^ onv.countBetween t.p t.q ∧
      (onv.excite t.p t.q).length = onv.length ∧
      ∀ r : Nat, (onv.excite t.p t.q).isOccupied r =
        if r = t.q then true else if r = t.p then false else onv.isOccupied r) := by
  have hmap : ((FockSpace.generateSingleExcitations onv).map fun t => (t.p, t.q)) =
      List.product onv.occupiedOrbitals onv.unoccupiedOrbitals := by
    unfold FockSpace.generateSingleExcitations
    rw [List.map_map]
    exact List.map_id _
  have hnodup : (List.product onv.occupiedOrbitals onv.unoccupiedOrbitals).Nodup :=
    List.Nodup.product ((List.nodup_range _).filter _) ((List.nodup_range _).filter _)
  have hmem : ∀ p q : Nat, (p, q) ∈ List.product onv.occupiedOrbitals onv.unoccupiedOrbitals ↔
      (p < onv.length ∧ onv.isOccupied p = true) ∧
        (q < onv.length ∧ onv.isOccupied q = false) := by
    intro p q
    rw [← ONV.mem_occupiedOrbitals, ← ONV.mem_unoccupiedOrbitals]
    exact List.mem_product
  constructor
  · intro p q
    have h := length_filter_of_nodup_map (fun t : SingleExcitation => (t.p, t.q)) p q
      (FockSpace.generateSingleExcitations onv) (by rw [hmap]; exact hnodup)
    rw [hmap] at h
    simp only [hmem] at h
    exact h
  · intro t ht
    unfold FockSpace.generateSingleExcitations at ht
    rw [List.mem_map] at ht
    obtain ⟨⟨p, q⟩, hpq, rfl⟩ := ht
    obtain ⟨⟨hp, hpo⟩, hq, hqo⟩ := (hmem p q).mp hpq
    refine ⟨?_, rfl, ONV.length_excite onv p q, ONV.isOccupied_excite onv hq⟩
    unfold FockSpace.rank
    rw [if_pos (by rw [ONV.popcount_excite hp hpo hq hqo]; exact hN)]

theorem FockSpace.generateSingleExcitations_spec_witness :
    ONV.popcount [true, false, true, true, false] = 3 ∧
    ((FockSpace.generateSingleExcitations [true, false, true, true, false]).filter
        fun t => decide (t.p = 2 ∧ t.q = 4)).length =
      if (2 < List.length [true, false, true, true, false] ∧
            ONV.isOccupied [true, false, true, true, false] 2 = true) ∧
          (4 < List.length [true, false, true, true, false] ∧
            ONV.isOccupied [true, false, true, true, false] 4 = false) then 1 else 0 :=
  ⟨by decide, (FockSpace.generateSingleExcitations_spec 3 [true, false, true, true, false]
    (by decide)).1 2 4⟩

/-! ## Loops -/

theorem forLoop_zero {σ : Type} (body : Nat → σ → σ) (init : σ) : forLoop 0 body init = init :=
  rfl

theorem forLoop_succ {σ : Type} (n : Nat) (body : Nat → σ → σ) (init : σ) :
    forLoop (n + 1) body init = body n (forLoop n body init) := by
  unfold forLoop
  rw [List.range_succ, List.foldl_append]
  rfl

theorem forLoop_preserves {σ β : Type} (f : σ → β) (body : Nat → σ → σ)
    (h : ∀ x s, f (body x s) = f s) (n : Nat) (init : σ) :
    f (forLoop n body init) = f init := by
  induction n with
  | zero => rfl
  | succ n ih => rw [forLoop_succ, h, ih]

theorem forLoop_congr_of_invariant {σ : Type} (Inv : σ → Prop) (body body2 : Nat → σ → σ)
    (hpres : ∀ x s, Inv s → Inv (body2 x s))
    (heq : ∀ x s, Inv s → body x s = body2 x s) (n : Nat) (init : σ) (h0 : Inv init) :
    forLoop n body init = forLoop n body2 init ∧ Inv (forLoop n body2 init) := by
  induction n with
  | zero => exact ⟨rfl, h0⟩
  | succ n ih =>
    rw [forLoop_succ, forLoop_succ, ih.1, heq n _ ih.2]
    exact ⟨rfl, hpres n _ ih.2⟩

theorem forLoop_counter {σ : Type} (g : Nat → Nat → σ → σ) (m n : Nat) (s0 : σ) (c0 : Nat) :
    forLoop n (fun x (st : σ × Nat) => (g x st.2 st.1, st.2 + m)) (s0, c0) =
      (forLoop n (fun x s => g x (c0 + m * x) s) s0, c0 + m * n) := by
  induction n with
  | zero => rfl
  | succ n ih =>
    rw [forLoop_succ, ih, forLoop_succ]
    simp only [Nat.mul_succ, Nat.add_assoc]

theorem HitUpdate.forLoop {σ ι α : Type} {rd : σ → ι → α} {body : Nat → σ → σ}
    {hit : Nat → ι → Bool} {val : Nat → ι → α → α} (sel : ι → Nat)
    (hbody : ∀ x, HitUpdate rd (body x) (hit x) (val x))
    (hsel : ∀ x idx, hit x idx = true → x = sel idx) (n : Nat) :
    HitUpdate rd (forLoop n body) (fun idx => decide (sel idx < n) && hit (sel idx) idx)
      (fun idx => val (sel idx) idx) := by
  induction n with
  | zero =>
    intro s idx
    simp [forLoop_zero]
  | succ n ih =>
    intro s idx
    rw [forLoop_succ, hbody n, ih s idx]
    by_cases hn : hit n idx = true
    · have hs : sel idx = n := (hsel n idx hn).symm
      simp [hs, hn]
    · by_cases hs : sel idx = n
      · simp [hs, hn]
      · have h1 : (sel idx < n + 1) ↔ (sel idx < n) := by omega
        simp [hn, h1]

theorem Tensor.hitUpdate_set_add {Scalar : Type} [Add Scalar] (i j k l : Nat) (v : Scalar) :
    HitUpdate (fun (A : Tensor Scalar 4) idx => A.coeff idx)
      (fun A => A.set i j k l (A.get i j k l + v))
      (fun idx => decide (idx = [i, j, k, l])) (fun _ a => a + v) := by
  intro A idx
  simp only [Tensor.set, Tensor.get, decide_eq_true_eq]
  by_cases h : idx = [i, j, k, l]
  · subst h; simp
  · simp [h]

theorem Tensor.hitUpdate_set {Scalar : Type} (i j k l : Nat) (v : Scalar) :
    HitUpdate (fun (A : Tensor Scalar 4) idx => A.coeff idx)
      (fun A => A.set i j k l v)
      (fun idx => decide (idx = [i, j, k, l])) (fun _ _ => v) := by
  intro A idx
  simp only [Tensor.set, decide_eq_true_eq]

theorem Tensor.dimension_set {Scalar : Type} (A : Tensor Scalar 4) (i j k l : Nat) (v : Scalar) :
    (A.set i j k l v).dimension = A.dimension := rfl

/-! ## `addBlock` with a tensor -/

theorem Tensor.dimension_addBlock {Scalar : Type} [Add Scalar] (A T : Tensor Scalar 4)
    (i j k l : Nat) : (A.addBlock T i j k l).dimension = A.dimension := by
  unfold Tensor.addBlock
  apply forLoop_preserves; intro p A
  apply forLoop_preserves; intro q A
  apply forLoop_preserves; intro r A
  apply forLoop_preserves; intro s A
  rfl

theorem Tensor.coeff_addBlock {Scalar : Type} [Add Scalar] (A T : Tensor Scalar 4)
    (i j k l : Nat) (a b c d : Nat) :
    (A.addBlock T i j k l).get a b c d =
      if (i ≤ a ∧ a < i + T.dimension 0) ∧ (j ≤ b ∧ b < j + T.dimension 1) ∧
          (k ≤ c ∧ c < k + T.dimension 2) ∧ (l ≤ d ∧ d < l + T.dimension 3) then
        A.get a b c d + T.get (a - i) (b - j) (c - k) (d - l)
      else A.get a b c d := by
  have h4 := fun p q r => HitUpdate.forLoop (fun idx : List Nat => idx.getD 3 0 - l)
    (fun s => Tensor.hitUpdate_set_add (i + p) (j + q) (k + r) (l + s) (T.get p q r s))
    (by intro s idx h; simp only [decide_eq_true_eq] at h; subst h; simp) (T.dimension 3)
  have h3 := fun p q => HitUpdate.forLoop (fun idx : List Nat => idx.getD 2 0 - k)
    (fun r => h4 p q r)
    (by intro r idx h; simp only [Bool.and_eq_true, decide_eq_true_eq] at h
        rw [h.2]; simp) (T.dimension 2)
  have h2 := fun p => HitUpdate.forLoop (fun idx : List Nat => idx.getD 1 0 - j)
    (fun q => h3 p q)
    (by intro q idx h; simp only [Bool.and_eq_true, decide_eq_true_eq] at h
        rw [h.2.2]; simp) (T.dimension 1)
  have h1 := HitUpdate.forLoop (fun idx : List Nat => idx.getD 0 0 - i)
    (fun p => h2 p)
    (by intro p idx h; simp only [Bool.and_eq_true, decide_eq_true_eq] at h
        rw [h.2.2.2]; simp) (T.dimension 0)
  have h := h1 A [a, b, c, d]
  simp only [List.getD_cons_zero, List.getD_cons_succ, Bool.and_eq_true, decide_eq_true_eq,
    List.cons.injEq, and_true] at h
  refine Eq.trans h ?_
  apply if_congr _ rfl rfl
  constructor
  · rintro ⟨h1, h2, h3, h4, e1, e2, e3, e4⟩
    omega
  · rintro ⟨h1, h2, h3, h4⟩
    omega

/-! ## `addBlock<r,s>` with a matrix -/

theorem Tensor.dimension_addBlockMatrix {Scalar : Type} [Add Scalar] (r s : Fin 4)
    (A : Tensor Scalar 4) (M : MatrixX Scalar) (i j k l : Nat) :
    (A.addBlockMatrix r s M i j k l).dimension = A.dimension := by
  unfold Tensor.addBlockMatrix
  apply forLoop_preserves; intro x A
  apply forLoop_preserves; intro y A
  rfl

theorem getD_effective_first (r s : Fin 4) (hrs : r ≠ s) (i j k l x y : Nat) :
    [i + x * addBlock_ia.getD r.val 0 + y * addBlock_ia.getD s.val 0, j + x * addBlock_ja.getD r.val 0 + y * addBlock_ja.getD s.val 0,
      k + x * addBlock_ka.getD r.val 0 + y * addBlock_ka.getD s.val 0,
      l + x * addBlock_la.getD r.val 0 + y * addBlock_la.getD s.val 0].getD r.val 0 = [i, j, k, l].getD r.val 0 + x := by
  obtain ⟨r, hr4⟩ := r
  obtain ⟨s, hs4⟩ := s
  interval_cases r <;> interval_cases s <;>
    first | exact absurd rfl hrs | simp [addBlock_ia, addBlock_ja, addBlock_ka, addBlock_la, Fin.ext_iff]

theorem getD_effective_second (r s : Fin 4) (hrs : r ≠ s) (i j k l x y : Nat) :
    [i + x * addBlock_ia.getD r.val 0 + y * addBlock_ia.getD s.val 0, j + x * addBlock_ja.getD r.val 0 + y * addBlock_ja.getD s.val 0,
      k + x * addBlock_ka.getD r.val 0 + y * addBlock_ka.getD s.val 0,
      l + x * addBlock_la.getD r.val 0 + y * addBlock_la.getD s.val 0].getD s.val 0 = [i, j, k, l].getD s.val 0 + y := by
  obtain ⟨r, hr4⟩ := r
  obtain ⟨s, hs4⟩ := s
  interval_cases r <;> interval_cases s <;>
    first | exact absurd rfl hrs | simp [addBlock_ia, addBlock_ja, addBlock_ka, addBlock_la, Fin.ext_iff]

theorem getD_effective_other (r s n : Fin 4) (hnr : n ≠ r) (hns : n ≠ s) (i j k l x y : Nat) :
    [i + x * addBlock_ia.getD r.val 0 + y * addBlock_ia.getD s.val 0,
      j + x * addBlock_ja.getD r.val 0 + y * addBlock_ja.getD s.val 0,
      k + x * addBlock_ka.getD r.val 0 + y * addBlock_ka.getD s.val 0,
      l + x * addBlock_la.getD r.val 0 + y * addBlock_la.getD s.val 0].getD n.val 0 =
      [i, j, k, l].getD n.val 0 := by
  obtain ⟨r, hr4⟩ := r
  obtain ⟨s, hs4⟩ := s
  obtain ⟨n, hn4⟩ := n
  interval_cases n <;> interval_cases r <;> interval_cases s <;>
    first
    | exact absurd rfl hnr
    | exact absurd rfl hns
    | simp [addBlock_ia, addBlock_ja, addBlock_ka, addBlock_la]

theorem Tensor.coeff_addBlockMatrix {Scalar : Type} [Add Scalar] (r s : Fin 4) (hrs : r ≠ s)
    (A : Tensor Scalar 4) (M : MatrixX Scalar) (i j k l : Nat) (a b c d : Nat) :
    (A.addBlockMatrix r s M i j k l).get a b c d =
      if [a, b, c, d].getD r.val 0 - [i, j, k, l].getD r.val 0 < M.rows ∧
          [a, b, c, d].getD s.val 0 - [i, j, k, l].getD s.val 0 < M.cols ∧
          [a, b, c, d] =
            [i + ([a, b, c, d].getD r.val 0 - [i, j, k, l].getD r.val 0) *
                  addBlock_ia.getD r.val 0 +
                ([a, b, c, d].getD s.val 0 - [i, j, k, l].getD s.val 0) *
                  addBlock_ia.getD s.val 0,
              j + ([a, b, c, d].getD r.val 0 - [i, j, k, l].getD r.val 0) *
                  addBlock_ja.getD r.val 0 +
                ([a, b, c, d].getD s.val 0 - [i, j, k, l].getD s.val 0) *
                  addBlock_ja.getD s.val 0,
              k + ([a, b, c, d].getD r.val 0 - [i, j, k, l].getD r.val 0) *
                  addBlock_ka.getD r.val 0 +
                ([a, b, c, d].getD s.val 0 - [i, j, k, l].getD s.val 0) *
                  addBlock_ka.getD s.val 0,
              l + ([a, b, c, d].getD r.val 0 - [i, j, k, l].getD r.val 0) *
                  addBlock_la.getD r.val 0 +
                ([a, b, c, d].getD s.val 0 - [i, j, k, l].getD s.val 0) *
                  addBlock_la.getD s.val 0] then
        A.get a b c d + M.coeff ([a, b, c, d].getD r.val 0 - [i, j, k, l].getD r.val 0)
          ([a, b, c, d].getD s.val 0 - [i, j, k, l].getD s.val 0)
      else A.get a b c d := by
  have h2 := fun x => HitUpdate.forLoop
    (fun idx : List Nat => idx.getD s.val 0 - [i, j, k, l].getD s.val 0)
    (fun y => Tensor.hitUpdate_set_add (i + x * addBlock_ia.getD r.val 0 + y * addBlock_ia.getD s.val 0)
      (j + x * addBlock_ja.getD r.val 0 + y * addBlock_ja.getD s.val 0)
      (k + x * addBlock_ka.getD r.val 0 + y * addBlock_ka.getD s.val 0)
      (l + x * addBlock_la.getD r.val 0 + y * addBlock_la.getD s.val 0) (M.coeff x y))
    (by intro y idx h; simp only [decide_eq_true_eq] at h
        have e := congrArg (fun t : List Nat => t.getD s.val 0) h
        simp only [getD_effective_second r s hrs] at e
        show y = idx.getD s.val 0 - [i, j, k, l].getD s.val 0
        omega) M.cols
  have h1 := HitUpdate.forLoop
    (fun idx : List Nat => idx.getD r.val 0 - [i, j, k, l].getD r.val 0)
    (fun x => h2 x)
    (by intro x idx h; simp only [Bool.and_eq_true, decide_eq_true_eq] at h
        have e := congrArg (fun t : List Nat => t.getD r.val 0) h.2
        simp only [getD_effective_first r s hrs] at e
        show x = idx.getD r.val 0 - [i, j, k, l].getD r.val 0
        omega) M.rows
  have h := h1 A [a, b, c, d]
  simp only [Bool.and_eq_true, decide_eq_true_eq] at h
  exact h

/-- C14: for distinct axes `r` and `s`, `addBlock<r,s>(M, i, j, k, l)` increases
by `M(x, y)`, for every `x < M.rows()` and `y < M.cols()`, the tensor element
whose index is `(i,j,k,l)` with `x` added to coordinate `r` and `y` added to
coordinate `s`; with `r = 2`, `s = 1` and start `(1,2,1,0)` this is
`tensor(1, 2+y, 1+x, 0) += M(x, y)`, for instance `tensor(1,3,1,0) += M(0,1)`
and `tensor(1,4,4,0) += M(3,2)`. -/
theorem Tensor.addBlockMatrix_adds {Scalar : Type} [Add Scalar] (A : Tensor Scalar 4)
    (M : MatrixX Scalar) :
    (∀ (r s : Fin 4) (i j k l x y a b c d : Nat), r ≠ s → x < M.rows → y < M.cols →
      [a, b, c, d].getD r.val 0 = [i, j, k, l].getD r.val 0 + x →
      [a, b, c, d].getD s.val 0 = [i, j, k, l].getD s.val 0 + y →
      (∀ n : Fin 4, n ≠ r → n ≠ s → [a, b, c, d].getD n.val 0 = [i, j, k, l].getD n.val 0) →
      (A.addBlockMatrix r s M i j k l).get a b c d = A.get a b c d + M.coeff x y) ∧
    (∀ x y : Nat, x < M.rows → y < M.cols →
      (A.addBlockMatrix 2 1 M 1 2 1 0).get 1 (2 + y) (1 + x) 0 =
        A.get 1 (2 + y) (1 + x) 0 + M.coeff x y) ∧
    (0 < M.rows → 1 < M.cols →
      (A.addBlockMatrix 2 1 M 1 2 1 0).get 1 3 1 0 = A.get 1 3 1 0 + M.coeff 0 1) ∧
    (3 < M.rows → 2 < M.cols →
      (A.addBlockMatrix 2 1 M 1 2 1 0).get 1 4 4 0 = A.get 1 4 4 0 + M.coeff 3 2) := by
  have key : ∀ (r s : Fin 4) (i j k l x y a b c d : Nat), r ≠ s → x < M.rows → y < M.cols →
      [a, b, c, d].getD r.val 0 = [i, j, k, l].getD r.val 0 + x →
      [a, b, c, d].getD s.val 0 = [i, j, k, l].getD s.val 0 + y →
      (∀ n : Fin 4, n ≠ r → n ≠ s → [a, b, c, d].getD n.val 0 = [i, j, k, l].getD n.val 0) →
      (A.addBlockMatrix r s M i j k l).get a b c d = A.get a b c d + M.coeff x y := by
    intro r s i j k l x y a b c d hrs hx hy hr hs hn
    rw [Tensor.coeff_addBlockMatrix r s hrs, hr, hs, Nat.add_sub_cancel_left,
      Nat.add_sub_cancel_left, if_pos]
    refine ⟨hx, hy, ?_⟩
    simp only [List.cons.injEq, and_true]
    have h0 := hn ⟨0, by omega⟩
    have h1 := hn ⟨1, by omega⟩
    have h2 := hn ⟨2, by omega⟩
    have h3 := hn ⟨3, by omega⟩
    obtain ⟨r, hr4⟩ := r
    obtain ⟨s, hs4⟩ := s
    interval_cases r <;> interval_cases s <;>
      first
      | exact absurd rfl hrs
      | (simp [addBlock_ia, addBlock_ja, addBlock_ka, addBlock_la, Fin.ext_iff] at hr hs h0 h1 h2 h3 ⊢; omega)
  refine ⟨key, ?_, ?_, ?_⟩
  · intro x y hx hy
    exact key 2 1 1 2 1 0 x y 1 (2 + y) (1 + x) 0 (by decide) hx hy (by simp) (by simp)
      (by intro n h1 h2; obtain ⟨n, hn4⟩ := n
          interval_cases n <;> simp [Fin.ext_iff] at h1 h2 ⊢)
  · intro hx hy
    exact key 2 1 1 2 1 0 0 1 1 3 1 0 (by decide) hx hy (by simp) (by simp)
      (by intro n h1 h2; obtain ⟨n, hn4⟩ := n
          interval_cases n <;> simp [Fin.ext_iff] at h1 h2 ⊢)
  · intro hx hy
    exact key 2 1 1 2 1 0 3 2 1 4 4 0 (by decide) hx hy (by simp) (by simp)
      (by intro n h1 h2; obtain ⟨n, hn4⟩ := n
          interval_cases n <;> simp [Fin.ext_iff] at h1 h2 ⊢)

theorem Tensor.addBlockMatrix_adds_witness :
    ((Tensor.ofFn 10 10 10 10 fun i j k l => ((i + j + k + l : Nat) : Int)).addBlockMatrix 2 1
        ⟨4, 3, fun x y => ((x + 10 * y : Nat) : Int)⟩ 1 2 1 0).get 1 4 4 0 =
      (Tensor.ofFn 10 10 10 10 fun i j k l => ((i + j + k + l : Nat) : Int)).get 1 4 4 0 +
        (⟨4, 3, fun x y => ((x + 10 * y : Nat) : Int)⟩ : MatrixX Int).coeff 3 2 :=
  (Tensor.addBlockMatrix_adds (Tensor.ofFn 10 10 10 10 fun i j k l => ((i + j + k + l : Nat) : Int))
    ⟨4, 3, fun x y => ((x + 10 * y : Nat) : Int)⟩).2.2.2 (by decide) (by decide)

/-- C15: for distinct axes `r` and `s`, `addBlock<r,s>(M, i, j, k, l)` leaves
unchanged every tensor element that has, on an axis other than `r` and `s`, a
coordinate different from the starting index, every element whose coordinate
on axis `r` lies below the start or at least `M.rows()` above it, and every
element whose coordinate on axis `s` lies below the start or at least
`M.cols()` above it; the dimensions are unchanged; in the documented example
(`r = 2`, `s = 1`, start `(1,2,1,0)`) the element `tensor(2,2,1,0)` is not
modified. -/
theorem Tensor.addBlockMatrix_frame {Scalar : Type} [Add Scalar] (A : Tensor Scalar 4)
    (M : MatrixX Scalar) :
    (∀ (r s : Fin 4) (i j k l a b c d : Nat), r ≠ s →
      ((∃ n : Fin 4, n ≠ r ∧ n ≠ s ∧ [a, b, c, d].getD n.val 0 ≠ [i, j, k, l].getD n.val 0) ∨
        [a, b, c, d].getD r.val 0 < [i, j, k, l].getD r.val 0 ∨
        [i, j, k, l].getD r.val 0 + M.rows ≤ [a, b, c, d].getD r.val 0 ∨
        [a, b, c, d].getD s.val 0 < [i, j, k, l].getD s.val 0 ∨
        [i, j, k, l].getD s.val 0 + M.cols ≤ [a, b, c, d].getD s.val 0) →
      (A.addBlockMatrix r s M i j k l).get a b c d = A.get a b c d) ∧
    (∀ (r s : Fin 4) (i j k l : Nat),
      (A.addBlockMatrix r s M i j k l).dimension = A.dimension) ∧
    (A.addBlockMatrix 2 1 M 1 2 1 0).get 2 2 1 0 = A.get 2 2 1 0 := by
  have key : ∀ (r s : Fin 4) (i j k l a b c d : Nat), r ≠ s →
      ((∃ n : Fin 4, n ≠ r ∧ n ≠ s ∧ [a, b, c, d].getD n.val 0 ≠ [i, j, k, l].getD n.val 0) ∨
        [a, b, c, d].getD r.val 0 < [i, j, k, l].getD r.val 0 ∨
        [i, j, k, l].getD r.val 0 + M.rows ≤ [a, b, c, d].getD r.val 0 ∨
        [a, b, c, d].getD s.val 0 < [i, j, k, l].getD s.val 0 ∨
        [i, j, k, l].getD s.val 0 + M.cols ≤ [a, b, c, d].getD s.val 0) →
      (A.addBlockMatrix r s M i j k l).get a b c d = A.get a b c d := by
    intro r s i j k l a b c d hrs hout
    rw [Tensor.coeff_addBlockMatrix r s hrs, if_neg]
    rintro ⟨hx, hy, he⟩
    have er := congrArg (fun t : List Nat => t.getD r.val 0) he
    have es := congrArg (fun t : List Nat => t.getD s.val 0) he
    simp only [getD_effective_first r s hrs, getD_effective_second r s hrs] at er es
    rcases hout with ⟨n, hnr, hns, hne⟩ | hout
    · have en := congrArg (fun t : List Nat => t.getD n.val 0) he
      simp only [getD_effective_other r s n hnr hns] at en
      exact hne en
    · omega
  refine ⟨key, fun r s i j k l => Tensor.dimension_addBlockMatrix r s A M i j k l, ?_⟩
  exact key 2 1 1 2 1 0 2 2 1 0 (by decide) (Or.inl ⟨⟨0, by omega⟩, by decide, by decide, by simp⟩)

theorem Tensor.addBlockMatrix_frame_witness :
    ((Tensor.ofFn 10 10 10 10 fun i j k l => ((i + j + k + l : Nat) : Int)).addBlockMatrix 2 1
        ⟨3, 3, fun x y => ((x + 10 * y : Nat) : Int)⟩ 1 2 1 0).get 1 2 4 0 =
      (Tensor.ofFn 10 10 10 10 fun i j k l => ((i + j + k + l : Nat) : Int)).get 1 2 4 0 :=
  (Tensor.addBlockMatrix_frame (Tensor.ofFn 10 10 10 10 fun i j k l => ((i + j + k + l : Nat) : Int))
    ⟨3, 3, fun x y => ((x + 10 * y : Nat) : Int)⟩).1 2 1 1 2 1 0 1 2 4 0 (by decide)
    (Or.inr (Or.inr (Or.inl (by decide))))

/-- C13: for a tensor `A`, a block `T` and offsets with `i + t0 ≤ a0`,
`j + t1 ≤ a1`, `k + t2 ≤ a2`, `l + t3 ≤ a3`, after `A.addBlock(T, i, j, k, l)`
every element `A(i+p, j+q, k+r, l+s)` with `(p,q,r,s)` in the index range of
`T` equals its old value plus `T(p,q,r,s)`, every element outside that block
is unchanged, and the dimensions of `A` are unchanged. -/
theorem Tensor.addBlock_spec {Scalar : Type} [Add Scalar] (A T : Tensor Scalar 4)
    (i j k l : Nat) (_h0 : i + T.dimension 0 ≤ A.dimension 0)
    (_h1 : j + T.dimension 1 ≤ A.dimension 1) (_h2 : k + T.dimension 2 ≤ A.dimension 2)
    (_h3 : l + T.dimension 3 ≤ A.dimension 3) :
    (∀ p q r s : Nat, p < T.dimension 0 → q < T.dimension 1 → r < T.dimension 2 →
      s < T.dimension 3 →
      (A.addBlock T i j k l).get (i + p) (j + q) (k + r) (l + s) =
        A.get (i + p) (j + q) (k + r) (l + s) + T.get p q r s) ∧
    (∀ a b c d : Nat,
      ¬ ((i ≤ a ∧ a < i + T.dimension 0) ∧ (j ≤ b ∧ b < j + T.dimension 1) ∧
          (k ≤ c ∧ c < k + T.dimension 2) ∧ (l ≤ d ∧ d < l + T.dimension 3)) →
      (A.addBlock T i j k l).get a b c d = A.get a b c d) ∧
    (A.addBlock T i j k l).dimension = A.dimension := by
  refine ⟨?_, ?_, Tensor.dimension_addBlock A T i j k l⟩
  · intro p q r s hp hq hr hs
    rw [Tensor.coeff_addBlock, if_pos (by omega)]
    simp only [Nat.add_sub_cancel_left]
  · intro a b c d hout
    rw [Tensor.coeff_addBlock, if_neg hout]

theorem Tensor.addBlock_spec_witness :
    1 + (Tensor.zero 2 2 2 2 : Tensor Int 4).dimension 0 ≤
        (Tensor.zero 3 3 3 3 : Tensor Int 4).dimension 0 ∧
    ((Tensor.zero 3 3 3 3 : Tensor Int 4).addBlock (Tensor.zero 2 2 2 2) 1 1 1 1).get
        (1 + 1) (1 + 0) (1 + 1) (1 + 0) =
      (Tensor.zero 3 3 3 3 : Tensor Int 4).get (1 + 1) (1 + 0) (1 + 1) (1 + 0) +
        (Tensor.zero 2 2 2 2 : Tensor Int 4).get 1 0 1 0 :=
  ⟨by decide, (Tensor.addBlock_spec (Tensor.zero 3 3 3 3 : Tensor Int 4) (Tensor.zero 2 2 2 2)
    1 1 1 1 (by decide) (by decide) (by decide) (by decide)).1 1 0 1 0
    (by decide) (by decide) (by decide) (by decide)⟩

/-! ## `FromBlock` -/

theorem size_t_sub_of_le {a b : Nat} (h : b ≤ a) : size_t_sub a b = a - b := by
  unfold size_t_sub
  rw [if_pos h]

theorem Tensor.FromBlock_eq_fixed {Scalar : Type} [Zero Scalar] (T : Tensor Scalar 4)
    (i j k l desize : Nat) (D : Fin 4 → Nat)
    (hD : D = (Tensor.zero (size_t_sub (size_t_sub (T.dimension 0) i) desize)
      (size_t_sub (size_t_sub (T.dimension 1) j) desize)
      (size_t_sub (size_t_sub (T.dimension 2) k) desize)
      (size_t_sub (size_t_sub (T.dimension 3) l) desize) : Tensor Scalar 4).dimension) :
    T.FromBlock i j k l desize =
      forLoop (D 0) (fun p A =>
        forLoop (D 1) (fun q A =>
          forLoop (D 2) (fun r A =>
            forLoop (D 3) (fun s (A : Tensor Scalar 4) =>
              A.set p q r s (T.get (i + p) (j + q) (k + r) (l + s))) A) A) A)
        (Tensor.zero (size_t_sub (size_t_sub (T.dimension 0) i) desize)
          (size_t_sub (size_t_sub (T.dimension 1) j) desize)
          (size_t_sub (size_t_sub (T.dimension 2) k) desize)
          (size_t_sub (size_t_sub (T.dimension 3) l) desize)) := by
  have pres3 : ∀ (b p q r : Nat) (A : Tensor Scalar 4),
      (forLoop b (fun s (A : Tensor Scalar 4) =>
        A.set p q r s (T.get (i + p) (j + q) (k + r) (l + s))) A).dimension = A.dimension := by
    intro b p q r A
    apply forLoop_preserves (fun A : Tensor Scalar 4 => A.dimension)
    intro s A
    rfl
  have pres2 : ∀ (b p q : Nat) (A : Tensor Scalar 4),
      (forLoop b (fun r A => forLoop (D 3) (fun s (A : Tensor Scalar 4) =>
        A.set p q r s (T.get (i + p) (j + q) (k + r) (l + s))) A) A).dimension = A.dimension := by
    intro b p q A
    apply forLoop_preserves (fun A : Tensor Scalar 4 => A.dimension)
    intro r A
    exact pres3 (D 3) p q r A
  have pres1 : ∀ (b p : Nat) (A : Tensor Scalar 4),
      (forLoop b (fun q A => forLoop (D 2) (fun r A => forLoop (D 3)
        (fun s (A : Tensor Scalar 4) =>
          A.set p q r s (T.get (i + p) (j + q) (k + r) (l + s))) A) A) A).dimension =
        A.dimension := by
    intro b p A
    apply forLoop_preserves (fun A : Tensor Scalar 4 => A.dimension)
    intro q A
    exact pres2 (D 2) p q A
  have e2 : ∀ (p q : Nat) (A : Tensor Scalar 4), A.dimension = D →
      forLoop (A.dimension 2) (fun r A => forLoop (A.dimension 3)
        (fun s (A : Tensor Scalar 4) =>
          A.set p q r s (T.get (i + p) (j + q) (k + r) (l + s))) A) A =
      forLoop (D 2) (fun r A => forLoop (D 3) (fun s (A : Tensor Scalar 4) =>
          A.set p q r s (T.get (i + p) (j + q) (k + r) (l + s))) A) A := by
    intro p q A hA
    rw [hA]
    exact (forLoop_congr_of_invariant (fun A : Tensor Scalar 4 => A.dimension = D) _ _
      (fun r A h => (pres3 (D 3) p q r A).trans h) (fun r A h => by rw [h]) (D 2) A hA).1
  have e1 : ∀ (p : Nat) (A : Tensor Scalar 4), A.dimension = D →
      forLoop (A.dimension 1) (fun q A => forLoop (A.dimension 2) (fun r A =>
        forLoop (A.dimension 3) (fun s (A : Tensor Scalar 4) =>
          A.set p q r s (T.get (i + p) (j + q) (k + r) (l + s))) A) A) A =
      forLoop (D 1) (fun q A => forLoop (D 2) (fun r A => forLoop (D 3)
        (fun s (A : Tensor Scalar 4) =>
          A.set p q r s (T.get (i + p) (j + q) (k + r) (l + s))) A) A) A := by
    intro p A hA
    rw [hA]
    exact (forLoop_congr_of_invariant (fun A : Tensor Scalar 4 => A.dimension = D) _ _
      (fun q A h => (pres2 (D 2) p q A).trans h) (fun q A h => e2 p q A h) (D 1) A hA).1
  unfold Tensor.FromBlock
  simp only
  rw [← hD]
  exact (forLoop_congr_of_invariant (fun A : Tensor Scalar 4 => A.dimension = D) _ _
    (fun p A h => (pres1 (D 1) p A).trans h) (fun p A h => e1 p A h) (D 0) _ hD.symm).1

theorem Tensor.FromBlock_fixed_spec {Scalar : Type} [Zero Scalar] (T : Tensor Scalar 4)
    (i j k l : Nat) (D : Fin 4 → Nat) (Z : Tensor Scalar 4) (p q r s : Nat) :
    ((forLoop (D 0) (fun p A =>
        forLoop (D 1) (fun q A =>
          forLoop (D 2) (fun r A =>
            forLoop (D 3) (fun s (A : Tensor Scalar 4) =>
              A.set p q r s (T.get (i + p) (j + q) (k + r) (l + s))) A) A) A) Z).dimension =
        Z.dimension) ∧
    (forLoop (D 0) (fun p A =>
        forLoop (D 1) (fun q A =>
          forLoop (D 2) (fun r A =>
            forLoop (D 3) (fun s (A : Tensor Scalar 4) =>
              A.set p q r s (T.get (i + p) (j + q) (k + r) (l + s))) A) A) A) Z).get p q r s =
      if p < D 0 ∧ q < D 1 ∧ r < D 2 ∧ s < D 3 then T.get (i + p) (j + q) (k + r) (l + s)
      else Z.get p q r s := by
  constructor
  · apply forLoop_preserves; intro p A
    apply forLoop_preserves; intro q A
    apply forLoop_preserves; intro r A
    apply forLoop_preserves; intro s A
    rfl
  · have h4 := fun p q r => HitUpdate.forLoop (fun idx : List Nat => idx.getD 3 0)
      (fun s => Tensor.hitUpdate_set p q r s (T.get (i + p) (j + q) (k + r) (l + s)))
      (by intro s idx h; simp only [decide_eq_true_eq] at h; subst h; simp) (D 3)
    have h3 := fun p q => HitUpdate.forLoop (fun idx : List Nat => idx.getD 2 0)
      (fun r => h4 p q r)
      (by intro r idx h; simp only [Bool.and_eq_true, decide_eq_true_eq] at h
          rw [h.2]; simp) (D 2)
    have h2 := fun p => HitUpdate.forLoop (fun idx : List Nat => idx.getD 1 0)
      (fun q => h3 p q)
      (by intro q idx h; simp only [Bool.and_eq_true, decide_eq_true_eq] at h
          rw [h.2.2]; simp) (D 1)
    have h1 := HitUpdate.forLoop (fun idx : List Nat => idx.getD 0 0)
      (fun p => h2 p)
      (by intro p idx h; simp only [Bool.and_eq_true, decide_eq_true_eq] at h
          rw [h.2.2.2]; simp) (D 0)
    have h := h1 Z [p, q, r, s]
    simp only [List.getD_cons_zero, List.getD_cons_succ, Bool.and_eq_true, decide_eq_true_eq,
      and_true] at h
    exact h

/-- C16: for arguments with `i + desize ≤ d0`, `j + desize ≤ d1`,
`k + desize ≤ d2`, `l + desize ≤ d3`, `FromBlock(T, i, j, k, l, desize)` has
dimensions `(d0-i-desize, d1-j-desize, d2-k-desize, d3-l-desize)` and its
element `(p,q,r,s)` equals `T(i+p, j+q, k+r, l+s)` for every in-range
`(p,q,r,s)`; with `i`, `j`, `k`, `l`, `desize` all zero the result has the
dimensions and the elements of `T`. -/
theorem Tensor.FromBlock_spec {Scalar : Type} [Zero Scalar] (T : Tensor Scalar 4) :
    (∀ i j k l desize : Nat, i + desize ≤ T.dimension 0 → j + desize ≤ T.dimension 1 →
      k + desize ≤ T.dimension 2 → l + desize ≤ T.dimension 3 →
      (T.FromBlock i j k l desize).dimension 0 = T.dimension 0 - i - desize ∧
      (T.FromBlock i j k l desize).dimension 1 = T.dimension 1 - j - desize ∧
      (T.FromBlock i j k l desize).dimension 2 = T.dimension 2 - k - desize ∧
      (T.FromBlock i j k l desize).dimension 3 = T.dimension 3 - l - desize ∧
      ∀ p q r s : Nat, p < T.dimension 0 - i - desize → q < T.dimension 1 - j - desize →
        r < T.dimension 2 - k - desize → s < T.dimension 3 - l - desize →
        (T.FromBlock i j k l desize).get p q r s = T.get (i + p) (j + q) (k + r) (l + s)) ∧
    ((∀ n : Fin 4, (T.FromBlock 0 0 0 0 0).dimension n = T.dimension n) ∧
      ∀ p q r s : Nat, p < T.dimension 0 → q < T.dimension 1 → r < T.dimension 2 →
        s < T.dimension 3 → (T.FromBlock 0 0 0 0 0).get p q r s = T.get p q r s) := by
  have key : ∀ i j k l desize : Nat, i + desize ≤ T.dimension 0 → j + desize ≤ T.dimension 1 →
      k + desize ≤ T.dimension 2 → l + desize ≤ T.dimension 3 →
      (T.FromBlock i j k l desize).dimension 0 = T.dimension 0 - i - desize ∧
      (T.FromBlock i j k l desize).dimension 1 = T.dimension 1 - j - desize ∧
      (T.FromBlock i j k l desize).dimension 2 = T.dimension 2 - k - desize ∧
      (T.FromBlock i j k l desize).dimension 3 = T.dimension 3 - l - desize ∧
      ∀ p q r s : Nat, p < T.dimension 0 - i - desize → q < T.dimension 1 - j - desize →
        r < T.dimension 2 - k - desize → s < T.dimension 3 - l - desize →
        (T.FromBlock i j k l desize).get p q r s =
          T.get (i + p) (j + q) (k + r) (l + s) := by
    intro i j k l desize h0 h1 h2 h3
    have hs0 : size_t_sub (size_t_sub (T.dimension 0) i) desize = T.dimension 0 - i - desize := by
      rw [size_t_sub_of_le (show i ≤ T.dimension 0 by omega), size_t_sub_of_le (by omega)]
    have hs1 : size_t_sub (size_t_sub (T.dimension 1) j) desize = T.dimension 1 - j - desize := by
      rw [size_t_sub_of_le (show j ≤ T.dimension 1 by omega), size_t_sub_of_le (by omega)]
    have hs2 : size_t_sub (size_t_sub (T.dimension 2) k) desize = T.dimension 2 - k - desize := by
      rw [size_t_sub_of_le (show k ≤ T.dimension 2 by omega), size_t_sub_of_le (by omega)]
    have hs3 : size_t_sub (size_t_sub (T.dimension 3) l) desize = T.dimension 3 - l - desize := by
      rw [size_t_sub_of_le (show l ≤ T.dimension 3 by omega), size_t_sub_of_le (by omega)]
    rw [Tensor.FromBlock_eq_fixed T i j k l desize _ rfl, hs0, hs1, hs2, hs3]
    have hz0 : (Tensor.zero (T.dimension 0 - i - desize) (T.dimension 1 - j - desize)
        (T.dimension 2 - k - desize) (T.dimension 3 - l - desize) : Tensor Scalar 4).dimension 0 =
        T.dimension 0 - i - desize := rfl
    have hz1 : (Tensor.zero (T.dimension 0 - i - desize) (T.dimension 1 - j - desize)
        (T.dimension 2 - k - desize) (T.dimension 3 - l - desize) : Tensor Scalar 4).dimension 1 =
        T.dimension 1 - j - desize := rfl
    have hz2 : (Tensor.zero (T.dimension 0 - i - desize) (T.dimension 1 - j - desize)
        (T.dimension 2 - k - desize) (T.dimension 3 - l - desize) : Tensor Scalar 4).dimension 2 =
        T.dimension 2 - k - desize := rfl
    have hz3 : (Tensor.zero (T.dimension 0 - i - desize) (T.dimension 1 - j - desize)
        (T.dimension 2 - k - desize) (T.dimension 3 - l - desize) : Tensor Scalar 4).dimension 3 =
        T.dimension 3 - l - desize := rfl
    have hdim := fun p q r s => (Tensor.FromBlock_fixed_spec T i j k l
      (Tensor.zero (T.dimension 0 - i - desize) (T.dimension 1 - j - desize)
        (T.dimension 2 - k - desize) (T.dimension 3 - l - desize) : Tensor Scalar 4).dimension
      (Tensor.zero (T.dimension 0 - i - desize) (T.dimension 1 - j - desize)
        (T.dimension 2 - k - desize) (T.dimension 3 - l - desize)) p q r s)
    refine ⟨?_, ?_, ?_, ?_, ?_⟩
    · rw [(hdim 0 0 0 0).1]; exact hz0
    · rw [(hdim 0 0 0 0).1]; exact hz1
    · rw [(hdim 0 0 0 0).1]; exact hz2
    · rw [(hdim 0 0 0 0).1]; exact hz3
    · intro p q r s hp hq hr hs
      rw [(hdim p q r s).2, hz0, hz1, hz2, hz3, if_pos ⟨hp, hq, hr, hs⟩]
  refine ⟨key, ?_, ?_⟩
  · obtain ⟨d0, d1, d2, d3, _⟩ := key 0 0 0 0 0 (Nat.zero_le _) (Nat.zero_le _) (Nat.zero_le _)
      (Nat.zero_le _)
    intro n
    obtain ⟨n, hn⟩ := n
    interval_cases n
    · exact d0
    · exact d1
    · exact d2
    · exact d3
  · intro p q r s hp hq hr hs
    have h := (key 0 0 0 0 0 (Nat.zero_le _) (Nat.zero_le _) (Nat.zero_le _)
      (Nat.zero_le _)).2.2.2.2 p q r s (by simpa using hp) (by simpa using hq)
      (by simpa using hr) (by simpa using hs)
    simpa using h

theorem Tensor.FromBlock_spec_witness :
    1 + 1 ≤ (Tensor.ofFn 3 3 3 3 fun i j k l => ((i + 10 * j + 100 * k + 1000 * l : Nat) : Int)).dimension 0 ∧
    ((Tensor.ofFn 3 3 3 3 fun i j k l =>
        ((i + 10 * j + 100 * k + 1000 * l : Nat) : Int)).FromBlock 1 0 0 0 1).dimension 0 =
      (Tensor.ofFn 3 3 3 3 fun i j k l =>
        ((i + 10 * j + 100 * k + 1000 * l : Nat) : Int)).dimension 0 - 1 - 1 :=
  ⟨by decide, ((Tensor.FromBlock_spec (Tensor.ofFn 3 3 3 3 fun i j k l =>
    ((i + 10 * j + 100 * k + 1000 * l : Nat) : Int))).1 1 0 0 0 1
      (by decide) (by decide) (by decide) (by decide)).1⟩

/-! ## `pairWiseReduce` -/

theorem MatrixX.hitUpdate_assign {Scalar : Type} (x y : Nat) (v : Scalar) :
    HitUpdate (fun (M : MatrixX Scalar) (idx : Nat × Nat) => M.coeff idx.1 idx.2)
      (fun M => M.set x y v)
      (fun idx => decide (idx.1 = x ∧ idx.2 = y)) (fun _ _ => v) := by
  intro M idx
  simp only [MatrixX.set, decide_eq_true_eq]

theorem div_eq_of_eq_mul_add {a d q r : Nat} (h : a = d * q + r) (hr : r < d) : a / d = q := by
  subst h
  rw [Nat.mul_add_div (by omega), Nat.div_eq_of_lt hr, Nat.add_zero]

theorem Tensor.pairWiseReduce_eq {Scalar : Type} (T : Tensor Scalar 4)
    (storage : Nat → Nat → Scalar) :
    T.pairWiseReduce storage =
      forLoop (T.dimension 1) (fun j M =>
        forLoop (T.dimension 0) (fun i M =>
          forLoop (T.dimension 3) (fun l M =>
            forLoop (T.dimension 2) (fun k (M : MatrixX Scalar) =>
              M.set (T.dimension 0 * j + i) (T.dimension 2 * l + k) (T.get i j k l)) M) M) M)
        { rows := T.dimension 0 * T.dimension 1
          cols := T.dimension 2 * T.dimension 3
          coeff := storage } := by
  have hk : ∀ (row i j l : Nat) (st2 : MatrixX Scalar × Nat),
      forLoop (T.dimension 2) (fun k (st2 : MatrixX Scalar × Nat) =>
        (st2.1.set row st2.2 (T.get i j k l), st2.2 + 1)) st2 =
      (forLoop (T.dimension 2) (fun k (M : MatrixX Scalar) =>
        M.set row (st2.2 + 1 * k) (T.get i j k l)) st2.1, st2.2 + 1 * T.dimension 2) :=
    fun row i j l st2 =>
      forLoop_counter (fun k c (M : MatrixX Scalar) => M.set row c (T.get i j k l)) 1
        (T.dimension 2) st2.1 st2.2
  have hl : ∀ (row i j : Nat) (M : MatrixX Scalar),
      forLoop (T.dimension 3) (fun l (st2 : MatrixX Scalar × Nat) =>
        forLoop (T.dimension 2) (fun k (st2 : MatrixX Scalar × Nat) =>
          (st2.1.set row st2.2 (T.get i j k l), st2.2 + 1)) st2) (M, 0) =
      (forLoop (T.dimension 3) (fun l (M : MatrixX Scalar) =>
        forLoop (T.dimension 2) (fun k (M : MatrixX Scalar) =>
          M.set row (0 + 1 * T.dimension 2 * l + 1 * k) (T.get i j k l)) M) M,
        0 + 1 * T.dimension 2 * T.dimension 3) := by
    intro row i j M
    have e : (fun l (st2 : MatrixX Scalar × Nat) =>
        forLoop (T.dimension 2) (fun k (st2 : MatrixX Scalar × Nat) =>
          (st2.1.set row st2.2 (T.get i j k l), st2.2 + 1)) st2) =
        fun l (st2 : MatrixX Scalar × Nat) =>
          (forLoop (T.dimension 2) (fun k (M : MatrixX Scalar) =>
            M.set row (st2.2 + 1 * k) (T.get i j k l)) st2.1, st2.2 + 1 * T.dimension 2) := by
      funext l st2
      exact hk row i j l st2
    rw [e]
    exact forLoop_counter (fun l c (M : MatrixX Scalar) =>
      forLoop (T.dimension 2) (fun k (M : MatrixX Scalar) =>
        M.set row (c + 1 * k) (T.get i j k l)) M) (1 * T.dimension 2) (T.dimension 3) M 0
  have hi : ∀ (j : Nat) (st : MatrixX Scalar × Nat),
      forLoop (T.dimension 0) (fun i (st : MatrixX Scalar × Nat) =>
        ((forLoop (T.dimension 3) (fun l (st2 : MatrixX Scalar × Nat) =>
          forLoop (T.dimension 2) (fun k (st2 : MatrixX Scalar × Nat) =>
            (st2.1.set st.2 st2.2 (T.get i j k l), st2.2 + 1)) st2) (st.1, 0)).1,
          st.2 + 1)) st =
      (forLoop (T.dimension 0) (fun i (M : MatrixX Scalar) =>
        forLoop (T.dimension 3) (fun l (M : MatrixX Scalar) =>
          forLoop (T.dimension 2) (fun k (M : MatrixX Scalar) =>
            M.set (st.2 + 1 * i) (0 + 1 * T.dimension 2 * l + 1 * k) (T.get i j k l)) M) M)
        st.1, st.2 + 1 * T.dimension 0) := by
    intro j st
    have e : (fun i (st : MatrixX Scalar × Nat) =>
        ((forLoop (T.dimension 3) (fun l (st2 : MatrixX Scalar × Nat) =>
          forLoop (T.dimension 2) (fun k (st2 : MatrixX Scalar × Nat) =>
            (st2.1.set st.2 st2.2 (T.get i j k l), st2.2 + 1)) st2) (st.1, 0)).1,
          st.2 + 1)) =
        fun i (st : MatrixX Scalar × Nat) =>
          (forLoop (T.dimension 3) (fun l (M : MatrixX Scalar) =>
            forLoop (T.dimension 2) (fun k (M : MatrixX Scalar) =>
              M.set st.2 (0 + 1 * T.dimension 2 * l + 1 * k) (T.get i j k l)) M) st.1,
            st.2 + 1) := by
      funext i st
      rw [hl st.2 i j st.1]
    rw [e]
    exact forLoop_counter (fun i c (M : MatrixX Scalar) =>
      forLoop (T.dimension 3) (fun l (M : MatrixX Scalar) =>
        forLoop (T.dimension 2) (fun k (M : MatrixX Scalar) =>
          M.set c (0 + 1 * T.dimension 2 * l + 1 * k) (T.get i j k l)) M) M) 1
      (T.dimension 0) st.1 st.2
  have e : (fun j (st : MatrixX Scalar × Nat) =>
      forLoop (T.dimension 0) (fun i (st : MatrixX Scalar × Nat) =>
        ((forLoop (T.dimension 3) (fun l (st2 : MatrixX Scalar × Nat) =>
          forLoop (T.dimension 2) (fun k (st2 : MatrixX Scalar × Nat) =>
            (st2.1.set st.2 st2.2 (T.get i j k l), st2.2 + 1)) st2) (st.1, 0)).1,
          st.2 + 1)) st) =
      fun j (st : MatrixX Scalar × Nat) =>
        (forLoop (T.dimension 0) (fun i (M : MatrixX Scalar) =>
          forLoop (T.dimension 3) (fun l (M : MatrixX Scalar) =>
            forLoop (T.dimension 2) (fun k (M : MatrixX Scalar) =>
              M.set (st.2 + 1 * i) (0 + 1 * T.dimension 2 * l + 1 * k) (T.get i j k l)) M) M)
          st.1, st.2 + 1 * T.dimension 0) := by
    funext j st
    exact hi j st
  unfold Tensor.pairWiseReduce
  simp only
  rw [e]
  rw [forLoop_counter (fun j c (M : MatrixX Scalar) =>
    forLoop (T.dimension 0) (fun i (M : MatrixX Scalar) =>
      forLoop (T.dimension 3) (fun l (M : MatrixX Scalar) =>
        forLoop (T.dimension 2) (fun k (M : MatrixX Scalar) =>
          M.set (c + 1 * i) (0 + 1 * T.dimension 2 * l + 1 * k) (T.get i j k l)) M) M) M)
    (1 * T.dimension 0) (T.dimension 1) _ 0]
  simp only [Nat.zero_add, Nat.one_mul]

theorem Tensor.coeff_pairWiseReduce {Scalar : Type} (T : Tensor Scalar 4)
    (storage : Nat → Nat → Scalar) (m n : Nat) :
    (T.pairWiseReduce storage).coeff m n =
      if m / T.dimension 0 < T.dimension 1 ∧
          m - T.dimension 0 * (m / T.dimension 0) < T.dimension 0 ∧
          n / T.dimension 2 < T.dimension 3 ∧
          n - T.dimension 2 * (n / T.dimension 2) < T.dimension 2 ∧
          m = T.dimension 0 * (m / T.dimension 0) + (m - T.dimension 0 * (m / T.dimension 0)) ∧
          n = T.dimension 2 * (n / T.dimension 2) + (n - T.dimension 2 * (n / T.dimension 2)) then
        T.get (m - T.dimension 0 * (m / T.dimension 0)) (m / T.dimension 0)
          (n - T.dimension 2 * (n / T.dimension 2)) (n / T.dimension 2)
      else storage m n := by
  have h4 := fun i j l => HitUpdate.forLoop (fun idx : Nat × Nat => idx.2 - T.dimension 2 * l)
    (fun k => MatrixX.hitUpdate_assign (T.dimension 0 * j + i) (T.dimension 2 * l + k)
      (T.get i j k l))
    (by intro k idx h; simp only [decide_eq_true_eq] at h
        show k = idx.2 - T.dimension 2 * l
        omega) (T.dimension 2)
  have h3 := fun i j => HitUpdate.forLoop (fun idx : Nat × Nat => idx.2 / T.dimension 2)
    (fun l => h4 i j l)
    (by intro l idx h; simp only [Bool.and_eq_true, decide_eq_true_eq] at h
        exact (div_eq_of_eq_mul_add h.2.2 h.1).symm) (T.dimension 3)
  have h2 := fun j => HitUpdate.forLoop (fun idx : Nat × Nat => idx.1 - T.dimension 0 * j)
    (fun i => h3 i j)
    (by intro i idx h; simp only [Bool.and_eq_true, decide_eq_true_eq] at h
        show i = idx.1 - T.dimension 0 * j
        omega) (T.dimension 0)
  have h1 := HitUpdate.forLoop (fun idx : Nat × Nat => idx.1 / T.dimension 0)
    (fun j => h2 j)
    (by intro j idx h; simp only [Bool.and_eq_true, decide_eq_true_eq] at h
        exact (div_eq_of_eq_mul_add h.2.2.2.1 h.1).symm) (T.dimension 1)
  have h := h1 { rows := T.dimension 0 * T.dimension 1, cols := T.dimension 2 * T.dimension 3,
                 coeff := storage } (m, n)
  simp only [Bool.and_eq_true, decide_eq_true_eq] at h
  rw [Tensor.pairWiseReduce_eq]
  refine Eq.trans h ?_
  apply if_congr _ rfl rfl
  constructor
  · rintro ⟨a1, a2, a3, a4, a5, a6⟩
    exact ⟨a1, a2, a3, a4, a5, a6⟩
  · rintro ⟨a1, a2, a3, a4, a5, a6⟩
    exact ⟨a1, a2, a3, a4, a5, a6⟩

theorem Tensor.rows_cols_pairWiseReduce {Scalar : Type} (T : Tensor Scalar 4)
    (storage : Nat → Nat → Scalar) :
    (T.pairWiseReduce storage).rows = T.dimension 0 * T.dimension 1 ∧
    (T.pairWiseReduce storage).cols = T.dimension 2 * T.dimension 3 := by
  rw [Tensor.pairWiseReduce_eq]
  constructor
  · apply forLoop_preserves (fun M : MatrixX Scalar => M.rows); intro j M
    apply forLoop_preserves (fun M : MatrixX Scalar => M.rows); intro i M
    apply forLoop_preserves (fun M : MatrixX Scalar => M.rows); intro l M
    apply forLoop_preserves (fun M : MatrixX Scalar => M.rows); intro k M
    rfl
  · apply forLoop_preserves (fun M : MatrixX Scalar => M.cols); intro j M
    apply forLoop_preserves (fun M : MatrixX Scalar => M.cols); intro i M
    apply forLoop_preserves (fun M : MatrixX Scalar => M.cols); intro l M
    apply forLoop_preserves (fun M : MatrixX Scalar => M.cols); intro k M
    rfl

/-- C17: `pairWiseReduce` returns a matrix `M` with `d0 * d1` rows and
`d2 * d3` columns such that `M(i + d0 * j, k + d2 * l) = T(i,j,k,l)` for all
`i < d0`, `j < d1`, `k < d2`, `l < d3`, whatever the matrix held before: the
row index is built from `(i, j)` and the column index from `(k, l)` in
column-major order. -/
theorem Tensor.pairWiseReduce_spec {Scalar : Type} (T : Tensor Scalar 4)
    (storage : Nat → Nat → Scalar) :
    (T.pairWiseReduce storage).rows = T.dimension 0 * T.dimension 1 ∧
    (T.pairWiseReduce storage).cols = T.dimension 2 * T.dimension 3 ∧
    ∀ i j k l : Nat, i < T.dimension 0 → j < T.dimension 1 → k < T.dimension 2 →
      l < T.dimension 3 →
      (T.pairWiseReduce storage).coeff (i + T.dimension 0 * j) (k + T.dimension 2 * l) =
        T.get i j k l := by
  refine ⟨(Tensor.rows_cols_pairWiseReduce T storage).1,
    (Tensor.rows_cols_pairWiseReduce T storage).2, ?_⟩
  intro i j k l hi hj hk hl
  have e1 : (i + T.dimension 0 * j) / T.dimension 0 = j :=
    div_eq_of_eq_mul_add (Nat.add_comm _ _) hi
  have e2 : (k + T.dimension 2 * l) / T.dimension 2 = l :=
    div_eq_of_eq_mul_add (Nat.add_comm _ _) hk
  rw [Tensor.coeff_pairWiseReduce, e1, e2, if_pos]
  · simp only [Nat.add_sub_cancel]
  · simp only [Nat.add_sub_cancel]
    exact ⟨hj, hi, hl, hk, Nat.add_comm _ _, Nat.add_comm _ _⟩

theorem Tensor.pairWiseReduce_spec_witness :
    ((Tensor.ofFn 3 3 3 3 fun i j k l =>
        ((i + 10 * j + 100 * k + 1000 * l : Nat) : Int)).pairWiseReduce fun _ _ => -1).coeff
        (1 + (Tensor.ofFn 3 3 3 3 fun i j k l =>
          ((i + 10 * j + 100 * k + 1000 * l : Nat) : Int)).dimension 0 * 2)
        (0 + (Tensor.ofFn 3 3 3 3 fun i j k l =>
          ((i + 10 * j + 100 * k + 1000 * l : Nat) : Int)).dimension 2 * 1) =
      (Tensor.ofFn 3 3 3 3 fun i j k l =>
        ((i + 10 * j + 100 * k + 1000 * l : Nat) : Int)).get 1 2 0 1 :=
  (Tensor.pairWiseReduce_spec (Tensor.ofFn 3 3 3 3 fun i j k l =>
    ((i + 10 * j + 100 * k + 1000 * l : Nat) : Int)) fun _ _ => -1).2.2 1 2 0 1
      (by decide) (by decide) (by decide) (by decide)

/-! ## `hasEqualDimensions` and `isApprox` -/

theorem Tensor.hasEqualDimensions_iff {Scalar : Type} {Rank : Nat} (a b : Tensor Scalar Rank) :
    a.hasEqualDimensions b = true ↔ ∀ n : Fin Rank, a.dimension n = b.dimension n := by
  unfold Tensor.hasEqualDimensions
  rw [List.all_eq_true]
  constructor
  · intro h n
    simpa using h n (List.mem_finRange n)
  · intro h n _
    simpa using h n

/-- C18: for tensors `a` and `b` of the same rank, `a.hasEqualDimensions(b)`
returns true if and only if `a.dimension(n) = b.dimension(n)` for every axis
`n` below the rank; the relation is reflexive, symmetric and transitive. -/
theorem Tensor.hasEqualDimensions_spec {Scalar : Type} {Rank : Nat}
    (a b c : Tensor Scalar Rank) :
    (a.hasEqualDimensions b = true ↔ ∀ n : Fin Rank, a.dimension n = b.dimension n) ∧
    a.hasEqualDimensions a = true ∧
    a.hasEqualDimensions b = b.hasEqualDimensions a ∧
    (a.hasEqualDimensions b = true → b.hasEqualDimensions c = true →
      a.hasEqualDimensions c = true) := by
  refine ⟨Tensor.hasEqualDimensions_iff a b, ?_, ?_, ?_⟩
  · exact (Tensor.hasEqualDimensions_iff a a).mpr fun _ => rfl
  · rw [Bool.eq_iff_iff, Tensor.hasEqualDimensions_iff, Tensor.hasEqualDimensions_iff]
    exact ⟨fun h n => (h n).symm, fun h n => (h n).symm⟩
  · intro hab hbc
    rw [Tensor.hasEqualDimensions_iff] at hab hbc ⊢
    exact fun n => (hab n).trans (hbc n)

theorem Tensor.hasEqualDimensions_spec_witness :
    (Tensor.zero 2 3 4 5 : Tensor Int 4).hasEqualDimensions (Tensor.ofFn 2 3 4 5 fun _ _ _ _ => 1)
      = true ∧
    (Tensor.ofFn 2 3 4 5 fun _ _ _ _ => (1 : Int)).hasEqualDimensions (Tensor.zero 2 3 4 5)
      = true ∧
    (Tensor.zero 2 3 4 5 : Tensor Int 4).hasEqualDimensions (Tensor.zero 2 3 4 5) = true :=
  ⟨by decide, by decide,
    (Tensor.hasEqualDimensions_spec (Tensor.zero 2 3 4 5 : Tensor Int 4)
      (Tensor.ofFn 2 3 4 5 fun _ _ _ _ => 1) (Tensor.zero 2 3 4 5)).2.2.2 (by decide) (by decide)⟩

/-! ## Doubles -/

theorem bitLength_two_pow_52 : bitLength (2 ^ 52) = 53 := by decide

theorem bitLength_two_pow_53 : bitLength (2 ^ 53) = 54 := by decide

theorem Double.round_isBinary64 (negative : Bool) (m : Nat) (e : Int) :
    (Double.round negative m e).isBinary64 = true := by
  unfold Double.round
  by_cases hm : m = 0
  · rw [if_pos hm]
    rfl
  · rw [if_neg hm]
    simp only
    have hL : m < 2 ^ bitLength m := lt_two_pow_bitLength m
    have hq1 : e + (bitLength m : Int) - 53 ≤ max (e + (bitLength m : Int) - 53) (-1074) :=
      le_max_left _ _
    have hq2 : (-1074 : Int) ≤ max (e + (bitLength m : Int) - 53) (-1074) := le_max_right _ _
    generalize max (e + (bitLength m : Int) - 53) (-1074) = q at hq1 hq2 ⊢
    have hr : (if q ≤ e then m * 2 ^ (e - q).toNat
        else if m % 2 ^ (q - e).toNat < 2 ^ ((q - e).toNat - 1) ∨
            (m % 2 ^ (q - e).toNat = 2 ^ ((q - e).toNat - 1) ∧
              m / 2 ^ (q - e).toNat % 2 = 0) then m / 2 ^ (q - e).toNat
          else m / 2 ^ (q - e).toNat + 1) ≤ 2 ^ 53 := by
      by_cases hqe : q ≤ e
      · rw [if_pos hqe]
        have h1 : (e - q).toNat + bitLength m ≤ 53 := by omega
        have h2 : m * 2 ^ (e - q).toNat < 2 ^ bitLength m * 2 ^ (e - q).toNat :=
          Nat.mul_lt_mul_of_pos_right hL (Nat.two_pow_pos _)
        rw [← Nat.pow_add] at h2
        have h3 : 2 ^ (bitLength m + (e - q).toNat) ≤ 2 ^ 53 :=
          Nat.pow_le_pow_right (by decide) (by omega)
        omega
      · rw [if_neg hqe]
        have h1 : bitLength m ≤ (q - e).toNat + 53 := by omega
        have h2 : m < 2 ^ (q - e).toNat * 2 ^ 53 := by
          rw [← Nat.pow_add]
          exact lt_of_lt_of_le hL (Nat.pow_le_pow_right (by decide) h1)
        have h3 : m / 2 ^ (q - e).toNat < 2 ^ 53 := Nat.div_lt_of_lt_mul h2
        split <;> omega
    generalize (if q ≤ e then m * 2 ^ (e - q).toNat
        else if m % 2 ^ (q - e).toNat < 2 ^ ((q - e).toNat - 1) ∨
            (m % 2 ^ (q - e).toNat = 2 ^ ((q - e).toNat - 1) ∧
              m / 2 ^ (q - e).toNat % 2 = 0) then m / 2 ^ (q - e).toNat
          else m / 2 ^ (q - e).toNat + 1) = rounded at hr ⊢
    by_cases hov : q + (bitLength rounded : Int) > 1024
    · rw [if_pos hov]
      rfl
    · rw [if_neg hov]
      by_cases h53 : rounded = 2 ^ 53
      · rw [if_pos h53]
        rw [h53, bitLength_two_pow_53] at hov
        simp only [Double.isBinary64, bitLength_two_pow_52, Bool.and_eq_true, decide_eq_true_eq]
        refine ⟨⟨by decide, by omega⟩, ?_⟩
        push_cast
        omega
      · rw [if_neg h53]
        simp only [Double.isBinary64, Bool.and_eq_true, decide_eq_true_eq]
        exact ⟨⟨by omega, hq2⟩, by omega⟩

theorem Double.add_isBinary64 (x y : Double) : (Double.add x y).isBinary64 = true := by
  cases x <;> cases y <;> simp only [Double.add] <;> try rfl
  · split <;> rfl
  · split
    · rfl
    · exact Double.round_isBinary64 _ _ _

theorem Double.sub_isBinary64 (x y : Double) : (Double.sub x y).isBinary64 = true :=
  Double.add_isBinary64 _ _

theorem Double.abs_isBinary64 (x : Double) (h : x.isBinary64 = true) :
    x.abs.isBinary64 = true := by
  cases x <;> first | rfl | exact h

theorem Double.sub_examples :
    Double.sub Double.one (.finite true (2 ^ 52) (-112)) = Double.one ∧
    Double.sub (.finite false (2 ^ 52) 1) (.finite true (2 ^ 52) (-52)) =
      .finite false (2 ^ 52) 1 ∧
    Double.sub (.finite false (2 ^ 52 + 1) 1) (.finite true (2 ^ 52) (-52)) =
      .finite false (2 ^ 52 + 2) 1 ∧
    Double.sub (.finite false 3 0) (.finite false 5 0) = .finite true (2 ^ 52) (-51) ∧
    Double.sub (.finite false (2 ^ 53 - 1) 971) (.finite true (2 ^ 53 - 1) 971) = .inf false ∧
    Double.sub (.finite false 1 (-1074)) (.finite false 3 (-1074)) =
      .finite true 2 (-1074) ∧
    Double.sub (.finite false 7 0) (.finite false 7 0) = .finite false 0 (-1074) ∧
    Double.sub (.finite true 0 (-1074)) (.finite false 0 (-1074)) = .finite true 0 (-1074) ∧
    Double.sub (.inf false) (.inf false) = .nan ∧
    Double.sub (.inf false) (.inf true) = .inf false ∧
    Double.sub .nan Double.one = .nan := by
  decide!

/-! ## `isApprox` -/

theorem Tensor.isApprox_of_equal {Scalar : Type} [ApproxScalar Scalar]
    (a b : Tensor Scalar 4) (t : Double) (h : a.hasEqualDimensions b = true) :
    a.isApprox b t =
      .ok (allLoop (a.dimension 0) fun i =>
        allLoop (a.dimension 1) fun j =>
          allLoop (a.dimension 2) fun k =>
            allLoop (a.dimension 3) fun l =>
              !(ApproxScalar.gt
                (ApproxScalar.abs (ApproxScalar.sub (a.get i j k l) (b.get i j k l))) t)) := by
  unfold Tensor.isApprox
  rw [h]
  rfl

theorem Tensor.isApprox_of_not_equal {Scalar : Type} [ApproxScalar Scalar]
    (a b : Tensor Scalar 4) (t : Double) (h : a.hasEqualDimensions b = false) :
    a.isApprox b t = .error .invalid_argument := by
  unfold Tensor.isApprox
  rw [h]
  rfl

/-- C20: for rank-4 tensors `a` and `b` and any tolerance, `a.isApprox(b,
tolerance)` throws `std::invalid_argument` if and only if `a` and `b` differ
in at least one of their four dimensions (`hasEqualDimensions` is false); when
all four dimensions agree it returns a boolean and does not throw; and the
dimension check comes before any element is compared: with differing
dimensions the outcome is the exception whatever the elements are. -/
theorem Tensor.isApprox_throws_iff {Scalar : Type} [ApproxScalar Scalar]
    (a b : Tensor Scalar 4) (tolerance : Double) :
    (a.isApprox b tolerance = .error .invalid_argument ↔
      ∃ n : Fin 4, a.dimension n ≠ b.dimension n) ∧
    (a.isApprox b tolerance = .error .invalid_argument ↔ a.hasEqualDimensions b = false) ∧
    (∀ e : Error, a.isApprox b tolerance = .error e → e = .invalid_argument) ∧
    ((∀ n : Fin 4, a.dimension n = b.dimension n) →
      ∃ v : Bool, a.isApprox b tolerance = .ok v) ∧
    ((∃ n : Fin 4, a.dimension n ≠ b.dimension n) →
      ∀ ca cb : List Nat → Scalar,
        ({ a with coeff := ca } : Tensor Scalar 4).isApprox { b with coeff := cb } tolerance =
          .error .invalid_argument) := by
  have hthrow : a.isApprox b tolerance = .error .invalid_argument ↔
      a.hasEqualDimensions b = false := by
    cases h : a.hasEqualDimensions b
    · rw [Tensor.isApprox_of_not_equal a b tolerance h]; simp
    · rw [Tensor.isApprox_of_equal a b tolerance h]; simp
  have hne : a.hasEqualDimensions b = false ↔ ∃ n : Fin 4, a.dimension n ≠ b.dimension n := by
    rw [← Bool.not_eq_true, Tensor.hasEqualDimensions_iff]
    exact not_forall
  refine ⟨hthrow.trans hne, hthrow, ?_, ?_, ?_⟩
  · intro e he
    cases h : a.hasEqualDimensions b
    · rw [Tensor.isApprox_of_not_equal a b tolerance h] at he
      injection he with he
      exact he.symm
    · rw [Tensor.isApprox_of_equal a b tolerance h] at he
      cases he
  · intro hd
    exact ⟨_, Tensor.isApprox_of_equal a b tolerance ((Tensor.hasEqualDimensions_iff a b).mpr hd)⟩
  · intro hd ca cb
    apply Tensor.isApprox_of_not_equal
    rw [← Bool.not_eq_true, Tensor.hasEqualDimensions_iff]
    exact not_forall.mpr hd

theorem Tensor.isApprox_throws_iff_witness :
    (Tensor.ofFn 2 2 2 2 fun _ _ _ _ => Double.finite false 3 0).hasEqualDimensions
      (Tensor.ofFn 2 2 2 2 fun _ _ _ _ => Double.finite false 5 0) = true ∧
    (Tensor.ofFn 2 2 2 2 fun _ _ _ _ => Double.finite false 3 0).isApprox
      (Tensor.ofFn 2 2 2 2 fun _ _ _ _ => Double.finite false 5 0) Double.one = .ok false ∧
    ∃ v : Bool, (Tensor.ofFn 2 2 2 2 fun _ _ _ _ => Double.finite false 3 0).isApprox
      (Tensor.ofFn 2 2 2 2 fun _ _ _ _ => Double.finite false 5 0) Double.one = .ok v :=
  ⟨by decide, by decide, (Tensor.isApprox_throws_iff
    (Tensor.ofFn 2 2 2 2 fun _ _ _ _ => Double.finite false 3 0)
    (Tensor.ofFn 2 2 2 2 fun _ _ _ _ => Double.finite false 5 0) Double.one).2.2.2.1
      (by decide)⟩

/-! ## The shared contract of the RDM builders -/

/-- C11: for every RDM builder and every coefficient vector, `calculate1RDMs`
and `calculate2RDMs` fail with the dimension-mismatch error if and only if the
length of the vector differs from the dimension of the space the builder was
constructed over; they return their RDMs if and only if the two agree. -/
theorem RDMBuilder.calculate_fails_iff {OneRDMs TwoRDMs : Type}
    (builder : RDMBuilder OneRDMs TwoRDMs) (coefficients : List Rat) :
    (builder.calculate1RDMs coefficients = .error .dimension_mismatch ↔
      coefficients.length ≠ builder.space.dimension) ∧
    (builder.calculate2RDMs coefficients = .error .dimension_mismatch ↔
      coefficients.length ≠ builder.space.dimension) ∧
    (builder.calculate1RDMs coefficients = .ok (builder.accumulate1 coefficients) ↔
      coefficients.length = builder.space.dimension) ∧
    (builder.calculate2RDMs coefficients = .ok (builder.accumulate2 coefficients) ↔
      coefficients.length = builder.space.dimension) := by
  unfold RDMBuilder.calculate1RDMs RDMBuilder.calculate2RDMs
  by_cases h : coefficients.length = builder.space.dimension
  · simp [h]
  · simp [h]

/-! ## Molecules -/

/-- C19 (as stated, not met): the list of two equal atoms with atomic number 1
has total nucleic charge 2, the charge 0 is not larger than it, and yet the
construction throws `std::invalid_argument` instead of giving a molecule with
2 electrons (test `duplicate_atoms_constructor`). -/
theorem Molecule.new_duplicate_atoms_throws :
    calculateTotalNucleicCharge [⟨1, 0, 0, 0⟩, ⟨1, 0, 0, 0⟩] = 2 ∧
    ¬ ((calculateTotalNucleicCharge [⟨1, 0, 0, 0⟩, ⟨1, 0, 0, 0⟩] : Int) < 0) ∧
    Molecule.new [⟨1, 0, 0, 0⟩, ⟨1, 0, 0, 0⟩] 0 = .error .invalid_argument ∧
    Molecule.ofAtoms [⟨1, 0, 0, 0⟩, ⟨1, 0, 0, 0⟩] = .error .invalid_argument := by
  decide

/-- C19 (amended): for every list of atoms and every integer charge,
constructing a Molecule throws `std::invalid_argument` when the charge is
larger than the total nucleic charge (the sum of the atomic numbers), and also
when an atom occurs twice in the list; otherwise the construction succeeds and
the number of electrons is the total nucleic charge minus the charge.  The
atoms with atomic numbers 1, 2, 3, 4 of the tests have total nucleic charge 10,
accept the charges -2 and +3 and reject the charge +11, and a molecule of
total nucleic charge 10 such as water has N = 10, 11, 9 for the charges
0, -1, +1. -/
theorem Molecule.new_charge_spec (atoms : List Atom) (molecular_charge : Int) :
    ((calculateTotalNucleicCharge atoms : Int) < molecular_charge →
      Molecule.new atoms molecular_charge = .error .invalid_argument) ∧
    (¬ atoms.Nodup → Molecule.new atoms molecular_charge = .error .invalid_argument) ∧
    (atoms.Nodup → molecular_charge ≤ (calculateTotalNucleicCharge atoms : Int) →
      ∃ molecule : Molecule, Molecule.new atoms molecular_charge = .ok molecule ∧
        molecule.atoms = atoms ∧
        (molecule.N : Int) = (calculateTotalNucleicCharge atoms : Int) - molecular_charge) ∧
    (calculateTotalNucleicCharge testAtoms = 10 ∧
      (∃ molecule : Molecule, Molecule.new testAtoms (-2) = .ok molecule ∧ molecule.N = 12) ∧
      (∃ molecule : Molecule, Molecule.new testAtoms 3 = .ok molecule ∧ molecule.N = 7) ∧
      Molecule.new testAtoms 11 = .error .invalid_argument) ∧
    (atoms.Nodup → calculateTotalNucleicCharge atoms = 10 →
      (∃ molecule : Molecule, Molecule.ofAtoms atoms = .ok molecule ∧ molecule.N = 10) ∧
      (∃ molecule : Molecule, Molecule.new atoms 0 = .ok molecule ∧ molecule.N = 10) ∧
      (∃ molecule : Molecule, Molecule.new atoms (-1) = .ok molecule ∧ molecule.N = 11) ∧
      (∃ molecule : Molecule, Molecule.new atoms 1 = .ok molecule ∧ molecule.N = 9)) := by
  have key : ∀ charge : Int, atoms.Nodup → charge ≤ (calculateTotalNucleicCharge atoms : Int) →
      Molecule.new atoms charge =
        .ok { atoms := atoms, N := ((calculateTotalNucleicCharge atoms : Int) - charge).toNat } := by
    intro charge hnd hle
    unfold Molecule.new
    rw [if_neg (not_lt.mpr hle), if_neg (not_not.mpr hnd)]
  refine ⟨?_, ?_, ?_, ?_, ?_⟩
  · intro h
    unfold Molecule.new
    rw [if_pos h]
  · intro h
    unfold Molecule.new
    by_cases hc : (calculateTotalNucleicCharge atoms : Int) < molecular_charge
    · rw [if_pos hc]
    · rw [if_neg hc, if_pos h]
  · intro hnd hle
    refine ⟨_, key molecular_charge hnd hle, rfl, ?_⟩
    simp only
    omega
  · refine ⟨by decide, ⟨⟨testAtoms, 12⟩, by decide, rfl⟩, ⟨⟨testAtoms, 7⟩, by decide, rfl⟩,
      by decide⟩
  · intro hnd h10
    have h0 := key 0 hnd (by omega)
    have hm := key (-1) hnd (by omega)
    have hp := key 1 hnd (by omega)
    rw [h10] at h0 hm hp
    exact ⟨⟨_, h0, rfl⟩, ⟨_, h0, rfl⟩, ⟨_, hm, rfl⟩, ⟨_, hp, rfl⟩⟩

theorem Molecule.new_charge_spec_witness :
    ((calculateTotalNucleicCharge testAtoms : Int) < 11) ∧
    Molecule.new testAtoms 11 = .error .invalid_argument :=
  ⟨by decide, (Molecule.new_charge_spec testAtoms 11).1 (by decide)⟩

/-! ## `FromBlock` after `addBlock` -/

theorem Tensor.FromBlock_closed {Scalar : Type} [Zero Scalar] (T : Tensor Scalar 4)
    (i j k l desize : Nat) (p q r s : Nat) :
    (T.FromBlock i j k l desize).dimension =
      (Tensor.zero (size_t_sub (size_t_sub (T.dimension 0) i) desize)
        (size_t_sub (size_t_sub (T.dimension 1) j) desize)
        (size_t_sub (size_t_sub (T.dimension 2) k) desize)
        (size_t_sub (size_t_sub (T.dimension 3) l) desize) : Tensor Scalar 4).dimension ∧
    (T.FromBlock i j k l desize).get p q r s =
      if p < size_t_sub (size_t_sub (T.dimension 0) i) desize ∧
          q < size_t_sub (size_t_sub (T.dimension 1) j) desize ∧
          r < size_t_sub (size_t_sub (T.dimension 2) k) desize ∧
          s < size_t_sub (size_t_sub (T.dimension 3) l) desize then
        T.get (i + p) (j + q) (k + r) (l + s)
      else 0 := by
  rw [Tensor.FromBlock_eq_fixed T i j k l desize _ rfl]
  have h := Tensor.FromBlock_fixed_spec T i j k l
    (Tensor.zero (size_t_sub (size_t_sub (T.dimension 0) i) desize)
      (size_t_sub (size_t_sub (T.dimension 1) j) desize)
      (size_t_sub (size_t_sub (T.dimension 2) k) desize)
      (size_t_sub (size_t_sub (T.dimension 3) l) desize) : Tensor Scalar 4).dimension
    (Tensor.zero (size_t_sub (size_t_sub (T.dimension 0) i) desize)
      (size_t_sub (size_t_sub (T.dimension 1) j) desize)
      (size_t_sub (size_t_sub (T.dimension 2) k) desize)
      (size_t_sub (size_t_sub (T.dimension 3) l) desize)) p q r s
  exact ⟨h.1, h.2⟩

theorem size_t_sub_add_left (a b : Nat) : size_t_sub (size_t_sub (a + b) a) 0 = b := by
  rw [size_t_sub_of_le (Nat.le_add_right a b), size_t_sub_of_le (Nat.zero_le _)]
  omega

/-- C21: for every rank-4 tensor `T` and all offsets `(i,j,k,l)`, with `Z` the
all-zero tensor of dimensions `(i+t0, j+t1, k+t2, l+t3)`,
`FromBlock(Z.addBlock(T, i, j, k, l), i, j, k, l)` with `desize` 0 has the
dimensions of `T` and, at every index within them, the element of `T`: over
scalars whose zero is neutral for addition, `FromBlock` reads back exactly the
block that `addBlock` wrote. -/
theorem Tensor.FromBlock_addBlock_zero {Scalar : Type} [AddZeroClass Scalar]
    (T : Tensor Scalar 4) (i j k l : Nat) :
    (∀ n : Fin 4,
      (Tensor.FromBlock ((Tensor.zero (i + T.dimension 0) (j + T.dimension 1)
        (k + T.dimension 2) (l + T.dimension 3)).addBlock T i j k l) i j k l 0).dimension n =
        T.dimension n) ∧
    ∀ p q r s : Nat, p < T.dimension 0 → q < T.dimension 1 → r < T.dimension 2 →
      s < T.dimension 3 →
      (Tensor.FromBlock ((Tensor.zero (i + T.dimension 0) (j + T.dimension 1)
        (k + T.dimension 2) (l + T.dimension 3)).addBlock T i j k l) i j k l 0).get p q r s =
        T.get p q r s := by
  have hd : ∀ n : Fin 4, ((Tensor.zero (i + T.dimension 0) (j + T.dimension 1)
      (k + T.dimension 2) (l + T.dimension 3) : Tensor Scalar 4).addBlock T i j k l).dimension n =
      [i + T.dimension 0, j + T.dimension 1, k + T.dimension 2, l + T.dimension 3].getD n.val 0 := by
    intro n
    rw [Tensor.dimension_addBlock]
    rfl
  have hd0 := hd ⟨0, by omega⟩
  have hd1 := hd ⟨1, by omega⟩
  have hd2 := hd ⟨2, by omega⟩
  have hd3 := hd ⟨3, by omega⟩
  simp only [List.getD_cons_zero, List.getD_cons_succ] at hd0 hd1 hd2 hd3
  change (Tensor.addBlock _ T i j k l).dimension 0 = _ at hd0
  change (Tensor.addBlock _ T i j k l).dimension 1 = _ at hd1
  change (Tensor.addBlock _ T i j k l).dimension 2 = _ at hd2
  change (Tensor.addBlock _ T i j k l).dimension 3 = _ at hd3
  constructor
  · intro n
    rw [(Tensor.FromBlock_closed _ i j k l 0 0 0 0 0).1, hd0, hd1, hd2, hd3,
      size_t_sub_add_left, size_t_sub_add_left, size_t_sub_add_left, size_t_sub_add_left]
    obtain ⟨n, hn⟩ := n
    interval_cases n <;> rfl
  · intro p q r s hp hq hr hs
    rw [(Tensor.FromBlock_closed _ i j k l 0 p q r s).2, hd0, hd1, hd2, hd3,
      size_t_sub_add_left, size_t_sub_add_left, size_t_sub_add_left, size_t_sub_add_left,
      if_pos ⟨hp, hq, hr, hs⟩, Tensor.coeff_addBlock, if_pos (by omega)]
    simp only [Nat.add_sub_cancel_left]
    show (0 : Scalar) + _ = _
    exact zero_add _

theorem Tensor.FromBlock_addBlock_zero_witness :
    (Tensor.FromBlock ((Tensor.zero (2 + (Tensor.ofFn 3 3 3 3 fun i j k l =>
          ((i + 10 * j + 100 * k + 1000 * l : Nat) : Int)).dimension 0)
        (0 + (Tensor.ofFn 3 3 3 3 fun i j k l =>
          ((i + 10 * j + 100 * k + 1000 * l : Nat) : Int)).dimension 1)
        (1 + (Tensor.ofFn 3 3 3 3 fun i j k l =>
          ((i + 10 * j + 100 * k + 1000 * l : Nat) : Int)).dimension 2)
        (5 + (Tensor.ofFn 3 3 3 3 fun i j k l =>
          ((i + 10 * j + 100 * k + 1000 * l : Nat) : Int)).dimension 3)).addBlock
        (Tensor.ofFn 3 3 3 3 fun i j k l =>
          ((i + 10 * j + 100 * k + 1000 * l : Nat) : Int)) 2 0 1 5) 2 0 1 5 0).get 1 2 0 1 =
      (Tensor.ofFn 3 3 3 3 fun i j k l =>
        ((i + 10 * j + 100 * k + 1000 * l : Nat) : Int)).get 1 2 0 1 :=
  (Tensor.FromBlock_addBlock_zero (Tensor.ofFn 3 3 3 3 fun i j k l =>
    ((i + 10 * j + 100 * k + 1000 * l : Nat) : Int)) 2 0 1 5).2 1 2 0 1
      (by decide) (by decide) (by decide) (by decide)

/-! ## The assignments of `pairWiseReduce` -/

theorem forLoop_two_counters {σ : Type} (d0 d1 d2 d3 : Nat)
    (assign : Nat → Nat → Nat → Nat → Nat → Nat → σ → σ) (s0 : σ) :
    (forLoop d1 (fun j (st : σ × Nat) =>
      forLoop d0 (fun i (st : σ × Nat) =>
        ((forLoop d3 (fun l (st2 : σ × Nat) =>
          forLoop d2 (fun k (st2 : σ × Nat) =>
            (assign i j k l st.2 st2.2 st2.1, st2.2 + 1)) st2) (st.1, 0)).1,
          st.2 + 1)) st) (s0, 0)).1 =
      forLoop d1 (fun j s =>
        forLoop d0 (fun i s =>
          forLoop d3 (fun l s =>
            forLoop d2 (fun k s => assign i j k l (d0 * j + i) (d2 * l + k) s) s) s) s) s0 := by
  have hk : ∀ (row i j l : Nat) (st2 : σ × Nat),
      forLoop d2 (fun k (st2 : σ × Nat) => (assign i j k l row st2.2 st2.1, st2.2 + 1)) st2 =
      (forLoop d2 (fun k s => assign i j k l row (st2.2 + 1 * k) s) st2.1, st2.2 + 1 * d2) :=
    fun row i j l st2 =>
      forLoop_counter (fun k c s => assign i j k l row c s) 1 d2 st2.1 st2.2
  have hl : ∀ (row i j : Nat) (s : σ),
      forLoop d3 (fun l (st2 : σ × Nat) =>
        forLoop d2 (fun k (st2 : σ × Nat) =>
          (assign i j k l row st2.2 st2.1, st2.2 + 1)) st2) (s, 0) =
      (forLoop d3 (fun l s =>
        forLoop d2 (fun k s => assign i j k l row (0 + 1 * d2 * l + 1 * k) s) s) s,
        0 + 1 * d2 * d3) := by
    intro row i j s
    have e : (fun l (st2 : σ × Nat) =>
        forLoop d2 (fun k (st2 : σ × Nat) =>
          (assign i j k l row st2.2 st2.1, st2.2 + 1)) st2) =
        fun l (st2 : σ × Nat) =>
          (forLoop d2 (fun k s => assign i j k l row (st2.2 + 1 * k) s) st2.1,
            st2.2 + 1 * d2) := by
      funext l st2
      exact hk row i j l st2
    rw [e]
    exact forLoop_counter (fun l c s =>
      forLoop d2 (fun k s => assign i j k l row (c + 1 * k) s) s) (1 * d2) d3 s 0
  have hi : ∀ (j : Nat) (st : σ × Nat),
      forLoop d0 (fun i (st : σ × Nat) =>
        ((forLoop d3 (fun l (st2 : σ × Nat) =>
          forLoop d2 (fun k (st2 : σ × Nat) =>
            (assign i j k l st.2 st2.2 st2.1, st2.2 + 1)) st2) (st.1, 0)).1,
          st.2 + 1)) st =
      (forLoop d0 (fun i s =>
        forLoop d3 (fun l s =>
          forLoop d2 (fun k s =>
            assign i j k l (st.2 + 1 * i) (0 + 1 * d2 * l + 1 * k) s) s) s)
        st.1, st.2 + 1 * d0) := by
    intro j st
    have e : (fun i (st : σ × Nat) =>
        ((forLoop d3 (fun l (st2 : σ × Nat) =>
          forLoop d2 (fun k (st2 : σ × Nat) =>
            (assign i j k l st.2 st2.2 st2.1, st2.2 + 1)) st2) (st.1, 0)).1,
          st.2 + 1)) =
        fun i (st : σ × Nat) =>
          (forLoop d3 (fun l s =>
            forLoop d2 (fun k s =>
              assign i j k l st.2 (0 + 1 * d2 * l + 1 * k) s) s) st.1,
            st.2 + 1) := by
      funext i st
      rw [hl st.2 i j st.1]
    rw [e]
    exact forLoop_counter (fun i c s =>
      forLoop d3 (fun l s =>
        forLoop d2 (fun k s => assign i j k l c (0 + 1 * d2 * l + 1 * k) s) s) s) 1
      d0 st.1 st.2
  have e : (fun j (st : σ × Nat) =>
      forLoop d0 (fun i (st : σ × Nat) =>
        ((forLoop d3 (fun l (st2 : σ × Nat) =>
          forLoop d2 (fun k (st2 : σ × Nat) =>
            (assign i j k l st.2 st2.2 st2.1, st2.2 + 1)) st2) (st.1, 0)).1,
          st.2 + 1)) st) =
      fun j (st : σ × Nat) =>
        (forLoop d0 (fun i s =>
          forLoop d3 (fun l s =>
            forLoop d2 (fun k s =>
              assign i j k l (st.2 + 1 * i) (0 + 1 * d2 * l + 1 * k) s) s) s)
          st.1, st.2 + 1 * d0) := by
    funext j st
    exact hi j st
  rw [e]
  rw [forLoop_counter (fun j c s =>
    forLoop d0 (fun i s =>
      forLoop d3 (fun l s =>
        forLoop d2 (fun k s =>
          assign i j k l (c + 1 * i) (0 + 1 * d2 * l + 1 * k) s) s) s) s)
    (1 * d0) d1 _ 0]
  simp only [Nat.zero_add, Nat.one_mul]

theorem forLoop_prod {σ τ : Type} (f : Nat → σ → σ) (g : Nat → τ → τ) (n : Nat) (s : σ × τ) :
    forLoop n (fun x (s : σ × τ) => (f x s.1, g x s.2)) s =
      (forLoop n f s.1, forLoop n g s.2) := by
  induction n with
  | zero => rfl
  | succ n ih => rw [forLoop_succ, ih, forLoop_succ, forLoop_succ]

theorem forLoop_append {α : Type} (f : Nat → List α) (n : Nat) (L : List α) :
    forLoop n (fun x L => L ++ f x) L = L ++ (List.range n).flatMap f := by
  induction n with
  | zero => simp [forLoop_zero]
  | succ n ih =>
    rw [forLoop_succ, ih, List.range_succ, List.flatMap_append, List.flatMap_singleton,
      List.append_assoc]

theorem Tensor.pairWiseReduceLog_eq {Scalar : Type} (T : Tensor Scalar 4)
    (storage : Nat → Nat → Scalar) :
    T.pairWiseReduceLog storage =
      (T.pairWiseReduce storage,
        assignmentsInOrder (T.dimension 0) (T.dimension 1) (T.dimension 2) (T.dimension 3)) := by
  have h := forLoop_two_counters (T.dimension 0) (T.dimension 1) (T.dimension 2) (T.dimension 3)
    (fun i j k l row col (s : MatrixX Scalar × List Assignment) =>
      (s.1.set row col (T.get i j k l), s.2 ++ [(⟨i, j, k, l, row, col⟩ : Assignment)]))
    (({ rows := T.dimension 0 * T.dimension 1, cols := T.dimension 2 * T.dimension 3,
        coeff := storage } : MatrixX Scalar), [])
  have h4 : ∀ (i j l : Nat) (s : MatrixX Scalar × List Assignment),
      forLoop (T.dimension 2) (fun k (s : MatrixX Scalar × List Assignment) =>
        (s.1.set (T.dimension 0 * j + i) (T.dimension 2 * l + k) (T.get i j k l),
          s.2 ++ [(⟨i, j, k, l, T.dimension 0 * j + i, T.dimension 2 * l + k⟩ : Assignment)])) s =
      (forLoop (T.dimension 2) (fun k (M : MatrixX Scalar) =>
          M.set (T.dimension 0 * j + i) (T.dimension 2 * l + k) (T.get i j k l)) s.1,
        s.2 ++ (List.range (T.dimension 2)).flatMap fun k =>
          [(⟨i, j, k, l, T.dimension 0 * j + i, T.dimension 2 * l + k⟩ : Assignment)]) := by
    intro i j l s
    refine Eq.trans (forLoop_prod
      (fun k (M : MatrixX Scalar) =>
        M.set (T.dimension 0 * j + i) (T.dimension 2 * l + k) (T.get i j k l))
      (fun k (L : List Assignment) => L ++ [(⟨i, j, k, l, T.dimension 0 * j + i,
        T.dimension 2 * l + k⟩ : Assignment)]) (T.dimension 2) s) ?_
    rw [forLoop_append]
  have h3 : ∀ (i j : Nat) (s : MatrixX Scalar × List Assignment),
      forLoop (T.dimension 3) (fun l (s : MatrixX Scalar × List Assignment) =>
        forLoop (T.dimension 2) (fun k (s : MatrixX Scalar × List Assignment) =>
          (s.1.set (T.dimension 0 * j + i) (T.dimension 2 * l + k) (T.get i j k l),
            s.2 ++ [(⟨i, j, k, l, T.dimension 0 * j + i, T.dimension 2 * l + k⟩ : Assignment)]))
          s) s =
      (forLoop (T.dimension 3) (fun l (M : MatrixX Scalar) =>
        forLoop (T.dimension 2) (fun k (M : MatrixX Scalar) =>
          M.set (T.dimension 0 * j + i) (T.dimension 2 * l + k) (T.get i j k l)) M) s.1,
        s.2 ++ (List.range (T.dimension 3)).flatMap fun l =>
          (List.range (T.dimension 2)).flatMap fun k =>
            [(⟨i, j, k, l, T.dimension 0 * j + i, T.dimension 2 * l + k⟩ : Assignment)]) := by
    intro i j s
    have e : (fun l (s : MatrixX Scalar × List Assignment) =>
        forLoop (T.dimension 2) (fun k (s : MatrixX Scalar × List Assignment) =>
          (s.1.set (T.dimension 0 * j + i) (T.dimension 2 * l + k) (T.get i j k l),
            s.2 ++ [(⟨i, j, k, l, T.dimension 0 * j + i, T.dimension 2 * l + k⟩ : Assignment)]))
          s) = fun l (s : MatrixX Scalar × List Assignment) =>
        ((fun l (M : MatrixX Scalar) => forLoop (T.dimension 2) (fun k (M : MatrixX Scalar) =>
            M.set (T.dimension 0 * j + i) (T.dimension 2 * l + k) (T.get i j k l)) M) l s.1,
          (fun l (L : List Assignment) => L ++ (List.range (T.dimension 2)).flatMap fun k =>
            [(⟨i, j, k, l, T.dimension 0 * j + i, T.dimension 2 * l + k⟩ : Assignment)]) l s.2) := by
      funext l s
      exact h4 i j l s
    rw [e]
    refine Eq.trans (forLoop_prod
      (fun l (M : MatrixX Scalar) => forLoop (T.dimension 2) (fun k (M : MatrixX Scalar) =>
        M.set (T.dimension 0 * j + i) (T.dimension 2 * l + k) (T.get i j k l)) M)
      (fun l (L : List Assignment) => L ++ (List.range (T.dimension 2)).flatMap fun k =>
        [(⟨i, j, k, l, T.dimension 0 * j + i, T.dimension 2 * l + k⟩ : Assignment)])
      (T.dimension 3) s) ?_
    rw [forLoop_append]
  have h2 : ∀ (j : Nat) (s : MatrixX Scalar × List Assignment),
      forLoop (T.dimension 0) (fun i (s : MatrixX Scalar × List Assignment) =>
        forLoop (T.dimension 3) (fun l (s : MatrixX Scalar × List Assignment) =>
          forLoop (T.dimension 2) (fun k (s : MatrixX Scalar × List Assignment) =>
            (s.1.set (T.dimension 0 * j + i) (T.dimension 2 * l + k) (T.get i j k l),
              s.2 ++ [(⟨i, j, k, l, T.dimension 0 * j + i, T.dimension 2 * l + k⟩ : Assignment)]))
            s) s) s =
      (forLoop (T.dimension 0) (fun i (M : MatrixX Scalar) =>
        forLoop (T.dimension 3) (fun l (M : MatrixX Scalar) =>
          forLoop (T.dimension 2) (fun k (M : MatrixX Scalar) =>
            M.set (T.dimension 0 * j + i) (T.dimension 2 * l + k) (T.get i j k l)) M) M) s.1,
        s.2 ++ (List.range (T.dimension 0)).flatMap fun i =>
          (List.range (T.dimension 3)).flatMap fun l =>
            (List.range (T.dimension 2)).flatMap fun k =>
              [(⟨i, j, k, l, T.dimension 0 * j + i, T.dimension 2 * l + k⟩ : Assignment)]) := by
    intro j s
    have e : (fun i (s : MatrixX Scalar × List Assignment) =>
        forLoop (T.dimension 3) (fun l (s : MatrixX Scalar × List Assignment) =>
          forLoop (T.dimension 2) (fun k (s : MatrixX Scalar × List Assignment) =>
            (s.1.set (T.dimension 0 * j + i) (T.dimension 2 * l + k) (T.get i j k l),
              s.2 ++ [(⟨i, j, k, l, T.dimension 0 * j + i, T.dimension 2 * l + k⟩ : Assignment)]))
            s) s) = fun i (s : MatrixX Scalar × List Assignment) =>
        ((fun i (M : MatrixX Scalar) => forLoop (T.dimension 3) (fun l (M : MatrixX Scalar) =>
            forLoop (T.dimension 2) (fun k (M : MatrixX Scalar) =>
              M.set (T.dimension 0 * j + i) (T.dimension 2 * l + k) (T.get i j k l)) M) M) i s.1,
          (fun i (L : List Assignment) => L ++ (List.range (T.dimension 3)).flatMap fun l =>
            (List.range (T.dimension 2)).flatMap fun k =>
              [(⟨i, j, k, l, T.dimension 0 * j + i, T.dimension 2 * l + k⟩ : Assignment)])
            i s.2) := by
      funext i s
      exact h3 i j s
    rw [e]
    refine Eq.trans (forLoop_prod
      (fun i (M : MatrixX Scalar) => forLoop (T.dimension 3) (fun l (M : MatrixX Scalar) =>
        forLoop (T.dimension 2) (fun k (M : MatrixX Scalar) =>
          M.set (T.dimension 0 * j + i) (T.dimension 2 * l + k) (T.get i j k l)) M) M)
      (fun i (L : List Assignment) => L ++ (List.range (T.dimension 3)).flatMap fun l =>
        (List.range (T.dimension 2)).flatMap fun k =>
          [(⟨i, j, k, l, T.dimension 0 * j + i, T.dimension 2 * l + k⟩ : Assignment)])
      (T.dimension 0) s) ?_
    rw [forLoop_append]
  have e1 : (fun j (s : MatrixX Scalar × List Assignment) =>
      forLoop (T.dimension 0) (fun i (s : MatrixX Scalar × List Assignment) =>
        forLoop (T.dimension 3) (fun l (s : MatrixX Scalar × List Assignment) =>
          forLoop (T.dimension 2) (fun k (s : MatrixX Scalar × List Assignment) =>
            (s.1.set (T.dimension 0 * j + i) (T.dimension 2 * l + k) (T.get i j k l),
              s.2 ++ [(⟨i, j, k, l, T.dimension 0 * j + i, T.dimension 2 * l + k⟩ : Assignment)]))
            s) s) s) = fun j (s : MatrixX Scalar × List Assignment) =>
      ((fun j (M : MatrixX Scalar) => forLoop (T.dimension 0) (fun i (M : MatrixX Scalar) =>
          forLoop (T.dimension 3) (fun l (M : MatrixX Scalar) =>
            forLoop (T.dimension 2) (fun k (M : MatrixX Scalar) =>
              M.set (T.dimension 0 * j + i) (T.dimension 2 * l + k) (T.get i j k l)) M) M) M)
          j s.1,
        (fun j (L : List Assignment) => L ++ (List.range (T.dimension 0)).flatMap fun i =>
          (List.range (T.dimension 3)).flatMap fun l =>
            (List.range (T.dimension 2)).flatMap fun k =>
              [(⟨i, j, k, l, T.dimension 0 * j + i, T.dimension 2 * l + k⟩ : Assignment)])
          j s.2) := by
    funext j s
    exact h2 j s
  unfold Tensor.pairWiseReduceLog
  simp only
  refine Eq.trans h ?_
  rw [e1]
  refine Eq.trans (forLoop_prod
    (fun j (M : MatrixX Scalar) => forLoop (T.dimension 0) (fun i (M : MatrixX Scalar) =>
      forLoop (T.dimension 3) (fun l (M : MatrixX Scalar) =>
        forLoop (T.dimension 2) (fun k (M : MatrixX Scalar) =>
          M.set (T.dimension 0 * j + i) (T.dimension 2 * l + k) (T.get i j k l)) M) M) M)
    (fun j (L : List Assignment) => L ++ (List.range (T.dimension 0)).flatMap fun i =>
      (List.range (T.dimension 3)).flatMap fun l =>
        (List.range (T.dimension 2)).flatMap fun k =>
          [(⟨i, j, k, l, T.dimension 0 * j + i, T.dimension 2 * l + k⟩ : Assignment)])
    (T.dimension 1) _) ?_
  rw [forLoop_append, Tensor.pairWiseReduce_eq]
  rfl


theorem mem_assignmentsInOrder (d0 d1 d2 d3 : Nat) (a : Assignment) :
    a ∈ assignmentsInOrder d0 d1 d2 d3 ↔
      a.i < d0 ∧ a.j < d1 ∧ a.k < d2 ∧ a.l < d3 ∧
        a.row_index = d0 * a.j + a.i ∧ a.column_index = d2 * a.l + a.k := by
  unfold assignmentsInOrder
  simp only [List.mem_flatMap, List.mem_range, List.mem_singleton]
  constructor
  · rintro ⟨j, hj, i, hi, l, hl, k, hk, rfl⟩
    exact ⟨hi, hj, hk, hl, rfl, rfl⟩
  · rintro ⟨hi, hj, hk, hl, hr, hc⟩
    refine ⟨a.j, hj, a.i, hi, a.l, hl, a.k, hk, ?_⟩
    cases a
    simp only at hr hc
    simp only [hr, hc]

theorem flatMap_range_eq_single {β : Type} (f : Nat → List β) (x0 : Nat) :
    ∀ n : Nat, x0 < n → (∀ x, x < n → x ≠ x0 → f x = []) →
      (List.range n).flatMap f = f x0 := by
  intro n
  induction n with
  | zero => intro h0; omega
  | succ n ih =>
    intro h0 h
    rw [List.range_succ, List.flatMap_append, List.flatMap_singleton]
    by_cases hx : x0 = n
    · subst hx
      have e : (List.range x0).flatMap f = [] := by
        rw [List.flatMap_eq_nil_iff]
        intro x hx
        rw [List.mem_range] at hx
        exact h x (by omega) (by omega)
      rw [e, List.nil_append]
    · rw [ih (by omega) (fun x hx hne => h x (by omega) hne), h n (by omega) (fun e => hx e.symm),
        List.append_nil]

theorem filter_assignmentsInOrder (d0 d1 d2 d3 m n : Nat) (hm : m < d0 * d1)
    (hn : n < d2 * d3) :
    (assignmentsInOrder d0 d1 d2 d3).filter
        (fun a => decide (a.row_index = m ∧ a.column_index = n)) =
      [(⟨m % d0, m / d0, n % d2, n / d2, m, n⟩ : Assignment)] := by
  have hd0 : 0 < d0 := Nat.pos_of_ne_zero (by rintro rfl; simp at hm)
  have hd2 : 0 < d2 := Nat.pos_of_ne_zero (by rintro rfl; simp at hn)
  have hj : m / d0 < d1 := Nat.div_lt_of_lt_mul hm
  have hl : n / d2 < d3 := Nat.div_lt_of_lt_mul hn
  have hi : m % d0 < d0 := Nat.mod_lt _ hd0
  have hk : n % d2 < d2 := Nat.mod_lt _ hd2
  have em : d0 * (m / d0) + m % d0 = m := Nat.div_add_mod m d0
  have en : d2 * (n / d2) + n % d2 = n := Nat.div_add_mod n d2
  unfold assignmentsInOrder
  rw [List.filter_flatMap, flatMap_range_eq_single _ (m / d0) d1 hj,
    List.filter_flatMap, flatMap_range_eq_single _ (m % d0) d0 hi,
    List.filter_flatMap, flatMap_range_eq_single _ (n / d2) d3 hl,
    List.filter_flatMap, flatMap_range_eq_single _ (n % d2) d2 hk]
  · rw [em, en]
    simp
  · intro k hk2 hne
    rw [List.filter_eq_nil_iff]
    intro a ha
    rw [List.mem_singleton] at ha
    subst ha
    simp only [decide_eq_true_eq, not_and]
    intro _ hc
    apply hne
    have e := Nat.mod_eq_of_lt hk2
    rw [← hc, Nat.mul_add_mod]
    exact e.symm
  · intro l hl2 hne
    rw [List.filter_eq_nil_iff]
    intro a ha
    simp only [List.mem_flatMap, List.mem_range, List.mem_singleton] at ha
    obtain ⟨k, hk2, rfl⟩ := ha
    simp only [decide_eq_true_eq, not_and]
    intro _ hc
    apply hne
    exact (div_eq_of_eq_mul_add hc.symm hk2).symm
  · intro i hi2 hne
    rw [List.filter_eq_nil_iff]
    intro a ha
    simp only [List.mem_flatMap, List.mem_range, List.mem_singleton] at ha
    obtain ⟨l, hl2, k, hk2, rfl⟩ := ha
    simp only [decide_eq_true_eq, not_and]
    intro hr
    exfalso
    apply hne
    have e := Nat.mod_eq_of_lt hi2
    rw [← hr, Nat.mul_add_mod]
    exact e.symm
  · intro j hj2 hne
    rw [List.filter_eq_nil_iff]
    intro a ha
    simp only [List.mem_flatMap, List.mem_range, List.mem_singleton] at ha
    obtain ⟨i, hi2, l, hl2, k, hk2, rfl⟩ := ha
    simp only [decide_eq_true_eq, not_and]
    intro hr
    exfalso
    apply hne
    exact (div_eq_of_eq_mul_add hr.symm hi2).symm


theorem Tensor.coeff_pairWiseReduce_mod_div {Scalar : Type} (T : Tensor Scalar 4)
    (storage : Nat → Nat → Scalar) (m n : Nat) (hm : m < T.dimension 0 * T.dimension 1)
    (hn : n < T.dimension 2 * T.dimension 3) :
    (T.pairWiseReduce storage).coeff m n =
      T.get (m % T.dimension 0) (m / T.dimension 0) (n % T.dimension 2) (n / T.dimension 2) := by
  have hd0 : 0 < T.dimension 0 := Nat.pos_of_ne_zero (by intro h; rw [h] at hm; simp at hm)
  have hd2 : 0 < T.dimension 2 := Nat.pos_of_ne_zero (by intro h; rw [h] at hn; simp at hn)
  have hj : m / T.dimension 0 < T.dimension 1 := Nat.div_lt_of_lt_mul hm
  have hl : n / T.dimension 2 < T.dimension 3 := Nat.div_lt_of_lt_mul hn
  have hi : m % T.dimension 0 < T.dimension 0 := Nat.mod_lt _ hd0
  have hk : n % T.dimension 2 < T.dimension 2 := Nat.mod_lt _ hd2
  have em : T.dimension 0 * (m / T.dimension 0) + m % T.dimension 0 = m := Nat.div_add_mod m _
  have en : T.dimension 2 * (n / T.dimension 2) + n % T.dimension 2 = n := Nat.div_add_mod n _
  have em2 : m - T.dimension 0 * (m / T.dimension 0) = m % T.dimension 0 := by omega
  have en2 : n - T.dimension 2 * (n / T.dimension 2) = n % T.dimension 2 := by omega
  rw [Tensor.coeff_pairWiseReduce, em2, en2, if_pos ⟨hj, hi, hl, hk, em.symm, en.symm⟩]

/-- C22: `pairWiseReduce` assigns every entry of its result exactly once.  The
log of the executed assignments belongs to the matrix that `pairWiseReduce`
returns; an assignment is executed exactly for the loop indices `i < d0`,
`j < d1`, `k < d2`, `l < d3`, with the counters `(i + d0 * j, k + d2 * l)`, so
every assignment goes to an entry of the `d0 * d1` by `d2 * d3` matrix; for
every entry `(m, n)` of the matrix the assignments to it are exactly one, that
of the indices `(m mod d0, m div d0, n mod d2, n div d2)`, and `M(m, n)` is the
element of `T` at these indices whatever the matrix held before; and every
element `T(i,j,k,l)` is read back from `M` at `(i + d0 * j, k + d2 * l)`. -/
theorem Tensor.pairWiseReduce_assigns_once {Scalar : Type} (T : Tensor Scalar 4)
    (storage : Nat → Nat → Scalar) :
    (T.pairWiseReduceLog storage).1 = T.pairWiseReduce storage ∧
    (∀ a : Assignment, a ∈ (T.pairWiseReduceLog storage).2 ↔
      a.i < T.dimension 0 ∧ a.j < T.dimension 1 ∧ a.k < T.dimension 2 ∧ a.l < T.dimension 3 ∧
        a.row_index = a.i + T.dimension 0 * a.j ∧
        a.column_index = a.k + T.dimension 2 * a.l) ∧
    (∀ a : Assignment, a ∈ (T.pairWiseReduceLog storage).2 →
      a.row_index < T.dimension 0 * T.dimension 1 ∧
        a.column_index < T.dimension 2 * T.dimension 3) ∧
    (∀ m n : Nat, m < T.dimension 0 * T.dimension 1 → n < T.dimension 2 * T.dimension 3 →
      (T.pairWiseReduceLog storage).2.filter
          (fun a => decide (a.row_index = m ∧ a.column_index = n)) =
        [(⟨m % T.dimension 0, m / T.dimension 0, n % T.dimension 2, n / T.dimension 2,
          m, n⟩ : Assignment)] ∧
      (T.pairWiseReduce storage).coeff m n =
        T.get (m % T.dimension 0) (m / T.dimension 0) (n % T.dimension 2)
          (n / T.dimension 2)) ∧
    (∀ i j k l : Nat, i < T.dimension 0 → j < T.dimension 1 → k < T.dimension 2 →
      l < T.dimension 3 →
      T.get i j k l =
        (T.pairWiseReduce storage).coeff (i + T.dimension 0 * j) (k + T.dimension 2 * l)) := by
  have hlt : ∀ d e x y : Nat, x < d → y < e → x + d * y < d * e := by
    intro d e x y hx hy
    have h1 : d * (y + 1) ≤ d * e := Nat.mul_le_mul_left d hy
    rw [Nat.mul_succ] at h1
    omega
  rw [Tensor.pairWiseReduceLog_eq]
  refine ⟨rfl, ?_, ?_, ?_, ?_⟩
  · intro a
    show a ∈ assignmentsInOrder _ _ _ _ ↔ _
    rw [mem_assignmentsInOrder, Nat.add_comm (T.dimension 0 * a.j), Nat.add_comm (T.dimension 2 * a.l)]
  · intro a ha
    change a ∈ assignmentsInOrder _ _ _ _ at ha
    rw [mem_assignmentsInOrder] at ha
    obtain ⟨hi, hj, hk, hl, hr, hc⟩ := ha
    rw [hr, hc, Nat.add_comm (T.dimension 0 * a.j), Nat.add_comm (T.dimension 2 * a.l)]
    exact ⟨hlt _ _ _ _ hi hj, hlt _ _ _ _ hk hl⟩
  · intro m n hm hn
    exact ⟨filter_assignmentsInOrder _ _ _ _ m n hm hn,
      Tensor.coeff_pairWiseReduce_mod_div T storage m n hm hn⟩
  · intro i j k l hi hj hk hl
    rw [Tensor.coeff_pairWiseReduce_mod_div T storage _ _ (hlt _ _ _ _ hi hj)
      (hlt _ _ _ _ hk hl), Nat.add_mul_mod_self_left, Nat.add_mul_mod_self_left,
      Nat.mod_eq_of_lt hi, Nat.mod_eq_of_lt hk,
      div_eq_of_eq_mul_add (Nat.add_comm i _) hi, div_eq_of_eq_mul_add (Nat.add_comm k _) hk]

theorem Tensor.pairWiseReduce_assigns_once_witness :
    (exampleTensor.pairWiseReduceLog fun _ _ => -1).2.filter
        (fun a => decide (a.row_index = 5 ∧ a.column_index = 2)) =
      [(⟨5 % exampleTensor.dimension 0, 5 / exampleTensor.dimension 0,
        2 % exampleTensor.dimension 2, 2 / exampleTensor.dimension 2, 5, 2⟩ : Assignment)] ∧
    (exampleTensor.pairWiseReduce fun _ _ => -1).coeff 5 2 =
      exampleTensor.get (5 % exampleTensor.dimension 0) (5 / exampleTensor.dimension 0)
        (2 % exampleTensor.dimension 2) (2 / exampleTensor.dimension 2) :=
  (Tensor.pairWiseReduce_assigns_once exampleTensor fun _ _ => -1).2.2.2.1 5 2
    (by decide) (by decide)

/-! ## The libcint configuration -/

theorem forLoop_add {σ : Type} (f : σ → Nat) (body : Nat → σ → σ) (c : Nat)
    (h : ∀ x s, f (body x s) = f s + c) (n : Nat) (init : σ) :
    f (forLoop n body init) = f init + c * n := by
  induction n with
  | zero => rfl
  | succ n ih => rw [forLoop_succ, h, ih, Nat.mul_succ, Nat.add_assoc]

theorem assign_same {α : Type} (a : Nat → α) (index : Nat) (v : α) :
    assign a index v index = v := by
  simp [assign]

theorem assign_other {α : Type} (a : Nat → α) {index x : Nat} (v : α) (h : x ≠ index) :
    assign a index v x = a x := by
  simp [assign, h]

theorem record_index_ne {B s t n m : Nat} (hs : s < B) (ht : t < B) (hne : n ≠ m) :
    s + B * n ≠ t + B * m := by
  intro h
  apply hne
  have e1 : (s + B * n) / B = n := div_eq_of_eq_mul_add (Nat.add_comm _ _) hs
  have e2 : (t + B * m) / B = m := div_eq_of_eq_mul_add (Nat.add_comm _ _) ht
  rw [← e1, h, e2]

theorem CintHeader.slots_of_valid {hdr : CintHeader} (h : hdr.basSlotsValid = true) :
    (hdr.ATOM_OF < hdr.BAS_SLOTS ∧ hdr.ANG_OF < hdr.BAS_SLOTS ∧ hdr.NPRIM_OF < hdr.BAS_SLOTS ∧
      hdr.NCTR_OF < hdr.BAS_SLOTS ∧ hdr.PTR_EXP < hdr.BAS_SLOTS ∧
      hdr.PTR_COEFF < hdr.BAS_SLOTS) ∧
    (hdr.ANG_OF ≠ hdr.NPRIM_OF ∧ hdr.ANG_OF ≠ hdr.NCTR_OF ∧ hdr.ANG_OF ≠ hdr.PTR_EXP ∧
      hdr.ANG_OF ≠ hdr.PTR_COEFF ∧ hdr.NPRIM_OF ≠ hdr.NCTR_OF ∧ hdr.NPRIM_OF ≠ hdr.PTR_EXP ∧
      hdr.NPRIM_OF ≠ hdr.PTR_COEFF ∧ hdr.NCTR_OF ≠ hdr.PTR_EXP ∧
      hdr.NCTR_OF ≠ hdr.PTR_COEFF ∧ hdr.PTR_EXP ≠ hdr.PTR_COEFF) := by
  unfold CintHeader.basSlotsValid at h
  simp only [Bool.and_eq_true, decide_eq_true_eq, List.nodup_cons, List.mem_cons,
    List.mem_singleton, not_or, List.all_cons, List.all_nil, Bool.and_true, List.not_mem_nil,
    not_false_eq_true, List.nodup_nil, and_true] at h
  obtain ⟨⟨-, ⟨a1, a2, a3, a4⟩, ⟨b1, b2, b3⟩, ⟨c1, c2⟩, d1⟩, l0, l1, l2, l3, l4, l5⟩ := h
  exact ⟨⟨l0, l1, l2, l3, l4, l5⟩, a1, a2, a3, a4, b1, b2, b3, c1, c2, d1⟩

theorem atmConfiguration_bas_offset (hdr : CintHeader) (atoms : List Atom) (natm : Int)
    (st : LibcintState) :
    (atmConfiguration hdr atoms natm st).libcint_bas = st.libcint_bas ∧
    (atmConfiguration hdr atoms natm st).offset = st.offset + 3 * int_to_size_t natm := by
  unfold atmConfiguration
  constructor
  · apply forLoop_preserves (fun s : LibcintState => s.libcint_bas)
    intro i s
    rfl
  · apply forLoop_add (fun s : LibcintState => s.offset)
    intro i s
    rfl

theorem writeExponents_bas_offset (current_shell : Shell) (current_contraction : Contraction)
    (st : LibcintState) :
    (writeExponents current_shell current_contraction st).libcint_bas = st.libcint_bas ∧
    (writeExponents current_shell current_contraction st).offset =
      st.offset + current_contraction.length := by
  unfold writeExponents
  constructor
  · apply forLoop_preserves (fun s : LibcintState => s.libcint_bas)
    intro i s
    rfl
  · rw [forLoop_add (fun s : LibcintState => s.offset) _ 1 (fun _ _ => rfl), Nat.one_mul]

theorem writeCoefficients_bas_offset (hdr : CintHeader) (CINTgto_norm : Int → Rat → Rat)
    (n : Nat) (current_contraction : Contraction) (st : LibcintState) :
    (writeCoefficients hdr CINTgto_norm n current_contraction st).libcint_bas =
      st.libcint_bas ∧
    (writeCoefficients hdr CINTgto_norm n current_contraction st).offset =
      st.offset + current_contraction.length := by
  unfold writeCoefficients
  constructor
  · apply forLoop_preserves (fun s : LibcintState => s.libcint_bas)
    intro i s
    rfl
  · rw [forLoop_add (fun s : LibcintState => s.offset) _ 1 (fun _ _ => rfl), Nat.one_mul]

theorem processContraction_bas (hdr : CintHeader) (CINTgto_norm : Int → Rat → Rat) (n : Nat)
    (current_shell : Shell) (st : LibcintState) (c : Contraction) :
    (processContraction hdr CINTgto_norm n current_shell st c).libcint_bas =
      assign (assign (assign (assign (assign st.libcint_bas
        (hdr.ANG_OF + hdr.BAS_SLOTS * n) (static_cast_int c.l))
        (hdr.NPRIM_OF + hdr.BAS_SLOTS * n) (static_cast_int c.length))
        (hdr.NCTR_OF + hdr.BAS_SLOTS * n) (static_cast_int current_shell.numberOfContractions))
        (hdr.PTR_EXP + hdr.BAS_SLOTS * n) (st.offset : Int))
        (hdr.PTR_COEFF + hdr.BAS_SLOTS * n) ((st.offset + c.length : Nat) : Int) := by
  unfold processContraction
  simp only
  rw [(writeCoefficients_bas_offset _ _ _ _ _).1]
  simp only [LibcintState.assignBas]
  rw [(writeExponents_bas_offset _ _ _).1, (writeExponents_bas_offset _ _ _).2]

theorem processContraction_offset (hdr : CintHeader) (CINTgto_norm : Int → Rat → Rat) (n : Nat)
    (current_shell : Shell) (st : LibcintState) (c : Contraction) :
    (processContraction hdr CINTgto_norm n current_shell st c).offset =
      st.offset + 2 * c.length := by
  unfold processContraction
  simp only
  rw [(writeCoefficients_bas_offset _ _ _ _ _).2]
  simp only [LibcintState.assignBas]
  rw [(writeExponents_bas_offset _ _ _).2]
  show st.offset + c.length + c.length = _
  omega

theorem processContraction_frame (hdr : CintHeader) (CINTgto_norm : Int → Rat → Rat) (n : Nat)
    (current_shell : Shell) (st : LibcintState) (c : Contraction) (index : Nat)
    (h1 : index ≠ hdr.ANG_OF + hdr.BAS_SLOTS * n) (h2 : index ≠ hdr.NPRIM_OF + hdr.BAS_SLOTS * n)
    (h3 : index ≠ hdr.NCTR_OF + hdr.BAS_SLOTS * n) (h4 : index ≠ hdr.PTR_EXP + hdr.BAS_SLOTS * n)
    (h5 : index ≠ hdr.PTR_COEFF + hdr.BAS_SLOTS * n) :
    (processContraction hdr CINTgto_norm n current_shell st c).libcint_bas index =
      st.libcint_bas index := by
  rw [processContraction_bas, assign_other _ _ h5, assign_other _ _ h4, assign_other _ _ h3,
    assign_other _ _ h2, assign_other _ _ h1]

theorem foldl_processContraction (hdr : CintHeader) (CINTgto_norm : Int → Rat → Rat) (n : Nat)
    (current_shell : Shell) (contractions : List Contraction) :
    ∀ st : LibcintState,
      (contractions.foldl (processContraction hdr CINTgto_norm n current_shell) st).offset =
        st.offset + environmentUse contractions ∧
      ∀ index : Nat, index ≠ hdr.ANG_OF + hdr.BAS_SLOTS * n →
        index ≠ hdr.NPRIM_OF + hdr.BAS_SLOTS * n → index ≠ hdr.NCTR_OF + hdr.BAS_SLOTS * n →
        index ≠ hdr.PTR_EXP + hdr.BAS_SLOTS * n → index ≠ hdr.PTR_COEFF + hdr.BAS_SLOTS * n →
        (contractions.foldl (processContraction hdr CINTgto_norm n current_shell)
          st).libcint_bas index = st.libcint_bas index := by
  induction contractions with
  | nil =>
    intro st
    exact ⟨rfl, fun _ _ _ _ _ _ => rfl⟩
  | cons c cs ih =>
    intro st
    rw [List.foldl_cons]
    constructor
    · rw [(ih _).1, processContraction_offset]
      simp only [environmentUse, List.map_cons, List.sum_cons]
      omega
    · intro index h1 h2 h3 h4 h5
      rw [(ih _).2 index h1 h2 h3 h4 h5, processContraction_frame _ _ _ _ _ _ _ h1 h2 h3 h4 h5]

theorem environmentUseBelow_succ (basisset : BasisSet) (n : Nat) :
    environmentUseBelow basisset (n + 1) =
      environmentUseBelow basisset n + environmentUse (basisset.shell n).contractions := by
  unfold environmentUseBelow
  rw [List.range_succ, List.map_append, List.sum_append]
  simp

theorem processShell_offset (hdr : CintHeader) (CINTgto_norm : Int → Rat → Rat)
    (basisset : BasisSet) (n : Nat) (st : LibcintState) :
    (processShell hdr CINTgto_norm basisset n st).offset =
      st.offset + environmentUse (basisset.shell n).contractions := by
  unfold processShell
  simp only
  rw [(foldl_processContraction _ _ _ _ _ _).1]
  simp only [LibcintState.assignBas]
  split <;> rfl

theorem processShell_frame (hdr : CintHeader) (CINTgto_norm : Int → Rat → Rat)
    (basisset : BasisSet) (n : Nat) (st : LibcintState) (index : Nat)
    (h : ∀ slot : Nat, slot < hdr.BAS_SLOTS → index ≠ slot + hdr.BAS_SLOTS * n)
    (hvalid : hdr.basSlotsValid = true) :
    (processShell hdr CINTgto_norm basisset n st).libcint_bas index = st.libcint_bas index := by
  obtain ⟨⟨l0, l1, l2, l3, l4, l5⟩, -⟩ := CintHeader.slots_of_valid hvalid
  unfold processShell
  simp only
  rw [(foldl_processContraction _ _ _ _ _ _).2 index (h _ l1) (h _ l2) (h _ l3) (h _ l4)
    (h _ l5)]
  simp only [LibcintState.assignBas]
  rw [assign_other _ _ (h _ l0)]
  split <;> rfl

theorem processShell_record (hdr : CintHeader) (CINTgto_norm : Int → Rat → Rat)
    (basisset : BasisSet) (n : Nat) (st : LibcintState) (init : List Contraction)
    (last : Contraction) (hc : (basisset.shell n).contractions = init ++ [last])
    (hvalid : hdr.basSlotsValid = true) :
    (processShell hdr CINTgto_norm basisset n st).libcint_bas (hdr.NCTR_OF + hdr.BAS_SLOTS * n) =
        static_cast_int (basisset.shell n).numberOfContractions ∧
    (processShell hdr CINTgto_norm basisset n st).libcint_bas (hdr.ANG_OF + hdr.BAS_SLOTS * n) =
        static_cast_int last.l ∧
    (processShell hdr CINTgto_norm basisset n st).libcint_bas (hdr.NPRIM_OF + hdr.BAS_SLOTS * n) =
        static_cast_int last.length ∧
    (processShell hdr CINTgto_norm basisset n st).libcint_bas (hdr.PTR_EXP + hdr.BAS_SLOTS * n) =
        ((st.offset + environmentUse init : Nat) : Int) ∧
    (processShell hdr CINTgto_norm basisset n st).libcint_bas (hdr.PTR_COEFF + hdr.BAS_SLOTS * n) =
        ((st.offset + environmentUse init + last.length : Nat) : Int) := by
  obtain ⟨-, a1, a2, a3, a4, b1, b2, b3, c1, c2, d1⟩ := CintHeader.slots_of_valid hvalid
  have hoff : ∀ s : LibcintState, s.offset = st.offset →
      (init.foldl (processContraction hdr CINTgto_norm n (basisset.shell n)) s).offset =
        st.offset + environmentUse init := by
    intro s hs
    rw [(foldl_processContraction _ _ _ _ _ _).1, hs]
  unfold processShell
  simp only
  rw [hc, List.foldl_append, List.foldl_cons, List.foldl_nil, processContraction_bas,
    hoff _ (by simp only [LibcintState.assignBas]; split <;> rfl)]
  refine ⟨?_, ?_, ?_, ?_, ?_⟩
  · rw [assign_other _ _ (by omega), assign_other _ _ (by omega), assign_same]
  · rw [assign_other _ _ (by omega), assign_other _ _ (by omega), assign_other _ _ (by omega),
      assign_other _ _ (by omega), assign_same]
  · rw [assign_other _ _ (by omega), assign_other _ _ (by omega), assign_other _ _ (by omega),
      assign_same]
  · rw [assign_other _ _ (by omega), assign_same]
  · rw [assign_same]

theorem basConfiguration_offset (hdr : CintHeader) (CINTgto_norm : Int → Rat → Rat)
    (basisset : BasisSet) (st : LibcintState) (N : Nat) :
    (forLoop N (fun n st => processShell hdr CINTgto_norm basisset n st) st).offset =
      st.offset + environmentUseBelow basisset N := by
  induction N with
  | zero => rfl
  | succ N ih =>
    rw [forLoop_succ, processShell_offset, ih, environmentUseBelow_succ, Nat.add_assoc]

theorem basConfiguration_frame (hdr : CintHeader) (CINTgto_norm : Int → Rat → Rat)
    (basisset : BasisSet) (st : LibcintState) (n slot : Nat) (hslot : slot < hdr.BAS_SLOTS)
    (hvalid : hdr.basSlotsValid = true) (k : Nat) :
    (forLoop (n + 1 + k) (fun n st => processShell hdr CINTgto_norm basisset n st)
        st).libcint_bas (slot + hdr.BAS_SLOTS * n) =
      (forLoop (n + 1) (fun n st => processShell hdr CINTgto_norm basisset n st)
        st).libcint_bas (slot + hdr.BAS_SLOTS * n) := by
  induction k with
  | zero => rfl
  | succ k ih =>
    rw [← Nat.add_assoc, forLoop_succ, processShell_frame _ _ _ _ _ _ _ hvalid, ih]
    intro t ht
    exact record_index_ne hslot ht (by omega)

theorem static_cast_int_of_lt {x : Nat} (h : x < 2 ^ 31) : static_cast_int x = (x : Int) := by
  unfold static_cast_int
  have e : x % 2 ^ 32 = x := Nat.mod_eq_of_lt (by omega)
  rw [e, if_pos h]

theorem libcintConfiguration_offset (hdr : CintHeader) (CINTgto_norm : Int → Rat → Rat)
    (basisset : BasisSet) (atm bas : Nat → Int) (env : Nat → Rat) :
    (libcintConfiguration hdr CINTgto_norm basisset atm bas env).offset =
      hdr.PTR_ENV_START + 3 * int_to_size_t (static_cast_int basisset.atoms.length) +
        environmentUseBelow basisset basisset.numberOfShells := by
  unfold libcintConfiguration basConfiguration
  simp only
  rw [basConfiguration_offset]
  show (atmConfiguration _ _ _ _).offset + _ = _
  rw [(atmConfiguration_bas_offset _ _ _ _).2]

theorem libcintConfiguration_record (hdr : CintHeader)
    (hvalid : hdr.basSlotsValid = true) (CINTgto_norm : Int → Rat → Rat) (basisset : BasisSet)
    (atm bas : Nat → Int) (env : Nat → Rat) (n : Nat) (hn : n < basisset.numberOfShells)
    (init : List Contraction) (last : Contraction)
    (hc : (basisset.shell n).contractions = init ++ [last]) :
    (libcintConfiguration hdr CINTgto_norm basisset atm bas env).libcint_bas
        (hdr.NCTR_OF + hdr.BAS_SLOTS * n) =
      static_cast_int (basisset.shell n).numberOfContractions ∧
    (libcintConfiguration hdr CINTgto_norm basisset atm bas env).libcint_bas
        (hdr.ANG_OF + hdr.BAS_SLOTS * n) = static_cast_int last.l ∧
    (libcintConfiguration hdr CINTgto_norm basisset atm bas env).libcint_bas
        (hdr.NPRIM_OF + hdr.BAS_SLOTS * n) = static_cast_int last.length ∧
    (libcintConfiguration hdr CINTgto_norm basisset atm bas env).libcint_bas
        (hdr.PTR_EXP + hdr.BAS_SLOTS * n) =
      ((hdr.PTR_ENV_START + 3 * int_to_size_t (static_cast_int basisset.atoms.length) +
        environmentUseBelow basisset n + environmentUse init : Nat) : Int) ∧
    (libcintConfiguration hdr CINTgto_norm basisset atm bas env).libcint_bas
        (hdr.PTR_COEFF + hdr.BAS_SLOTS * n) =
      ((hdr.PTR_ENV_START + 3 * int_to_size_t (static_cast_int basisset.atoms.length) +
        environmentUseBelow basisset n + environmentUse init + last.length : Nat) : Int) := by
  obtain ⟨⟨-, l1, l2, l3, l4, l5⟩, -⟩ := CintHeader.slots_of_valid hvalid
  obtain ⟨k, hk⟩ : ∃ k, basisset.numberOfShells = n + 1 + k := ⟨basisset.numberOfShells - (n + 1),
    by omega⟩
  have hfinal : ∀ slot : Nat, slot < hdr.BAS_SLOTS →
      (libcintConfiguration hdr CINTgto_norm basisset atm bas env).libcint_bas
          (slot + hdr.BAS_SLOTS * n) =
        (processShell hdr CINTgto_norm basisset n
          (forLoop n (fun n st => processShell hdr CINTgto_norm basisset n st)
            { atmConfiguration hdr basisset.atoms (static_cast_int basisset.atoms.length)
                { libcint_atm := atm, libcint_bas := bas, libcint_env := env,
                  offset := hdr.PTR_ENV_START, atom_index := 0,
                  previous_atom := (basisset.shell 0).atom } with
              atom_index := 0, previous_atom := (basisset.shell 0).atom })).libcint_bas
          (slot + hdr.BAS_SLOTS * n) := by
    intro slot hslot
    unfold libcintConfiguration basConfiguration
    simp only
    rw [hk, basConfiguration_frame _ _ _ _ _ _ hslot hvalid, forLoop_succ]
  have hstart : (forLoop n (fun n st => processShell hdr CINTgto_norm basisset n st)
      { atmConfiguration hdr basisset.atoms (static_cast_int basisset.atoms.length)
          { libcint_atm := atm, libcint_bas := bas, libcint_env := env,
            offset := hdr.PTR_ENV_START, atom_index := 0,
            previous_atom := (basisset.shell 0).atom } with
        atom_index := 0, previous_atom := (basisset.shell 0).atom }).offset =
      hdr.PTR_ENV_START + 3 * int_to_size_t (static_cast_int basisset.atoms.length) +
        environmentUseBelow basisset n := by
    rw [basConfiguration_offset]
    show (atmConfiguration _ _ _ _).offset + _ = _
    rw [(atmConfiguration_bas_offset _ _ _ _).2]
  have hrec := processShell_record hdr CINTgto_norm basisset n
    (forLoop n (fun n st => processShell hdr CINTgto_norm basisset n st)
      { atmConfiguration hdr basisset.atoms (static_cast_int basisset.atoms.length)
          { libcint_atm := atm, libcint_bas := bas, libcint_env := env,
            offset := hdr.PTR_ENV_START, atom_index := 0,
            previous_atom := (basisset.shell 0).atom } with
        atom_index := 0, previous_atom := (basisset.shell 0).atom }) init last hc hvalid
  rw [hstart] at hrec
  obtain ⟨r1, r2, r3, r4, r5⟩ := hrec
  exact ⟨by rw [hfinal _ l3, r1], by rw [hfinal _ l1, r2], by rw [hfinal _ l2, r3],
    by rw [hfinal _ l4, r4], by rw [hfinal _ l5, r5]⟩

theorem libcintConfiguration_sto3g (CINTgto_norm : Int → Rat → Rat) (atm bas : Nat → Int)
    (env : Nat → Rat) :
    [3, 2, 5, 6, 11, 10, 13, 14].map
        (libcintConfiguration cint_h CINTgto_norm sto3gBasisSet atm bas env).libcint_bas =
      [1, 3, 26, 29, 1, 3, 32, 35] ∧
    (libcintConfiguration cint_h CINTgto_norm sto3gBasisSet atm bas env).offset = 38 := by
  obtain ⟨a1, -, a3, a4, a5⟩ := libcintConfiguration_record cint_h (by decide) CINTgto_norm
    sto3gBasisSet atm bas env 0 (by decide) [] _ rfl
  obtain ⟨b1, -, b3, b4, b5⟩ := libcintConfiguration_record cint_h (by decide) CINTgto_norm
    sto3gBasisSet atm bas env 1 (by decide) [] _ rfl
  refine ⟨?_, libcintConfiguration_offset _ _ _ _ _ _⟩
  simp only [List.map_cons, List.map_nil]
  rw [show (3 : Nat) = cint_h.NCTR_OF + cint_h.BAS_SLOTS * 0 from rfl, a1,
    show (2 : Nat) = cint_h.NPRIM_OF + cint_h.BAS_SLOTS * 0 from rfl, a3,
    show (5 : Nat) = cint_h.PTR_EXP + cint_h.BAS_SLOTS * 0 from rfl, a4,
    show (6 : Nat) = cint_h.PTR_COEFF + cint_h.BAS_SLOTS * 0 from rfl, a5,
    show (11 : Nat) = cint_h.NCTR_OF + cint_h.BAS_SLOTS * 1 from rfl, b1,
    show (10 : Nat) = cint_h.NPRIM_OF + cint_h.BAS_SLOTS * 1 from rfl, b3,
    show (13 : Nat) = cint_h.PTR_EXP + cint_h.BAS_SLOTS * 1 from rfl, b4,
    show (14 : Nat) = cint_h.PTR_COEFF + cint_h.BAS_SLOTS * 1 from rfl, b5]
  decide

/-- C23: in `calculateOverlapIntegrals`, for a shell `n` whose contractions
are `init` followed by `last` (so there is at least one), the basis record of
`n` ends up with `NCTR_OF` equal to `numberOfContractions()` of the shell
converted to `int`, which is the number `m` of contractions when
`numberOfContractions()` returns it and it fits an `int`, while `ANG_OF`,
`NPRIM_OF`, `PTR_EXP` and `PTR_COEFF` are those of the last contraction: its
angular momentum, its length, the offset at which it starts and that offset
plus its length.  Every contraction assigns the same entries of the record,
whatever it holds, and moves the offset on by twice its length, so that the
offset ends at its start value plus three per atom plus twice the lengths of
all contractions. -/
theorem libcintConfiguration_contracted_shell (hdr : CintHeader)
    (hvalid : hdr.basSlotsValid = true) (CINTgto_norm : Int → Rat → Rat) (basisset : BasisSet)
    (atm bas : Nat → Int) (env : Nat → Rat) (n : Nat) (hn : n < basisset.numberOfShells)
    (init : List Contraction) (last : Contraction)
    (hc : (basisset.shell n).contractions = init ++ [last]) :
    (libcintConfiguration hdr CINTgto_norm basisset atm bas env).libcint_bas
        (hdr.NCTR_OF + hdr.BAS_SLOTS * n) =
      static_cast_int (basisset.shell n).numberOfContractions ∧
    ((basisset.shell n).numberOfContractions = (basisset.shell n).contractions.length →
      (basisset.shell n).contractions.length < 2 ^ 31 →
      (libcintConfiguration hdr CINTgto_norm basisset atm bas env).libcint_bas
          (hdr.NCTR_OF + hdr.BAS_SLOTS * n) =
        (((basisset.shell n).contractions.length : Nat) : Int)) ∧
    (libcintConfiguration hdr CINTgto_norm basisset atm bas env).libcint_bas
        (hdr.ANG_OF + hdr.BAS_SLOTS * n) = static_cast_int last.l ∧
    (libcintConfiguration hdr CINTgto_norm basisset atm bas env).libcint_bas
        (hdr.NPRIM_OF + hdr.BAS_SLOTS * n) = static_cast_int last.length ∧
    (libcintConfiguration hdr CINTgto_norm basisset atm bas env).libcint_bas
        (hdr.PTR_EXP + hdr.BAS_SLOTS * n) =
      ((hdr.PTR_ENV_START + 3 * int_to_size_t (static_cast_int basisset.atoms.length) +
        environmentUseBelow basisset n + environmentUse init : Nat) : Int) ∧
    (libcintConfiguration hdr CINTgto_norm basisset atm bas env).libcint_bas
        (hdr.PTR_COEFF + hdr.BAS_SLOTS * n) =
      ((hdr.PTR_ENV_START + 3 * int_to_size_t (static_cast_int basisset.atoms.length) +
        environmentUseBelow basisset n + environmentUse init + last.length : Nat) : Int) ∧
    (∀ (st : LibcintState) (c : Contraction),
      (processContraction hdr CINTgto_norm n (basisset.shell n) st c).libcint_bas
          (hdr.NCTR_OF + hdr.BAS_SLOTS * n) =
        static_cast_int (basisset.shell n).numberOfContractions ∧
      (processContraction hdr CINTgto_norm n (basisset.shell n) st c).libcint_bas
          (hdr.ANG_OF + hdr.BAS_SLOTS * n) = static_cast_int c.l ∧
      (processContraction hdr CINTgto_norm n (basisset.shell n) st c).libcint_bas
          (hdr.NPRIM_OF + hdr.BAS_SLOTS * n) = static_cast_int c.length ∧
      (processContraction hdr CINTgto_norm n (basisset.shell n) st c).libcint_bas
          (hdr.PTR_EXP + hdr.BAS_SLOTS * n) = (st.offset : Int) ∧
      (processContraction hdr CINTgto_norm n (basisset.shell n) st c).libcint_bas
          (hdr.PTR_COEFF + hdr.BAS_SLOTS * n) = ((st.offset + c.length : Nat) : Int) ∧
      (processContraction hdr CINTgto_norm n (basisset.shell n) st c).offset =
        st.offset + 2 * c.length) ∧
    (libcintConfiguration hdr CINTgto_norm basisset atm bas env).offset =
      hdr.PTR_ENV_START + 3 * int_to_size_t (static_cast_int basisset.atoms.length) +
        environmentUseBelow basisset basisset.numberOfShells := by
  obtain ⟨-, a1, a2, a3, a4, b1, b2, b3, c1, c2, d1⟩ := CintHeader.slots_of_valid hvalid
  obtain ⟨r1, r2, r3, r4, r5⟩ :=
    libcintConfiguration_record hdr hvalid CINTgto_norm basisset atm bas env n hn init last hc
  refine ⟨r1, ?_, r2, r3, r4, r5, ?_, libcintConfiguration_offset _ _ _ _ _ _⟩
  · intro hm hlt
    rw [r1, hm, static_cast_int_of_lt hlt]
  · intro st c
    rw [processContraction_bas, processContraction_offset]
    refine ⟨?_, ?_, ?_, ?_, ?_, rfl⟩
    · rw [assign_other _ _ (by omega), assign_other _ _ (by omega), assign_same]
    · rw [assign_other _ _ (by omega), assign_other _ _ (by omega), assign_other _ _ (by omega),
        assign_other _ _ (by omega), assign_same]
    · rw [assign_other _ _ (by omega), assign_other _ _ (by omega), assign_other _ _ (by omega),
        assign_same]
    · rw [assign_other _ _ (by omega), assign_same]
    · rw [assign_same]

theorem libcintConfiguration_contracted_shell_witness :
    cint_h.basSlotsValid = true ∧ 0 < dzBasisSet.numberOfShells ∧
    (libcintConfiguration cint_h (fun _ x => x) dzBasisSet (fun _ => 0) (fun _ => 0)
        (fun _ => 0)).libcint_bas (cint_h.NCTR_OF + cint_h.BAS_SLOTS * 0) =
      (((dzBasisSet.shell 0).contractions.length : Nat) : Int) :=
  ⟨by decide, by decide,
    (libcintConfiguration_contracted_shell cint_h (by decide) (fun _ x => x) dzBasisSet
      (fun _ => 0) (fun _ => 0) (fun _ => 0) 0 (by decide)
      [⟨0, [7 / 10, 6 / 10, 5 / 10], 3⟩] ⟨0, [4 / 10, 3 / 10, 2 / 10], 3⟩ rfl).2.1 rfl
      (by decide)⟩

end GQCP
